import Mathlib

/-!
Verification of the CVAT annotation-interchange module
(`fiftyone/utils/cvat.py`) against its natural-language specification.

Python floats are modelled by exact rationals (`ℚ`), Python ints by `ℤ`,
and Python strings by `String` / `List Char`.  Python dict values are
modelled by association lists; where Python dict *equality* (which is
insertion-order independent) matters, bags are kept in key-sorted
canonical form.
-/

namespace FiftyoneCVAT

/-- Python's built-in `round` on an exact value: round half to even
("banker's rounding"), returning an integer.  `int(round(q))` in the
source is this function, since `round` already returns an integral
value. -/
def pyRound (q : ℚ) : ℤ :=
  let f : ℤ := ⌊q⌋
  let frac : ℚ := q - f
  if frac < 1/2 then f
  else if 1/2 < frac then f + 1
  else if f % 2 = 0 then f else f + 1

/-- Round half away from zero, as the specification's words
"round-half-away-from-zero" describe the pixel rounding.  This is a
spec-side definition used only to compare against the code's rounding. -/
def roundHalfAwayFromZero (q : ℚ) : ℤ :=
  if 0 ≤ q then ⌊q + 1/2⌋ else -⌊-q + 1/2⌋

/-- A point with exact (idealised float) coordinates. -/
abbrev Point := ℚ × ℚ

namespace HasCVATPoints

/-- `HasCVATPoints._to_rel_points`: pixel coordinates to frame-relative
fractions, dividing each axis by the frame dimension. -/
def to_rel_points (points : List Point) (frame_size : ℤ × ℤ) : List Point :=
  points.map (fun p => (p.1 / (frame_size.1 : ℚ), p.2 / (frame_size.2 : ℚ)))

/-- `HasCVATPoints._to_abs_points`: frame-relative coordinates to integer
pixel coordinates via `int(round(x * width))`. -/
def to_abs_points (points : List Point) (frame_size : ℤ × ℤ) : List (ℤ × ℤ) :=
  points.map (fun p => (pyRound (p.1 * (frame_size.1 : ℚ)), pyRound (p.2 * (frame_size.2 : ℚ))))

end HasCVATPoints

/-! ### Python numeric-string parsing

`int(s)` and `float(s)` are modelled on the core numeral syntax: an
optional sign followed by decimal digits, with an optional fractional
part and exponent for floats.  (Surrounding whitespace, digit-group
underscores and the words `inf`/`nan` accepted by CPython are outside
the model; none of the claims depend on them.) -/
/-- The numeric value of a decimal digit character, if it is one. -/
def charToDigit (c : Char) : Option ℕ :=
  if 48 ≤ c.toNat ∧ c.toNat ≤ 57 then some (c.toNat - 48) else none

/-- One Horner step when reading a decimal numeral left to right. -/
def digitsValStep (acc : Option ℕ) (c : Char) : Option ℕ :=
  match acc, charToDigit c with
  | some a, some d => some (10 * a + d)
  | _, _ => Option.none

/-- Value of a string of decimal digits (most significant first);
`none` if any character is not a digit.  The empty list has value 0. -/
def digitsVal (cs : List Char) : Option ℕ :=
  cs.foldl digitsValStep (some 0)

/-- Strip one optional leading sign, returning whether it was `-`. -/
def stripSign : List Char → Bool × List Char
  | [] => (false, [])
  | c :: rest =>
    if c = '-' then (true, rest)
    else if c = '+' then (false, rest)
    else (false, c :: rest)

/-- Split a list at the first character satisfying `p`; the second
component is `none` when no such character occurs. -/
def splitFirst (p : Char → Bool) : List Char → List Char × Option (List Char)
  | [] => ([], none)
  | c :: rest =>
    if p c then ([], some rest)
    else
      let r := splitFirst p rest
      (c :: r.1, r.2)

/-- Python `int(s)`: optional sign then one or more decimal digits. -/
def pyParseIntChars (cs : List Char) : Option ℤ :=
  let sr := stripSign cs
  if sr.2.isEmpty then none
  else (digitsVal sr.2).map (fun m => if sr.1 then -(m : ℤ) else (m : ℤ))

/-- Python `float(s)`: optional sign, decimal digits with optional `.`
fraction, optional `e`/`E` exponent; at least one mantissa digit. -/
def pyParseFloatChars (cs : List Char) : Option ℚ :=
  let sr := stripSign cs
  let me := splitFirst (fun c => c == 'e' || c == 'E') sr.2
  let expVal : Option ℤ := match me.2 with
    | none => some 0
    | some ec => pyParseIntChars ec
  match expVal with
  | none => none
  | some e =>
    let ifp := splitFirst (fun c => c == '.') me.1
    let fp := ifp.2.getD []
    if ifp.1.isEmpty ∧ fp.isEmpty then none
    else
      match digitsVal ifp.1, digitsVal fp with
      | some iv, some fv =>
        let mag : ℚ := ((iv : ℚ) + (fv : ℚ) / (10 : ℚ) ^ fp.length) * (10 : ℚ) ^ e
        some (if sr.1 then -mag else mag)
      | _, _ => none

def pyParseInt (s : String) : Option ℤ := pyParseIntChars s.data

def pyParseFloat (s : String) : Option ℚ := pyParseFloatChars s.data

/-- A Python value as the CVAT module manipulates them: attribute values
and parse results are ints, floats, booleans, strings or `None`. -/
inductive PyValue
  | int (n : ℤ)
  | float (q : ℚ)
  | bool (b : Bool)
  | str (s : String)
  | none
deriving DecidableEq

/-- `_parse_attribute`: recover a typed value from XML attribute text by
trying `int`, then `float`, then the four exact boolean spellings, then
`"None"`, else returning the text unchanged. -/
def parse_attribute (s : String) : PyValue :=
  match pyParseInt s with
  | some n => .int n
  | Option.none =>
    match pyParseFloat s with
    | some q => .float q
    | Option.none =>
      if s = "True" ∨ s = "true" then .bool true
      else if s = "False" ∨ s = "false" then .bool false
      else if s = "None" then .none
      else .str s

/-- Case-mapping of ASCII upper-case letters to lower-case, as the
specification's "compared case-insensitively" reads. -/
def asciiLower (s : String) : String :=
  String.mk (s.data.map (fun c =>
    if 65 ≤ c.toNat ∧ c.toNat ≤ 90 then Char.ofNat (c.toNat + 32) else c))

/-! ### Python dicts as association lists -/
/-- Python dict assignment `d[k] = v`: replace in place if the key is
present, else append. -/
def upsert {α β : Type} [DecidableEq α] (k : α) (v : β) : List (α × β) → List (α × β)
  | [] => [(k, v)]
  | (k1, v1) :: rest => if k1 = k then (k, v) :: rest else (k1, v1) :: upsert k v rest

/-- Python dict lookup `d.get(k)`. -/
def alookup {α β : Type} [DecidableEq α] (k : α) : List (α × β) → Option β
  | [] => Option.none
  | (k1, v1) :: rest => if k1 = k then some v1 else alookup k rest

/-- Python dict-list append `d[k].append(v)` on a `defaultdict(list)`:
append to the entry's list, creating the key at the end if absent. -/
def appendAt {α β : Type} [DecidableEq α] (k : α) (v : β) : List (α × List β) → List (α × List β)
  | [] => [(k, [v])]
  | (k1, vs) :: rest =>
    if k1 = k then (k1, vs ++ [v]) :: rest else (k1, vs) :: appendAt k v rest

namespace CVATLabel

/-- `CVATLabel.parse_attribute`: the HTTP-download attribute parser.
Empty text and `"None"` become `None`; otherwise `float` is attempted;
otherwise the text is kept as a string.  It never produces ints or
booleans. -/
def parse_attribute (s : String) : PyValue :=
  if s = "" ∨ s = "None" then PyValue.none
  else
    match pyParseFloat s with
    | some q => PyValue.float q
    | Option.none => PyValue.str s

/-- One step of the attribute-decoding loop of `CVATLabel.__init__`:
resolve the numeric `spec_id` through the reversed attribute-id map,
parse the value text, and store it in the `attributes` dict only when it
is not `None`.  A `spec_id` absent from the map is a `KeyError`
(`Option.none`). -/
def build_attributes_step (rev : List (ℤ × String))
    (acc : Option (List (String × PyValue))) (e : ℤ × String) :
    Option (List (String × PyValue)) :=
  match acc with
  | Option.none => Option.none
  | some m =>
    match alookup e.1 rev with
    | Option.none => Option.none
    | some name =>
      let val := parse_attribute e.2
      if val = PyValue.none then some m else some (upsert name val m)

/-- The attribute-decoding loop of `CVATLabel.__init__` over all raw
`(spec_id, value-text)` pairs of a downloaded tag or shape. -/
def build_attributes (entries : List (ℤ × String)) (rev : List (ℤ × String)) :
    Option (List (String × PyValue)) :=
  entries.foldl (build_attributes_step rev) (some [])

end CVATLabel

/-! ### The delimited CVAT points string (C9)

Python's `str.split` and `str.join` on one-character separators,
modelled on `List Char`. -/
/-- `sep.join(parts)`. -/
def pyJoin (sep : Char) : List (List Char) → List Char
  | [] => []
  | [x] => x
  | x :: rest => x ++ sep :: pyJoin sep rest

/-- `s.split(sep)` for a one-character separator; splitting the empty
string yields `[[]]`, as in Python. -/
def pySplit (sep : Char) : List Char → List (List Char)
  | [] => [[]]
  | c :: rest =>
    if c = sep then [] :: pySplit sep rest
    else
      match pySplit sep rest with
      | [] => [[c]]
      | r :: rs => (c :: r) :: rs

/-- The decimal digit character for `d`. -/
def digitChar (d : ℕ) : Char := Char.ofNat (48 + d)

/-- The decimal numeral of a natural number, most significant digit
first (`"0"` for zero). -/
def natToChars (m : ℕ) : List Char :=
  if m = 0 then ['0'] else ((Nat.digits 10 m).map digitChar).reverse

/-- The text `"%g" % v` produces for an integer-valued coordinate `v`
with `|v| < 10^6`: on that domain `%g` prints the plain decimal numeral
(beyond six significant digits it would switch to exponent notation,
which is outside this model and excluded by the claim's bound). -/
def intToChars (n : ℤ) : List Char :=
  if n < 0 then '-' :: natToChars n.natAbs else natToChars n.natAbs

/-- `HasCVATPoints._to_cvat_points_str` on integer pixel points:
`";".join("%g,%g" % (x, y) for x, y in points)`. -/
def to_cvat_points_str (points : List (ℤ × ℤ)) : List Char :=
  pyJoin ';' (points.map (fun p => intToChars p.1 ++ ',' :: intToChars p.2))

/-- One `"x,y"` chunk of `HasCVATPoints._parse_cvat_points_str`:
`x, y = xy_str.split(",")` (a `ValueError` unless exactly two parts),
then `int(round(float(·)))` on each part. -/
def parse_cvat_point (xy : List Char) : Option (ℤ × ℤ) :=
  match pySplit ',' xy with
  | [xs, ys] =>
    match pyParseFloatChars xs, pyParseFloatChars ys with
    | some x, some y => some (pyRound x, pyRound y)
    | _, _ => Option.none
  | _ => Option.none

/-- `HasCVATPoints._parse_cvat_points_str`: split on `";"` and parse
each chunk; any failure (ValueError in Python) is `Option.none`. -/
def parse_cvat_points_str (s : List Char) : Option (List (ℤ × ℤ)) :=
  go (pySplit ';' s)
where
  go : List (List Char) → Option (List (ℤ × ℤ))
    | [] => some []
    | xy :: rest =>
      match parse_cvat_point xy, go rest with
      | some p, some ps => some (p :: ps)
      | _, _ => Option.none

/-! ### Task-labels schema merge (C4)

`CVATTaskLabels.merge_task_labels` converts both operands to
`eta.core.image.ImageLabelsSchema` values, merges them, and reads the
result back.  The ETA schema is modelled from the spec as a two-level
map: object label → attribute name → category set (only categorical
attributes arise in this pipeline, since `CVATTaskLabels.to_schema` adds
`CategoricalAttribute`s exclusively).  Maps are kept key-sorted and
category sets sorted, which is exactly the normal form
`CVATTaskLabels.from_schema` produces by sorting labels, attribute names
and categories. -/
/-- The raw `labels` data of a `CVATTaskLabels`: a list of
`(name, attributes)` entries, each attribute a `(name, categories)`
pair. -/
abbrev TaskLabelsData := List (String × List (String × List String))

/-- An ETA image-labels schema in canonical sorted form: label →
attribute → sorted category list. -/
abbrev EtaSchema := List (String × List (String × List String))

/-- Lexicographic strict order on character lists by code point; this is
how Python compares strings when `sorted` orders label names,
attribute names and categories. -/
def ltChars : List Char → List Char → Bool
  | [], [] => false
  | [], _ :: _ => true
  | _ :: _, [] => false
  | a :: as, b :: bs =>
    if a.toNat < b.toNat then true
    else if b.toNat < a.toNat then false
    else ltChars as bs

/-- Python string comparison `s < t` (code-point lexicographic). -/
def strLt (s t : String) : Bool := ltChars s.data t.data

/-- Insert into a sorted list without duplicating; models adding one
value to an ETA category set. -/
def insertSorted (x : String) : List String → List String
  | [] => [x]
  | y :: ys =>
    if x = y then y :: ys
    else if strLt x y then x :: y :: ys
    else y :: insertSorted x ys

/-- Update the value at `k` in a key-sorted association list with `f`,
inserting `(k, init)` when `k` is absent. -/
def upsertSortedWith {β : Type} (k : String) (f : β → β) (init : β) :
    List (String × β) → List (String × β)
  | [] => [(k, init)]
  | (k1, v) :: rest =>
    if k = k1 then (k1, f v) :: rest
    else if strLt k k1 then (k, init) :: (k1, v) :: rest
    else (k1, v) :: upsertSortedWith k f init rest

/-- Modelled from the spec: `ImageLabelsSchema.add_object_label` —
record the label name in the schema (with no attributes yet). -/
def add_object_label (l : String) (s : EtaSchema) : EtaSchema :=
  upsertSortedWith l id [] s

/-- Modelled from the spec: `ImageLabelsSchema.add_object_attribute`
with a `CategoricalAttribute(name, value)` — add `value` to the
category set of attribute `name` of label `l`. -/
def add_object_attribute (l a v : String) (s : EtaSchema) : EtaSchema :=
  upsertSortedWith l
    (fun am => upsertSortedWith a (insertSorted v) [v] am)
    [(a, [v])] s

/-- The inner loop `for _value in _categories` of
`CVATTaskLabels.to_schema`: add every category value of one attribute. -/
def addAttrValues (l a : String) (vs : List String) (s : EtaSchema) : EtaSchema :=
  vs.foldl (fun acc v => add_object_attribute l a v acc) s

/-- The loop `for attribute in label.get("attributes", [])` of
`CVATTaskLabels.to_schema`. -/
def addAttrs (l : String) (attrs : List (String × List String)) (s : EtaSchema) : EtaSchema :=
  attrs.foldl (fun acc q => addAttrValues l q.1 q.2 acc) s

/-- Registering one task label into a schema: `add_object_label`, then
all its attributes' categories. -/
def addEntry (s : EtaSchema) (lab : String × List (String × List String)) : EtaSchema :=
  addAttrs lab.1 lab.2 (add_object_label lab.1 s)

/-- `CVATTaskLabels.to_schema`: register every label name and, for each
attribute, every category value as a categorical attribute value. -/
def to_schema (labels : TaskLabelsData) : EtaSchema :=
  labels.foldl addEntry []

/-- Modelled from the spec: `ImageLabelsSchema.merge_schema` — label-name
union and, per shared label, attribute-name union with category-set
union (merge is monotonic, no categories removed): every label of
`other`, with all its attribute categories, is added to `s`. -/
def merge_schema (s other : EtaSchema) : EtaSchema :=
  other.foldl addEntry s

/-- `CVATTaskLabels.from_schema`: read the schema back as task labels,
labels sorted by name, attribute names sorted, categories sorted.  On
the canonical sorted representation this reading-off is the identity. -/
def from_schema (s : EtaSchema) : TaskLabelsData := s

/-- `CVATTaskLabels.merge_task_labels`: `self.labels` after merging
`other` into `self` — convert both to ETA schemas, merge, read back. -/
def merge_task_labels (self other : TaskLabelsData) : TaskLabelsData :=
  from_schema (merge_schema (to_schema self) (to_schema other))

/-- The normal form of task labels: through `to_schema` and back. -/
def normalizeTaskLabels (labels : TaskLabelsData) : TaskLabelsData :=
  from_schema (to_schema labels)

/-- Key-sorted (strictly increasing) association list over string keys. -/
def KeysSorted {β : Type} (m : List (String × β)) : Prop :=
  m.Pairwise (fun p q => strLt p.1 q.1 = true)

/-- Strictly sorted string list (an ETA category set in canonical form). -/
def CatsSorted (l : List String) : Prop :=
  l.Pairwise (fun a b => strLt a b = true)

/-- Well-formed canonical ETA schema: keys sorted at both levels,
category sets sorted and nonempty (a categorical attribute schema always
holds at least the value it was created with). -/
def WfSchema (s : EtaSchema) : Prop :=
  KeysSorted s ∧ ∀ p ∈ s, KeysSorted p.2 ∧ ∀ q ∈ p.2, CatsSorted q.2 ∧ q.2 ≠ []

/-- A label name is present in a schema. -/
def labelIn (s : EtaSchema) (l : String) : Prop := (alookup l s).isSome

/-- The category set of attribute `a` of label `l` in a schema. -/
def alookup2 (s : EtaSchema) (l a : String) : Option (List String) :=
  (alookup l s).bind (fun am => alookup a am)

/-- A `(label, attribute, category)` triple is present in a schema. -/
def catIn (s : EtaSchema) (l a v : String) : Prop :=
  ∃ cs, alookup2 s l a = some cs ∧ v ∈ cs

/-- A label entry occurs in raw task-labels data. -/
def labelInData (d : TaskLabelsData) (l : String) : Prop :=
  ∃ am, (l, am) ∈ d

/-- A `(label, attribute, category)` triple occurs in raw task-labels
data. -/
def tripleInData (d : TaskLabelsData) (l a v : String) : Prop :=
  ∃ lab ∈ d, lab.1 = l ∧ ∃ q ∈ lab.2, q.1 = a ∧ v ∈ q.2

/-! ### Scalar-field upload (C7)

The schema-resolution fragment of `upload_samples` (the `classes == []`
branch) and the `label_type == "scalar"` branch of
`create_tags_or_shapes`. -/
/-- `str(v)` for the Python values a scalar field holds in this model;
the shortest-round-trip repr of floats is outside the model. -/
def pyStr : PyValue → Option String
  | .str s => some s
  | .int n => some (String.mk (intToChars n))
  | .bool b => some (if b then "True" else "False")
  | .none => some "None"
  | .float _ => Option.none

/-- A CVAT attribute spec dict `{"name": …, "mutable": …,
"input_type": …}` as built by `construct_cvat_attributes`. -/
structure CVATAttrDef where
  name : String
  mutable0 : Bool
  input_type : String
deriving DecidableEq

/-- A CVAT task label `{"name": …, "attributes": […]}`. -/
structure UploadTaskLabel where
  name : String
  attributes : List CVATAttrDef
deriving DecidableEq

/-- An annotation tag dict produced by `create_tags_or_shapes`
(`label_id` still holds the textual class name before `remap_ids`). -/
structure AnnoTag where
  label_id : String
  group : ℕ
  frame : ℕ
  source : String
  attributes : List (String × String)
deriving DecidableEq

/-- The `classes == []` scalar schema resolution of `upload_samples`:
returns the task labels, the attribute names, and
`assign_scalar_attrs`. -/
def resolve_field_labels (label_field : String) (classes : List String)
    (cvat_attributes : List CVATAttrDef) :
    List UploadTaskLabel × List String × Bool :=
  if classes = [] then
    match cvat_attributes with
    | [] =>
      ([⟨label_field, [⟨"value", true, "text"⟩]⟩], ["value"], true)
    | a :: _ =>
      ([⟨label_field, [a]⟩], [a.name], true)
  else
    (classes.map (fun ln => ⟨ln, cvat_attributes⟩),
      cvat_attributes.map (fun a => a.name), false)

/-- The `label_type == "scalar"` branch of `create_tags_or_shapes`:
one tag per sample with a non-`None` field value; `frame` numbers count
only processed samples (the `None` case `continue`s before the
increment).  `attr_names[0]` on an empty list is an `IndexError`
(`Option.none`), as is a value whose `str` is outside the model. -/
def create_scalar_tags (label_field : String) (attr_names : List String)
    (assign_scalar_attrs : Bool) : ℕ → List (Option PyValue) → Option (List AnnoTag)
  | _, [] => some []
  | frame, v? :: rest =>
    match v? with
    | Option.none => create_scalar_tags label_field attr_names assign_scalar_attrs frame rest
    | some v =>
      match pyStr v with
      | Option.none => Option.none
      | some sv =>
        let tag? : Option AnnoTag :=
          if assign_scalar_attrs then
            match attr_names with
            | [] => Option.none
            | a0 :: _ => some ⟨label_field, 0, frame, "manual", [(a0, sv)]⟩
          else some ⟨sv, 0, frame, "manual", []⟩
        match tag?, create_scalar_tags label_field attr_names assign_scalar_attrs
            (frame + 1) rest with
        | some tag, some tags => some (tag :: tags)
        | _, _ => Option.none

/-- The result of uploading one existing scalar label field: resolved
task labels, attribute names, the recorded `assigned_scalar_attrs`
flag, and the tags built from the samples' field values. -/
structure ScalarUploadResult where
  labels : List UploadTaskLabel
  attr_names : List String
  assigned_scalar_attrs : Bool
  tags : List AnnoTag
deriving DecidableEq

/-- `upload_samples` restricted to one existing scalar label field:
schema resolution followed by tag creation. -/
def upload_scalar_field (label_field : String) (classes : List String)
    (cvat_attributes : List CVATAttrDef) (values : List (Option PyValue)) :
    Option ScalarUploadResult :=
  let r := resolve_field_labels label_field classes cvat_attributes
  match create_scalar_tags label_field r.2.1 r.2.2 0 values with
  | Option.none => Option.none
  | some tags => some ⟨r.1, r.2.1, r.2.2, tags⟩

/-! ### Annotation download (C6, C8)

`download_annotations` restricted to one task of one label field: the
per-tag and per-shape loops, with Python runtime errors (`KeyError`,
`IndexError`, `TypeError`, `AttributeError`, `ValueError`) modelled as
`Except.error`. -/
/-- One entry of `frame_id_map[task_id]`: the local sample id and, for
video tasks only, the frame id. -/
structure SampleInfo where
  sample_id : String
  frame_id : Option String
deriving DecidableEq

/-- Per-frame metadata from `/tasks/{id}/data/meta`. -/
structure FrameMeta where
  width : ℤ
  height : ℤ
deriving DecidableEq

/-- A downloaded tag: `{"label_id": …, "frame": …, "attributes": […]}`
with numeric attribute `spec_id`s. -/
structure RemoteTag where
  label_id : ℤ
  frame : ℕ
  attributes : List (ℤ × String)
deriving DecidableEq

/-- A downloaded shape, additionally carrying its geometric kind and the
flat coordinate list. -/
structure RemoteShape where
  stype : String
  points : List ℚ
  label_id : ℤ
  frame : ℕ
  attributes : List (ℤ × String)
deriving DecidableEq

/-- The kind of FiftyOne label a download produces. -/
inductive DKind
  | detection
  | polyline
  | keypoint
  | classification
deriving DecidableEq

/-- A decoded FiftyOne label.  `lid` is the label's identity
(`label._id`): the embedded `label_id` attribute when present, else a
fresh generated id.  `extra` holds the fields set by
`CVATLabel.update_attrs`. -/
structure DLabel where
  kind : DKind
  lid : PyValue
  label : String
  bounding_box : List ℚ := []
  points : List (List Point) := []
  kp_points : List Point := []
  closed : Bool := false
  filled : Bool := false
  attributes : List (String × PyValue) := []
  extra : List (String × PyValue) := []
deriving DecidableEq

/-- Does the character list start with the given pattern? -/
def listStartsWith : List Char → List Char → Bool
  | [], _ => true
  | _ :: _, [] => false
  | p :: ps, c :: cs => p = c && listStartsWith ps cs

/-- `attr_name.startswith("attribute:")`. -/
def startsWithAttr (s : String) : Bool :=
  listStartsWith "attribute:".data s.data

/-- `attr_name.replace("attribute:", "")` for a name that starts with
the prefix once (the only form the upload side produces). -/
def stripAttr (s : String) : String := String.mk (s.data.drop 10)

/-- `{v: k for k, v in attr_id_map[label_id].items()}`. -/
def revPairs (m : List (String × ℤ)) : List (ℤ × String) :=
  m.foldl (fun acc p => upsert p.2 p.1 acc) []

/-- The state `CVATLabel.__init__` builds for a downloaded tag/shape. -/
structure CVATLabelState where
  label_id : ℤ
  class_name : String
  ignore : Bool
  attributes : List (String × PyValue)
  fo_attributes : List (String × PyValue)
deriving DecidableEq

/-- `CVATLabel.__init__`: resolve the class name (a missing id is a
`KeyError`), mark `ignore` when it is not among `classes` — in which
case no attribute is decoded — and otherwise decode the attributes and
collect the `attribute:`-prefixed ones into `fo_attributes`. -/
def CVATLabel.init (label_id : ℤ) (attrEntries : List (ℤ × String))
    (class_map : List (ℤ × String)) (attr_id_map : List (ℤ × List (String × ℤ)))
    (classes : List String) : Except String CVATLabelState :=
  match alookup label_id class_map with
  | Option.none => .error "KeyError: class_map"
  | some class_name =>
    if class_name ∉ classes then .ok ⟨label_id, class_name, true, [], []⟩
    else
      match alookup label_id attr_id_map with
      | Option.none => .error "KeyError: attr_id_map"
      | some aids =>
        match CVATLabel.build_attributes attrEntries (revPairs aids) with
        | Option.none => .error "KeyError: attr_id_map_rev"
        | some attrs =>
          let fo := attrs.filterMap (fun p =>
            if startsWithAttr p.1 then some (stripAttr p.1, p.2) else Option.none)
          .ok ⟨label_id, class_name, false, attrs, fo⟩

/-- `CVATLabel.update_attrs`: re-key the label by the embedded
`label_id` attribute when present, and set every remaining
non-`attribute:` attribute directly on the label. -/
def CVATLabel.update_attrs (st : CVATLabelState) (l : DLabel) : DLabel :=
  let l1 := match alookup "label_id" st.attributes with
    | some v => { l with lid := v }
    | Option.none => l
  let ex := st.attributes.filter (fun p => p.1 != "label_id" && !(startsWithAttr p.1))
  { l1 with extra := ex }

/-- `np.reshape(points, (-1, 2))`: an odd-length list is an error. -/
def toPairs : List ℚ → Option (List Point)
  | [] => some []
  | _ :: [] => Option.none
  | x :: y :: rest => (toPairs rest).map (fun ps => (x, y) :: ps)

/-- A fresh generated label id (FiftyOne's ObjectId). -/
def freshId (n : ℕ) : PyValue := .str (String.mk ('o' :: natToChars n))

/-- `CVATShape.to_detection`: `None` when ignored; otherwise unpack the
four corner coordinates (a `ValueError` otherwise) into a relative
`[x, y, w, h]` box. -/
def CVATShape.to_detection (st : CVATLabelState) (points : List ℚ) (w h : ℤ)
    (fresh : PyValue) : Except String (Option DLabel) :=
  if st.ignore then .ok Option.none
  else
    match points with
    | [xtl, ytl, xbr, ybr] =>
      .ok (some (CVATLabel.update_attrs st
        { kind := .detection, lid := fresh, label := st.class_name,
          bounding_box := [xtl / (w : ℚ), ytl / (h : ℚ),
            (xbr - xtl) / (w : ℚ), (ybr - ytl) / (h : ℚ)],
          attributes := st.fo_attributes }))
    | _ => .error "ValueError: unpack points"

/-- `CVATShape.to_polyline`. -/
def CVATShape.to_polyline (st : CVATLabelState) (points : List ℚ) (w h : ℤ)
    (closed filled : Bool) (fresh : PyValue) : Except String (Option DLabel) :=
  if st.ignore then .ok Option.none
  else
    match toPairs points with
    | Option.none => .error "ValueError: reshape"
    | some pts =>
      .ok (some (CVATLabel.update_attrs st
        { kind := .polyline, lid := fresh, label := st.class_name,
          points := [HasCVATPoints.to_rel_points pts (w, h)],
          closed := closed, filled := filled, attributes := st.fo_attributes }))

/-- `CVATShape.to_points`. -/
def CVATShape.to_points (st : CVATLabelState) (points : List ℚ) (w h : ℤ)
    (fresh : PyValue) : Except String (Option DLabel) :=
  if st.ignore then .ok Option.none
  else
    match toPairs points with
    | Option.none => .error "ValueError: reshape"
    | some pts =>
      .ok (some (CVATLabel.update_attrs st
        { kind := .keypoint, lid := fresh, label := st.class_name,
          kp_points := HasCVATPoints.to_rel_points pts (w, h),
          attributes := st.fo_attributes }))

/-- The bounding box `[x, y, w, h]` of a point list. -/
def hullBBox : List Point → List ℚ
  | [] => [0, 0, 0, 0]
  | p :: rest =>
    let xmin := rest.foldl (fun m q => min m q.1) p.1
    let xmax := rest.foldl (fun m q => max m q.1) p.1
    let ymin := rest.foldl (fun m q => min m q.2) p.2
    let ymax := rest.foldl (fun m q => max m q.2) p.2
    [xmin, ymin, xmax - xmin, ymax - ymin]

/-- Modelled from the spec: `fiftyone.core.labels.Polyline.to_detection`
(invoked by `CVATShape.polyline_to_detection`) demotes a polygon to a
Detection whose bounding box encloses the polyline's points; the
surrounding code then copies the label's non-default fields onto the new
Detection (the generated label identity is fresh). -/
def polyline_to_detection (fresh : PyValue) (l : DLabel) : DLabel :=
  { kind := .detection, lid := fresh, label := l.label,
    bounding_box := hullBBox (l.points.headD []), extra := l.extra }

/-- A value stored under one key of a per-sample results dict: a label,
a per-frame sub-dict of labels, or a raw non-dict value (the code
sometimes stores the frame id itself). -/
inductive EntryVal
  | lab (l : DLabel)
  | sub (m : List (PyValue × DLabel))
  | raw (v : PyValue)
deriving DecidableEq

/-- A per-sample result: a dict of entries, or a raw scalar (the scalar
path assigns the value itself over the dict). -/
inductive SampleVal
  | raw (v : PyValue)
  | dict (m : List (PyValue × EntryVal))
deriving DecidableEq

/-- The download context of one task: the declared field type and the
field's declared class list, the task's id maps, the frame-identity
map, the per-frame metadata, and the recorded scalar-encoding flag.
`download_annotations` never consults the declared `classes` while
decoding: it rebinds `classes = list(class_map.values())` from the
task's own labels, and that derived list is what the decode path below
passes to `CVATLabel`. -/
structure DownloadCtx where
  label_type : String
  classes : List String
  class_map : List (ℤ × String)
  attr_id_map : List (ℤ × List (String × ℤ))
  frame_id_map : List (ℕ × SampleInfo)
  frames : List FrameMeta
  assigned_scalar : Bool
deriving DecidableEq

/-- The mutable state of the download loops: the primary results of the
field, the additional (schema-drift) results keyed by discovered kind,
and the fresh-id counter. -/
structure DState where
  results : List (String × SampleVal)
  additional : List (String × List (String × SampleVal))
  ctr : ℕ
deriving DecidableEq

def getOrErr {α : Type} (o : Option α) (msg : String) : Except String α :=
  match o with
  | some a => .ok a
  | Option.none => .error msg

instance {ε α : Type} [DecidableEq ε] [DecidableEq α] : DecidableEq (Except ε α) :=
  fun x y =>
    match x, y with
    | .error a, .error b =>
      if h : a = b then isTrue (h ▸ rfl)
      else isFalse (fun he => h (Except.error.inj he))
    | .ok a, .ok b =>
      if h : a = b then isTrue (h ▸ rfl)
      else isFalse (fun he => h (Except.ok.inj he))
    | .error _, .ok _ => isFalse (fun he => Except.noConfusion he)
    | .ok _, .error _ => isFalse (fun he => Except.noConfusion he)

/-- `results[label_field][sample_id] = {}` when the sample is absent. -/
def ensureSample (sample_id : String) (r : List (String × SampleVal)) :
    List (String × SampleVal) :=
  if (alookup sample_id r).isSome then r else upsert sample_id (SampleVal.dict []) r

/-- The `store_frame` block shared by the loops: when the frame-identity
entry carries a `frame_id`, ensure `results[…][sample_id][frame_id]`
holds `init` (a `KeyError` when the sample entry is missing, which the
tags loop can hit; a `TypeError` when it is not a dict). -/
def ensureFrame (si : SampleInfo) (init : EntryVal) (r : List (String × SampleVal)) :
    Except String (Option String × List (String × SampleVal)) :=
  match si.frame_id with
  | Option.none => .ok (Option.none, r)
  | some fid =>
    match alookup si.sample_id r with
    | Option.none => .error "KeyError: sample_id"
    | some (SampleVal.raw _) => .error "TypeError: not a dict"
    | some (SampleVal.dict m) =>
      if (alookup (PyValue.str fid) m).isSome then .ok (some fid, r)
      else
        .ok (some fid,
          upsert si.sample_id (SampleVal.dict (upsert (PyValue.str fid) init m)) r)

/-- `bucket[sample_id][frame_id?][label.id] = label` on a per-sample
results dict (Python raises `TypeError` on non-dict intermediates). -/
def storeLabel (sample_id : String) (store : Option String) (label : DLabel)
    (r : List (String × SampleVal)) : Except String (List (String × SampleVal)) :=
  match alookup sample_id r with
  | Option.none => .error "KeyError: sample_id"
  | some (SampleVal.raw _) => .error "TypeError: not a dict"
  | some (SampleVal.dict m) =>
    match store with
    | Option.none =>
      .ok (upsert sample_id (SampleVal.dict (upsert label.lid (EntryVal.lab label) m)) r)
    | some fid =>
      match alookup (PyValue.str fid) m with
      | some (EntryVal.sub mm) =>
        .ok (upsert sample_id
          (SampleVal.dict (upsert (PyValue.str fid)
            (EntryVal.sub (upsert label.lid label mm)) m)) r)
      | some _ => .error "TypeError: frame entry not a dict"
      | Option.none => .error "KeyError: frame_id"

/-- One iteration of the `for shape in shapes` loop of
`download_annotations`. -/
def process_shape (ctx : DownloadCtx) (st : DState) (s : RemoteShape) :
    Except String DState := do
  let metadata ← getOrErr
    (if ctx.frames.length > s.frame then ctx.frames.get? s.frame else ctx.frames.get? 0)
    "IndexError: frames"
  let si ← getOrErr (alookup s.frame ctx.frame_id_map) "KeyError: frame_id_map"
  let results0 := ensureSample si.sample_id st.results
  let sr ← ensureFrame si (EntryVal.sub []) results0
  let store := sr.1
  let results1 := sr.2
  let cst ← CVATLabel.init s.label_id s.attributes ctx.class_map ctx.attr_id_map
    (ctx.class_map.map Prod.snd)
  let dls ←
    (if s.stype = "rectangle" then do
      let l ← CVATShape.to_detection cst s.points metadata.width metadata.height
        (freshId st.ctr)
      .ok (l, "detections", st.ctr + 1)
    else if s.stype = "polygon" then do
      let l ← CVATShape.to_polyline cst s.points metadata.width metadata.height
        true true (freshId st.ctr)
      if ctx.label_type = "detections" ∨ ctx.label_type = "detection" then
        match l with
        | Option.none => .error "AttributeError: NoneType has no attribute _fields"
        | some lab =>
          .ok (some (polyline_to_detection (freshId (st.ctr + 1)) lab), "polylines",
            st.ctr + 2)
      else .ok (l, "polylines", st.ctr + 1)
    else if s.stype = "polyline" then do
      let l ← CVATShape.to_polyline cst s.points metadata.width metadata.height
        false false (freshId st.ctr)
      .ok (l, "polylines", st.ctr + 1)
    else if s.stype = "points" then do
      let l ← CVATShape.to_points cst s.points metadata.width metadata.height
        (freshId st.ctr)
      .ok (l, "keypoints", st.ctr + 1)
    else
      .ok (Option.none, "", st.ctr) : Except String (Option DLabel × String × ℕ))
  match dls.1 with
  | Option.none => .ok { st with results := results1, ctr := dls.2.2 }
  | some label =>
    let new_field_type := dls.2.1
    let expected : List String :=
      if s.stype = "rectangle" then ["detection", "detections"]
      else if s.stype = "polygon" ∨ s.stype = "polyline" then ["polylines", "polyline"]
      else ["keypoints", "keypoint"]
    if ctx.label_type ∉ expected then
      let add0 :=
        if (alookup new_field_type st.additional).isSome then st.additional
        else upsert new_field_type [] st.additional
      let addF ← getOrErr (alookup new_field_type add0) "unreachable"
      let addF0 := ensureSample si.sample_id addF
      let addF1 ←
        match store with
        | Option.none => .ok addF0
        | some _ =>
          (do
            let fr ← ensureFrame si (EntryVal.sub []) addF0
            .ok fr.2)
      let addF2 ← storeLabel si.sample_id store label addF1
      .ok { results := results1, additional := upsert new_field_type addF2 add0,
            ctr := dls.2.2 }
    else
      let results2 ← storeLabel si.sample_id store label results1
      .ok { st with results := results2, ctr := dls.2.2 }

/-- One iteration of the `for tag in tags` loop of
`download_annotations`.  Note the loop reads
`results[label_field][sample_id]` inside the `store_frame` block before
ever creating the sample entry, stores the raw `frame_id` (not a dict)
when it is absent in the classification path, and dereferences
`label.id` without a `None` check. -/
def process_tag (ctx : DownloadCtx) (st : DState) (t : RemoteTag) :
    Except String DState := do
  let si ← getOrErr (alookup t.frame ctx.frame_id_map) "KeyError: frame_id_map"
  let sr ← ensureFrame si (EntryVal.sub []) st.results
  let store := sr.1
  let results0 := sr.2
  if ctx.label_type = "scalar" then
    if ctx.assigned_scalar then
      match t.attributes with
      | [] => .error "IndexError: attributes"
      | (_, value) :: _ =>
        .ok { st with results :=
                upsert si.sample_id (SampleVal.raw (PyValue.str value)) results0 }
    else do
      let cls ← getOrErr (alookup t.label_id ctx.class_map) "KeyError: class_map"
      .ok { st with results :=
              upsert si.sample_id (SampleVal.raw (PyValue.str cls)) results0 }
  else do
    let cst ← CVATLabel.init t.label_id t.attributes ctx.class_map ctx.attr_id_map
      (ctx.class_map.map Prod.snd)
    let label? : Option DLabel :=
      if cst.ignore then Option.none
      else some (CVATLabel.update_attrs cst
        { kind := .classification, lid := freshId st.ctr, label := cst.class_name,
          attributes := cst.fo_attributes })
    let ctr1 := if cst.ignore then st.ctr else st.ctr + 1
    if ctx.label_type = "classification" ∨ ctx.label_type = "classifications" then
      let results1 := ensureSample si.sample_id results0
      let results2 ←
        match store with
        | Option.none => .ok results1
        | some fid =>
          (do
            -- the code stores the raw frame id, not an empty dict, here
            let fr ← ensureFrame si (EntryVal.raw (PyValue.str fid)) results1
            .ok fr.2)
      match label? with
      | Option.none => .error "AttributeError: NoneType has no attribute id"
      | some label => do
        let results3 ← storeLabel si.sample_id store label results2
        .ok { st with results := results3, ctr := ctr1 }
    else
      let add0 :=
        if (alookup "classifications" st.additional).isSome then st.additional
        else upsert "classifications" [] st.additional
      let addF ← getOrErr (alookup "classifications" add0) "unreachable"
      let addF0 := ensureSample si.sample_id addF
      let addF1 ←
        match store with
        | Option.none => .ok addF0
        | some _ =>
          (do
            let fr ← ensureFrame si (EntryVal.sub []) addF0
            .ok fr.2)
      match label? with
      | Option.none => .error "AttributeError: NoneType has no attribute id"
      | some label => do
        let addF2 ← storeLabel si.sample_id store label addF1
        .ok { results := results0, additional := upsert "classifications" addF2 add0,
              ctr := ctr1 }

def process_tags (ctx : DownloadCtx) : DState → List RemoteTag → Except String DState
  | st, [] => .ok st
  | st, t :: rest =>
    match process_tag ctx st t with
    | .error e => .error e
    | .ok st1 => process_tags ctx st1 rest

def process_shapes (ctx : DownloadCtx) : DState → List RemoteShape → Except String DState
  | st, [] => .ok st
  | st, s :: rest =>
    match process_shape ctx st s with
    | .error e => .error e
    | .ok st1 => process_shapes ctx st1 rest

/-- The per-task body of `download_annotations` for one label field:
process all downloaded tags, then all shapes (the fetched `tracks` are
never consumed by the code). -/
def download_task (ctx : DownloadCtx) (tags : List RemoteTag)
    (shapes : List RemoteShape) : Except String DState :=
  match process_tags ctx ⟨[], [], 0⟩ tags with
  | .error e => .error e
  | .ok st => process_shapes ctx st shapes

/-- Number of labels stored under one sample-dict entry. -/
def countEntry : EntryVal → ℕ
  | .lab _ => 1
  | .sub m => m.length
  | .raw _ => 0

/-- Number of labels stored for one sample. -/
def countSample : SampleVal → ℕ
  | .raw _ => 0
  | .dict m => (m.map (fun p => countEntry p.2)).sum

/-- Number of label entries in a per-sample results dict. -/
def countResults (r : List (String × SampleVal)) : ℕ :=
  (r.map (fun p => countSample p.2)).sum

/-! ### Video track aggregation (`CVATTrack` and the frame/track codecs) -/
/-- Python dict update through a `defaultdict`: `d[k] = f(d[k])`, where a
missing key first receives the default `d0`.  Replaces in place if the
key is present, else appends. -/
def dUpd {α β : Type} [DecidableEq α] (k : α) (f : β → β) (d0 : β) :
    List (α × β) → List (α × β)
  | [] => [(k, f d0)]
  | (k1, v) :: rest =>
    if k1 = k then (k1, f v) :: rest else (k1, v) :: dUpd k f d0 rest

/-- Modelled from the spec: a `fiftyone.core.labels` image label
(`Detection` / `Polyline` / `Keypoint`, the three kinds the video codec
handles).  `fiftyone.core.labels` is not under `src/`; the bounding box
is the `[x, y, w, h]` quadruple, custom attributes are a Python dict in
canonical key-sorted form (Python dict equality is order-insensitive, so
the sorted association list is a faithful canonical representative). -/
inductive FOLabel
  | det (label : String) (bb : ℚ × ℚ × ℚ × ℚ) (index : Option ℤ)
      (attrs : List (String × PyValue))
  | pl (label : String) (points : List (List Point)) (closed : Bool)
      (filled : Bool) (index : Option ℤ) (attrs : List (String × PyValue))
  | kp (label : String) (points : List Point) (index : Option ℤ)
      (attrs : List (String × PyValue))
deriving DecidableEq

/-- The `index` field of a label. -/
def FOLabel.index : FOLabel → Option ℤ
  | .det _ _ i _ => i
  | .pl _ _ _ _ i _ => i
  | .kp _ _ i _ => i

/-- The `label` (class name) field of a label. -/
def FOLabel.label : FOLabel → String
  | .det l _ _ _ => l
  | .pl l _ _ _ _ _ => l
  | .kp l _ _ _ => l

/-- The custom-attributes dict of a label. -/
def FOLabel.attrs : FOLabel → List (String × PyValue)
  | .det _ _ _ a => a
  | .pl _ _ _ _ _ a => a
  | .kp _ _ _ a => a

/-- The assignment `label.index = i`. -/
def FOLabel.setIndex (i : Option ℤ) : FOLabel → FOLabel
  | .det l b _ a => .det l b i a
  | .pl l p c f _ a => .pl l p c f i a
  | .kp l p _ a => .kp l p i a

/-- `_is_supported_attribute_type`: bools, strings and numbers are
supported attribute values; `None` (and nothing else in the model) is
not. -/
def is_supported_attribute_type : PyValue → Bool
  | PyValue.none => false
  | _ => true

/-- The attribute names `CVATVideoAnno._parse_attributes` pops into
dedicated CVAT fields. -/
def reservedVideoKeys : List String := ["occluded", "outside", "keyframe"]

/-- The `outside` / `occluded` / `keyframe` flags and remaining custom
attributes of an annotation in CVAT video format (the `CVATVideoAnno`
mixin state). -/
structure CVATVideoAnno where
  outside : Option PyValue
  occluded : Option PyValue
  keyframe : Option PyValue
  attributes : List (String × PyValue)
deriving DecidableEq

/-- `CVATVideoAnno._parse_attributes`: pop `occluded` / `outside` /
`keyframe` out of the label's attribute dict and keep the remaining
attributes of supported type. -/
def parse_video_attributes (attrs : List (String × PyValue)) : CVATVideoAnno :=
  { occluded := alookup "occluded" attrs
    outside := alookup "outside" attrs
    keyframe := alookup "keyframe" attrs
    attributes := attrs.filter
      (fun p => !(reservedVideoKeys.contains p.1) && is_supported_attribute_type p.2) }

/-- One conditional re-insertion of `_to_attributes`: `if v is not None:
attributes[k] = v`, at the sorted position of the canonical dict. -/
def addOptAttr (k : String) (v : Option PyValue)
    (d : List (String × PyValue)) : List (String × PyValue) :=
  match v with
  | some w =>
    if w = PyValue.none then d else upsertSortedWith k (fun _ => w) w d
  | Option.none => d

/-- `CVATVideoAnno._to_attributes`: the dict comprehension over the kept
attribute list (the identity on the canonical distinct-key sorted
representation), then `outside`, `occluded` and `keyframe` re-added when
not `None`. -/
def to_video_attributes (a : CVATVideoAnno) : List (String × PyValue) :=
  addOptAttr "keyframe" a.keyframe
    (addOptAttr "occluded" a.occluded
      (addOptAttr "outside" a.outside a.attributes))

/-- An object bounding box in CVAT video format (`CVATVideoBox`), with
integer pixel corners. -/
structure CVATVideoBox where
  frame : ℤ
  label : String
  xtl : ℤ
  ytl : ℤ
  xbr : ℤ
  ybr : ℤ
  anno : CVATVideoAnno
deriving DecidableEq

/-- `CVATVideoBox.from_detection`: corners are
`int(round(coord * dimension))` of the relative `[x, y, w, h]` box. -/
def CVATVideoBox.from_detection (frame_number : ℤ) (label : String)
    (bb : ℚ × ℚ × ℚ × ℚ) (attrs : List (String × PyValue))
    (frame_size : ℤ × ℤ) : CVATVideoBox :=
  { frame := frame_number
    label := label
    xtl := pyRound (bb.1 * (frame_size.1 : ℚ))
    ytl := pyRound (bb.2.1 * (frame_size.2 : ℚ))
    xbr := pyRound ((bb.1 + bb.2.2.1) * (frame_size.1 : ℚ))
    ybr := pyRound ((bb.2.1 + bb.2.2.2) * (frame_size.2 : ℚ))
    anno := parse_video_attributes attrs }

/-- `CVATVideoBox.to_detection`: back to a relative `[x, y, w, h]`
`Detection` (no index yet), restoring the attribute dict. -/
def CVATVideoBox.to_detection (b : CVATVideoBox) (frame_size : ℤ × ℤ) : FOLabel :=
  .det b.label
    ((b.xtl : ℚ) / (frame_size.1 : ℚ), (b.ytl : ℚ) / (frame_size.2 : ℚ),
      ((b.xbr - b.xtl : ℤ) : ℚ) / (frame_size.1 : ℚ),
      ((b.ybr - b.ytl : ℤ) : ℚ) / (frame_size.2 : ℚ))
    Option.none (to_video_attributes b.anno)

/-- `_get_single_polyline_points`: the first shape of a `Polyline`, or
`[]` when it has none (shapes beyond the first are dropped with a
warning). -/
def get_single_polyline_points (points : List (List Point)) : List Point :=
  match points with
  | [] => []
  | ps :: _ => ps

/-- A polygon in CVAT video format (`CVATVideoPolygon`), with integer
pixel vertices. -/
structure CVATVideoPolygon where
  frame : ℤ
  label : String
  points : List (ℤ × ℤ)
  anno : CVATVideoAnno
deriving DecidableEq

/-- `CVATVideoPolygon.from_polyline`: absolute pixel coordinates of the
polyline's single shape. -/
def CVATVideoPolygon.from_polyline (frame_number : ℤ) (label : String)
    (points : List (List Point)) (attrs : List (String × PyValue))
    (frame_size : ℤ × ℤ) : CVATVideoPolygon :=
  { frame := frame_number
    label := label
    points := HasCVATPoints.to_abs_points (get_single_polyline_points points) frame_size
    anno := parse_video_attributes attrs }

/-- `CVATVideoPolygon.to_polyline`: a closed, filled single-shape
`Polyline` in relative coordinates. -/
def CVATVideoPolygon.to_polyline (p : CVATVideoPolygon) (frame_size : ℤ × ℤ) : FOLabel :=
  .pl p.label
    [HasCVATPoints.to_rel_points
      (p.points.map (fun q => ((q.1 : ℚ), (q.2 : ℚ)))) frame_size]
    true true Option.none (to_video_attributes p.anno)

/-- `if points and polyline.closed: points.append(copy(points[0]))` in
`CVATVideoPolyline.from_polyline`. -/
def appendFirstIfClosed (closed : Bool) (pts : List (ℤ × ℤ)) : List (ℤ × ℤ) :=
  match pts with
  | [] => []
  | a :: rest => if closed then (a :: rest) ++ [a] else a :: rest

/-- A polyline in CVAT video format (`CVATVideoPolyline`), with integer
pixel vertices. -/
structure CVATVideoPolyline where
  frame : ℤ
  label : String
  points : List (ℤ × ℤ)
  anno : CVATVideoAnno
deriving DecidableEq

/-- `CVATVideoPolyline.from_polyline`: absolute pixel coordinates of the
single shape, with the first point appended again when the polyline is
closed. -/
def CVATVideoPolyline.from_polyline (frame_number : ℤ) (label : String)
    (points : List (List Point)) (closed : Bool)
    (attrs : List (String × PyValue)) (frame_size : ℤ × ℤ) : CVATVideoPolyline :=
  { frame := frame_number
    label := label
    points := appendFirstIfClosed closed
      (HasCVATPoints.to_abs_points (get_single_polyline_points points) frame_size)
    anno := parse_video_attributes attrs }

/-- `CVATVideoPolyline.to_polyline`: an open, unfilled single-shape
`Polyline` in relative coordinates. -/
def CVATVideoPolyline.to_polyline (p : CVATVideoPolyline) (frame_size : ℤ × ℤ) : FOLabel :=
  .pl p.label
    [HasCVATPoints.to_rel_points
      (p.points.map (fun q => ((q.1 : ℚ), (q.2 : ℚ)))) frame_size]
    false false Option.none (to_video_attributes p.anno)

/-- A set of keypoints in CVAT video format (`CVATVideoPoints`), with
integer pixel coordinates. -/
structure CVATVideoPoints where
  frame : ℤ
  label : String
  points : List (ℤ × ℤ)
  anno : CVATVideoAnno
deriving DecidableEq

/-- `CVATVideoPoints.from_keypoint`: absolute pixel coordinates of the
keypoints. -/
def CVATVideoPoints.from_keypoint (frame_number : ℤ) (label : String)
    (points : List Point) (attrs : List (String × PyValue))
    (frame_size : ℤ × ℤ) : CVATVideoPoints :=
  { frame := frame_number
    label := label
    points := HasCVATPoints.to_abs_points points frame_size
    anno := parse_video_attributes attrs }

/-- `CVATVideoPoints.to_keypoint`: a `Keypoint` in relative
coordinates. -/
def CVATVideoPoints.to_keypoint (p : CVATVideoPoints) (frame_size : ℤ × ℤ) : FOLabel :=
  .kp p.label
    (HasCVATPoints.to_rel_points
      (p.points.map (fun q => ((q.1 : ℚ), (q.2 : ℚ)))) frame_size)
    Option.none (to_video_attributes p.anno)

/-- An annotation track in CVAT video format (`CVATTrack`): per-kind
dicts mapping frame numbers to video annotations.  `label` is the label
of the last annotation added (`None` when the track is empty). -/
structure CVATTrack where
  id : ℤ
  label : Option String
  width : ℤ
  height : ℤ
  boxes : List (ℤ × CVATVideoBox)
  polygons : List (ℤ × CVATVideoPolygon)
  polylines : List (ℤ × CVATVideoPolyline)
  points : List (ℤ × CVATVideoPoints)
deriving DecidableEq

/-- The accumulator of the `CVATTrack.from_labels` loop. -/
structure TrackBuild where
  label : Option String
  boxes : List (ℤ × CVATVideoBox)
  polygons : List (ℤ × CVATVideoPolygon)
  polylines : List (ℤ × CVATVideoPolyline)
  points : List (ℤ × CVATVideoPoints)
deriving DecidableEq

/-- One iteration of the `CVATTrack.from_labels` loop: dispatch the
label on its kind (filled polylines go to `polygons`, unfilled to
`polylines`) and record its class name. -/
def trackBuildStep (frame_size : ℤ × ℤ) (acc : TrackBuild)
    (fl : ℤ × FOLabel) : TrackBuild :=
  match fl.2 with
  | .det lab bb _ attrs =>
    { acc with
      label := some lab
      boxes := upsert fl.1
        (CVATVideoBox.from_detection fl.1 lab bb attrs frame_size) acc.boxes }
  | .pl lab pts closed filled _ attrs =>
    if filled then
      { acc with
        label := some lab
        polygons := upsert fl.1
          (CVATVideoPolygon.from_polyline fl.1 lab pts attrs frame_size)
          acc.polygons }
    else
      { acc with
        label := some lab
        polylines := upsert fl.1
          (CVATVideoPolyline.from_polyline fl.1 lab pts closed attrs frame_size)
          acc.polylines }
  | .kp lab pts _ attrs =>
    { acc with
      label := some lab
      points := upsert fl.1
        (CVATVideoPoints.from_keypoint fl.1 lab pts attrs frame_size) acc.points }

/-- `CVATTrack.from_labels`: split a frame-number-to-label dict into the
four per-kind dicts of a track with the given id. -/
def CVATTrack.from_labels (id : ℤ) (labels : List (ℤ × FOLabel))
    (frame_size : ℤ × ℤ) : CVATTrack :=
  let b := labels.foldl (trackBuildStep frame_size) ⟨Option.none, [], [], [], []⟩
  ⟨id, b.label, frame_size.1, frame_size.2, b.boxes, b.polygons, b.polylines, b.points⟩

/-- `CVATTrack.to_labels`: convert every annotation of the track back to
a fiftyone label carrying the track id as its `index`, gathered into one
frame-number-to-label dict (boxes, then polygons, polylines and
points). -/
def CVATTrack.to_labels (t : CVATTrack) : List (ℤ × FOLabel) :=
  let fs : ℤ × ℤ := (t.width, t.height)
  let l1 := t.boxes.foldl (fun acc p =>
    upsert p.1 ((CVATVideoBox.to_detection p.2 fs).setIndex (some t.id)) acc) []
  let l2 := t.polygons.foldl (fun acc p =>
    upsert p.1 ((CVATVideoPolygon.to_polyline p.2 fs).setIndex (some t.id)) acc) l1
  let l3 := t.polylines.foldl (fun acc p =>
    upsert p.1 ((CVATVideoPolyline.to_polyline p.2 fs).setIndex (some t.id)) acc) l2
  t.points.foldl (fun acc p =>
    upsert p.1 ((CVATVideoPoints.to_keypoint p.2 fs).setIndex (some t.id)) acc) l3

/-- A value of a per-frame label dict handed to
`_frames_to_cvat_tracks`: a single label, a label-list container, a
`None`, or an unsupported value (ignored with a warning). -/
inductive FrameValue
  | single (l : FOLabel)
  | dets (ls : List FOLabel)
  | pls (ls : List FOLabel)
  | kps (ls : List FOLabel)
  | pynone
  | other
deriving DecidableEq

/-- A per-frame mapping: frame numbers to field-name-keyed label
dicts. -/
abbrev Frames := List (ℤ × List (String × FrameValue))

/-- The mutable state of `_frames_to_cvat_tracks`: the per-index label
dicts, the unindexed labels per frame, and whether any label was
found. -/
structure FramesBuild where
  labels_map : List (ℤ × List (ℤ × FOLabel))
  no_index_map : List (ℤ × List FOLabel)
  found_label : Bool
deriving DecidableEq

/-- `process_label` in `_frames_to_cvat_tracks`: an indexed label goes
to `labels_map[index][frame_number]`, an unindexed one is appended to
`no_index_map[frame_number]`. -/
def process_label (st : FramesBuild) (fn : ℤ) (l : FOLabel) : FramesBuild :=
  match l.index with
  | some i => { st with labels_map := dUpd i (upsert fn l) [] st.labels_map }
  | Option.none => { st with no_index_map := appendAt fn l st.no_index_map }

/-- Dispatch of one frame-dict value in `_frames_to_cvat_tracks`: single
labels and the three container kinds set `found_label` and process every
contained label; `None` and unsupported values are skipped. -/
def processValue (st : FramesBuild) (fn : ℤ) (v : FrameValue) : FramesBuild :=
  match v with
  | .single l => process_label { st with found_label := true } fn l
  | .dets ls => ls.foldl (fun s l => process_label s fn l) { st with found_label := true }
  | .pls ls => ls.foldl (fun s l => process_label s fn l) { st with found_label := true }
  | .kps ls => ls.foldl (fun s l => process_label s fn l) { st with found_label := true }
  | .pynone => st
  | .other => st

/-- The double loop of `_frames_to_cvat_tracks` over frames and their
dict values. -/
def buildFrames (frames : Frames) : FramesBuild :=
  frames.foldl (fun st p => p.2.foldl (fun s q => processValue s p.1 q.2) st)
    ⟨[], [], false⟩

/-- Sorted insertion of an integer into a sorted list. -/
def insIntSorted (x : ℤ) : List ℤ → List ℤ
  | [] => [x]
  | y :: ys => if x ≤ y then x :: y :: ys else y :: insIntSorted x ys

/-- `sorted(...)` on integer keys. -/
def intSort (l : List ℤ) : List ℤ := l.foldr insIntSorted []

/-- `_frames_to_cvat_tracks`: `None` when no label was found; otherwise
one track per index in sorted index order, then one single-frame track
per unindexed label with fresh ids continuing after the maximum index,
in encounter order. -/
def frames_to_cvat_tracks (frames : Frames) (frame_size : ℤ × ℤ) :
    Option (List CVATTrack) :=
  let st := buildFrames frames
  if ¬ st.found_label then Option.none
  else
    let sortedIdx := intSort (st.labels_map.map Prod.fst)
    let step1 := sortedIdx.foldl (fun (acc : ℤ × List CVATTrack) i =>
      (max i acc.1,
        acc.2 ++ [CVATTrack.from_labels i ((alookup i st.labels_map).getD [])
          frame_size])) (-1, [])
    let step2 := st.no_index_map.foldl (fun (acc : ℤ × List CVATTrack) p =>
      p.2.foldl (fun (a : ℤ × List CVATTrack) l =>
        (a.1 + 1,
          a.2 ++ [CVATTrack.from_labels (a.1 + 1) [(p.1, l)] frame_size])) acc)
      (step1.1, step1.2)
    some step2.2

/-- The inner storing block of `_cvat_tracks_to_frames_dict`: create the
per-kind container in the frame dict if needed, then append the label to
it. -/
def addLabelToFrame (fd : List (String × FrameValue)) (l : FOLabel) :
    List (String × FrameValue) :=
  match l with
  | .det .. =>
    let fd1 := if (alookup "detections" fd).isSome then fd
      else upsert "detections" (FrameValue.dets []) fd
    match alookup "detections" fd1 with
    | some (FrameValue.dets ls) => upsert "detections" (FrameValue.dets (ls ++ [l])) fd1
    | _ => fd1
  | .pl .. =>
    let fd1 := if (alookup "polylines" fd).isSome then fd
      else upsert "polylines" (FrameValue.pls []) fd
    match alookup "polylines" fd1 with
    | some (FrameValue.pls ls) => upsert "polylines" (FrameValue.pls (ls ++ [l])) fd1
    | _ => fd1
  | .kp .. =>
    let fd1 := if (alookup "keypoints" fd).isSome then fd
      else upsert "keypoints" (FrameValue.kps []) fd
    match alookup "keypoints" fd1 with
    | some (FrameValue.kps ls) => upsert "keypoints" (FrameValue.kps (ls ++ [l])) fd1
    | _ => fd1

/-- `_cvat_tracks_to_frames_dict`: expand every track to labels and
scatter them into a per-frame mapping on a `defaultdict(dict)`. -/
def cvat_tracks_to_frames_dict (cvat_tracks : List CVATTrack) : Frames :=
  cvat_tracks.foldl (fun frames t =>
    (t.to_labels).foldl (fun fs p =>
      dUpd p.1 (fun fd => addLabelToFrame fd p.2) [] fs) frames) []

/-- The labels stored in one frame dict, in dict order. -/
def collectFrame : List (String × FrameValue) → List FOLabel
  | [] => []
  | q :: rest =>
    (match q.2 with
      | .single l => [l]
      | .dets ls => ls
      | .pls ls => ls
      | .kps ls => ls
      | .pynone => []
      | .other => []) ++ collectFrame rest

/-- All `(frame number, label)` pairs of a per-frame mapping, in
iteration order. -/
def collectLabels : Frames → List (ℤ × FOLabel)
  | [] => []
  | p :: rest => (collectFrame p.2).map (fun l => (p.1, l)) ++ collectLabels rest

/-- The grouping step of `process_label` on its two maps alone. -/
def groupStep (st : List (ℤ × List (ℤ × FOLabel)) × List (ℤ × List FOLabel))
    (p : ℤ × FOLabel) :
    List (ℤ × List (ℤ × FOLabel)) × List (ℤ × List FOLabel) :=
  match p.2.index with
  | some i => (dUpd i (upsert p.1 p.2) [] st.1, st.2)
  | Option.none => (st.1, appendAt p.1 p.2 st.2)

/-- Grouping a flat pair list into the two maps of
`_frames_to_cvat_tracks`. -/
def groupPairs (ps : List (ℤ × FOLabel)) :
    List (ℤ × List (ℤ × FOLabel)) × List (ℤ × List FOLabel) :=
  ps.foldl groupStep ([], [])

/-- All pairs stored in a labels map, in entry order. -/
def groupedPairs : List (ℤ × List (ℤ × FOLabel)) → List (ℤ × FOLabel)
  | [] => []
  | p :: rest => p.2 ++ groupedPairs rest

/-- The unindexed labels of a `no_index_map`, in encounter order. -/
def noIndexList : List (ℤ × List FOLabel) → List (ℤ × FOLabel)
  | [] => []
  | p :: rest => p.2.map (fun l => (p.1, l)) ++ noIndexList rest

/-- The single-frame tracks generated for unindexed labels: consecutive
fresh ids starting right after `c`. -/
def enumTracks (frame_size : ℤ × ℤ) (c : ℤ) :
    List (ℤ × FOLabel) → List CVATTrack
  | [] => []
  | p :: ps =>
    CVATTrack.from_labels (c + 1) [p] frame_size :: enumTracks frame_size (c + 1) ps

/-- Consecutive integers starting right after `c`. -/
def consecFrom (c : ℤ) : ℕ → List ℤ
  | 0 => []
  | n + 1 => (c + 1) :: consecFrom (c + 1) n

/-- `max(index, max_index)` accumulated over a list, as the indexed-track
loop of `_frames_to_cvat_tracks` computes it. -/
def maxIndexOf (l : List ℤ) : ℤ := l.foldl (fun a i => max i a) (-1)

/-- The flat labels of a track list, in order. -/
def tracksLabels : List CVATTrack → List (ℤ × FOLabel)
  | [] => []
  | t :: ts => t.to_labels ++ tracksLabels ts

/-- Attribute dicts the video codec round-trips: canonical (key-sorted)
with no `None` values. -/
def AttrsOk (attrs : List (String × PyValue)) : Prop :=
  KeysSorted attrs ∧ ∀ p ∈ attrs, p.2 ≠ PyValue.none

/-- A relative coordinate pair whose pixel coordinates are exact
integers (rounding loses nothing). -/
def alignedPt (fsz : ℤ × ℤ) (p : Point) : Prop :=
  ((pyRound (p.1 * (fsz.1 : ℚ)) : ℚ) = p.1 * (fsz.1 : ℚ)) ∧
    ((pyRound (p.2 * (fsz.2 : ℚ)) : ℚ) = p.2 * (fsz.2 : ℚ))

/-- The conditions under which one label survives the video codec
unchanged: canonical attributes without `None` values; bounding-box
corners pixel-aligned for detections; for polylines a single shape with
pixel-aligned vertices and `closed = filled` (a filled polyline is
stored as a polygon and read back closed, an unfilled one as a polyline
and read back open); pixel-aligned points for keypoints. -/
def LabelOk (fsz : ℤ × ℤ) : FOLabel → Prop
  | .det _ bb _ attrs =>
    AttrsOk attrs ∧
      ((pyRound (bb.1 * (fsz.1 : ℚ)) : ℚ) = bb.1 * (fsz.1 : ℚ)) ∧
      ((pyRound (bb.2.1 * (fsz.2 : ℚ)) : ℚ) = bb.2.1 * (fsz.2 : ℚ)) ∧
      ((pyRound ((bb.1 + bb.2.2.1) * (fsz.1 : ℚ)) : ℚ) =
        (bb.1 + bb.2.2.1) * (fsz.1 : ℚ)) ∧
      ((pyRound ((bb.2.1 + bb.2.2.2) * (fsz.2 : ℚ)) : ℚ) =
        (bb.2.1 + bb.2.2.2) * (fsz.2 : ℚ))
  | .pl _ pts closed filled _ attrs =>
    AttrsOk attrs ∧ closed = filled ∧
      ∃ ps, pts = [ps] ∧ ∀ q ∈ ps, alignedPt fsz q
  | .kp _ pts _ attrs =>
    AttrsOk attrs ∧ ∀ q ∈ pts, alignedPt fsz q

/-- The box built (if any) from one `(frame, label)` pair by the
`CVATTrack.from_labels` loop. -/
def selBox (fsz : ℤ × ℤ) (p : ℤ × FOLabel) : Option CVATVideoBox :=
  match p.2 with
  | .det lab bb _ attrs => some (CVATVideoBox.from_detection p.1 lab bb attrs fsz)
  | _ => Option.none

/-- The polygon built (if any) from one pair: filled polylines only. -/
def selPolygon (fsz : ℤ × ℤ) (p : ℤ × FOLabel) : Option CVATVideoPolygon :=
  match p.2 with
  | .pl lab pts _ filled _ attrs =>
    if filled then some (CVATVideoPolygon.from_polyline p.1 lab pts attrs fsz)
    else Option.none
  | _ => Option.none

/-- The polyline built (if any) from one pair: unfilled polylines only. -/
def selPolyline (fsz : ℤ × ℤ) (p : ℤ × FOLabel) : Option CVATVideoPolyline :=
  match p.2 with
  | .pl lab pts closed filled _ attrs =>
    if filled then Option.none
    else some (CVATVideoPolyline.from_polyline p.1 lab pts closed attrs fsz)
  | _ => Option.none

/-- The keypoints built (if any) from one pair. -/
def selPoints (fsz : ℤ × ℤ) (p : ℤ × FOLabel) : Option CVATVideoPoints :=
  match p.2 with
  | .kp lab pts _ attrs => some (CVATVideoPoints.from_keypoint p.1 lab pts attrs fsz)
  | _ => Option.none

def condUpsertStep {γ β : Type} (sel : ℤ × γ → Option β)
    (a : List (ℤ × β)) (p : ℤ × γ) : List (ℤ × β) :=
  match sel p with
  | some v => upsert p.1 v a
  | Option.none => a

/-- Pairs holding a detection. -/
def isDetPair (p : ℤ × FOLabel) : Bool :=
  match p.2 with
  | .det .. => true
  | _ => false

/-- Pairs holding a filled polyline (stored as a polygon). -/
def isPolygonPair (p : ℤ × FOLabel) : Bool :=
  match p.2 with
  | .pl _ _ _ filled _ _ => filled
  | _ => false

/-- Pairs holding an unfilled polyline. -/
def isPolylinePair (p : ℤ × FOLabel) : Bool :=
  match p.2 with
  | .pl _ _ _ filled _ _ => !filled
  | _ => false

/-- Pairs holding a keypoint. -/
def isKpPair (p : ℤ × FOLabel) : Bool :=
  match p.2 with
  | .kp .. => true
  | _ => false

/-- The labels one frame-dict value holds. -/
def fvContent : FrameValue → List FOLabel
  | .single l => [l]
  | .dets ls => ls
  | .pls ls => ls
  | .kps ls => ls
  | .pynone => []
  | .other => []

/-- A frame dict `_cvat_tracks_to_frames_dict` can have built: the three
reserved field names hold their matching container kinds. -/
def FrameWf (fd : List (String × FrameValue)) : Prop :=
  ∀ p ∈ fd,
    (p.1 = "detections" → ∃ ls, p.2 = FrameValue.dets ls) ∧
    (p.1 = "polylines" → ∃ ls, p.2 = FrameValue.pls ls) ∧
    (p.1 = "keypoints" → ∃ ls, p.2 = FrameValue.kps ls)

/-- All frame dicts of a mapping are well formed. -/
def FramesWf (fs : Frames) : Prop := ∀ e ∈ fs, FrameWf e.2

/-- The C3 witness scenario: indexed labels using exactly indices
`{0, 2, 5}` and three unindexed labels, in encounter order `b, d, f`. -/
def framesC3 : Frames :=
  [(0, [("f1", FrameValue.single (FOLabel.kp "a" [] (some 5) [])),
        ("f2", FrameValue.single (FOLabel.kp "b" [] Option.none []))]),
   (1, [("f1", FrameValue.single (FOLabel.kp "c" [] (some 0) [])),
        ("f3", FrameValue.single (FOLabel.kp "d" [] Option.none []))]),
   (2, [("f1", FrameValue.single (FOLabel.kp "e" [] (some 2) [])),
        ("f2", FrameValue.single (FOLabel.kp "f" [] Option.none []))])]

/-! ### Theorems -/

theorem pyRound_intCast (n : ℤ) : pyRound (n : ℚ) = n := by
  unfold pyRound
  simp

theorem pyRound_one_half : pyRound (1/2 : ℚ) = 0 := by
  unfold pyRound; norm_num

theorem pyRound_seven_tenths : pyRound (7/10 : ℚ) = 1 := by
  unfold pyRound; norm_num [Int.fract]

/-- C1 counterexample: for `P = [(1/2, 1/2)]` and frame size `(1, 1)`,
the code's round trip returns `[(0, 0)]` (Python's `round` rounds half to
even), not the half-away-from-zero result `[(1, 1)]` the claim asserts. -/
theorem C1_counterexample :
    HasCVATPoints.to_abs_points
        (HasCVATPoints.to_rel_points [((1:ℚ)/2, (1:ℚ)/2)] (1, 1)) (1, 1) ≠
      [(roundHalfAwayFromZero ((1:ℚ)/2), roundHalfAwayFromZero ((1:ℚ)/2))] := by
  have h1 : roundHalfAwayFromZero ((1:ℚ)/2) = 1 := by
    unfold roundHalfAwayFromZero; norm_num
  simp only [HasCVATPoints.to_abs_points, HasCVATPoints.to_rel_points, List.map_cons,
    List.map_nil, h1]
  norm_num [pyRound_one_half]

/-- C1 (amended): for every point list `P` and frame size `(w, h)` with
`w, h > 0`, converting `P` to relative coordinates and back to absolute
coordinates returns `P` with each coordinate independently rounded to the
nearest integer, exact halves rounded half-to-even (Python's `round`). -/
theorem C1_round_trip (P : List Point) (w h : ℤ) (hw : 0 < w) (hh : 0 < h) :
    HasCVATPoints.to_abs_points (HasCVATPoints.to_rel_points P (w, h)) (w, h) =
      P.map (fun p => (pyRound p.1, pyRound p.2)) := by
  unfold HasCVATPoints.to_abs_points HasCVATPoints.to_rel_points
  rw [List.map_map]
  apply List.map_congr_left
  intro p _
  have hw' : (w : ℚ) ≠ 0 := by exact_mod_cast hw.ne'
  have hh' : (h : ℚ) ≠ 0 := by exact_mod_cast hh.ne'
  simp [div_mul_cancel₀, hw', hh']

/-- C1 witness: the round-trip theorem applied at the concrete point list
`[(1/2, 7/10)]` with frame size `(2, 3)`. -/
theorem C1_round_trip_witness :
    (0 < (2:ℤ)) ∧ (0 < (3:ℤ)) ∧
      HasCVATPoints.to_abs_points
          (HasCVATPoints.to_rel_points [((1:ℚ)/2, (7:ℚ)/10)] (2, 3)) (2, 3) =
        [(0, 1)] :=
  ⟨by norm_num, by norm_num, by
    rw [C1_round_trip [((1:ℚ)/2, (7:ℚ)/10)] 2 3 (by norm_num) (by norm_num)]
    simp only [List.map_cons, List.map_nil]
    rw [pyRound_one_half, pyRound_seven_tenths]⟩

/-- C5 counterexample: `"TRUE"` is `"true"` up to case, but
`_parse_attribute` returns it unchanged as text rather than the boolean
the claim's case-insensitive comparison requires. -/
theorem C5_counterexample :
    asciiLower "TRUE" = asciiLower "true" ∧
      parse_attribute "TRUE" = PyValue.str "TRUE" ∧
      parse_attribute "TRUE" ≠ PyValue.bool true := by
  refine ⟨by decide, by decide, by decide⟩

/-- C5 (amended): `_parse_attribute` recovers types in this order: an
integer-parseable string yields an integer; otherwise a float-parseable
string yields a float; otherwise exactly the spellings `"True"`/`"true"`
yield boolean true and `"False"`/`"false"` boolean false (no other
casings); otherwise `"None"` yields null; every other string is returned
unchanged as text. -/
theorem C5_parse_attribute_behavior :
    (∀ s n, pyParseInt s = some n → parse_attribute s = PyValue.int n) ∧
    (∀ s q, pyParseInt s = Option.none → pyParseFloat s = some q →
      parse_attribute s = PyValue.float q) ∧
    (parse_attribute "True" = PyValue.bool true ∧
      parse_attribute "true" = PyValue.bool true ∧
      parse_attribute "False" = PyValue.bool false ∧
      parse_attribute "false" = PyValue.bool false ∧
      parse_attribute "None" = PyValue.none) ∧
    (∀ s, pyParseInt s = Option.none → pyParseFloat s = Option.none →
      s ≠ "True" → s ≠ "true" → s ≠ "False" → s ≠ "false" → s ≠ "None" →
      parse_attribute s = PyValue.str s) := by
  refine ⟨?_, ?_, ⟨by decide, by decide, by decide, by decide, by decide⟩, ?_⟩
  · intro s n h
    simp [parse_attribute, h]
  · intro s q h1 h2
    simp [parse_attribute, h1, h2]
  · intro s h1 h2 h3 h4 h5 h6 h7
    simp [parse_attribute, h1, h2, h3, h4, h5, h6, h7]

/-- C5 witness: the behavior theorem instantiated at `"7"`, `"7.5"` and
`"cat"`. -/
theorem C5_parse_attribute_witness :
    parse_attribute "7" = PyValue.int 7 ∧
      parse_attribute "7.5" = PyValue.float (15/2) ∧
      parse_attribute "cat" = PyValue.str "cat" :=
  ⟨C5_parse_attribute_behavior.1 "7" 7 (by decide),
    C5_parse_attribute_behavior.2.1 "7.5" (15/2) (by decide)
      (by
        simp [pyParseFloat, pyParseFloatChars, stripSign, splitFirst, digitsVal, digitsValStep, charToDigit]
        norm_num),
    C5_parse_attribute_behavior.2.2.2 "cat" (by decide) (by decide)
      (by decide) (by decide) (by decide) (by decide) (by decide)⟩

theorem mem_upsert {α β : Type} [DecidableEq α] {k : α} {v : β} :
    ∀ {l : List (α × β)} {p}, p ∈ upsert k v l → p = (k, v) ∨ p ∈ l := by
  intro l
  induction l with
  | nil => intro p hp; simp [upsert] at hp; exact Or.inl hp
  | cons hd tl ih =>
    intro p hp
    by_cases hk : hd.1 = k
    · rw [show hd = (hd.1, hd.2) from rfl, upsert, if_pos hk] at hp
      rw [List.mem_cons] at hp
      rcases hp with h | h
      · exact Or.inl h
      · exact Or.inr (List.mem_cons_of_mem _ h)
    · rw [show hd = (hd.1, hd.2) from rfl, upsert, if_neg hk] at hp
      rw [List.mem_cons] at hp
      rcases hp with h | h
      · exact Or.inr (h ▸ List.mem_cons_self _ _)
      · rcases ih h with h1 | h1
        · exact Or.inl h1
        · exact Or.inr (List.mem_cons_of_mem _ h1)

theorem build_attributes_step_none (rev : List (ℤ × String)) :
    ∀ rest : List (ℤ × String),
      rest.foldl (CVATLabel.build_attributes_step rev) Option.none = Option.none := by
  intro rest
  induction rest with
  | nil => rfl
  | cons r rs ih => simpa [CVATLabel.build_attributes_step] using ih

theorem build_attributes_values {P : String × PyValue → Prop}
    (hP : ∀ k s, CVATLabel.parse_attribute s ≠ PyValue.none → P (k, CVATLabel.parse_attribute s)) :
    ∀ (entries : List (ℤ × String)) (rev : List (ℤ × String))
      (acc m : List (String × PyValue)),
      (∀ p ∈ acc, P p) →
      entries.foldl (CVATLabel.build_attributes_step rev) (some acc) = some m →
      ∀ p ∈ m, P p := by
  intro entries
  induction entries with
  | nil =>
    intro rev acc m hacc hm
    simp at hm
    exact hm ▸ hacc
  | cons e rest ih =>
    intro rev acc m hacc hm
    rw [List.foldl_cons] at hm
    rcases h1 : alookup e.1 rev with _ | name
    · rw [show CVATLabel.build_attributes_step rev (some acc) e = Option.none by
        simp [CVATLabel.build_attributes_step, h1]] at hm
      exact absurd hm (by simp [build_attributes_step_none])
    · by_cases hv : CVATLabel.parse_attribute e.2 = PyValue.none
      · rw [show CVATLabel.build_attributes_step rev (some acc) e = some acc by
          simp [CVATLabel.build_attributes_step, h1, hv]] at hm
        exact ih rev acc m hacc hm
      · rw [show CVATLabel.build_attributes_step rev (some acc) e =
            some (upsert name (CVATLabel.parse_attribute e.2) acc) by
          simp [CVATLabel.build_attributes_step, h1, hv]] at hm
        refine ih rev _ m ?_ hm
        intro p hp
        rcases mem_upsert hp with h | h
        · exact h ▸ hP name e.2 hv
        · exact hacc p h

/-- C10: the HTTP-download attribute parser `CVATLabel.parse_attribute`
never produces a boolean or an integer; empty text and `"None"` give
null (and null-valued attributes are omitted from the decoded dict),
float-parseable text (including integer text) gives a float, and every
other string — including `"true"` and `"false"` — stays a string. -/
theorem C10_download_parse_attribute :
    (CVATLabel.parse_attribute "" = PyValue.none ∧
      CVATLabel.parse_attribute "None" = PyValue.none) ∧
    (∀ s q, pyParseFloat s = some q → s ≠ "" → s ≠ "None" →
      CVATLabel.parse_attribute s = PyValue.float q) ∧
    (∀ s, pyParseFloat s = Option.none → s ≠ "" → s ≠ "None" →
      CVATLabel.parse_attribute s = PyValue.str s) ∧
    (∀ s b, CVATLabel.parse_attribute s ≠ PyValue.bool b) ∧
    (∀ s n, CVATLabel.parse_attribute s ≠ PyValue.int n) ∧
    (∀ entries rev m, CVATLabel.build_attributes entries rev = some m →
      ∀ p ∈ m, p.2 ≠ PyValue.none ∧ (∀ b, p.2 ≠ PyValue.bool b) ∧
        (∀ n, p.2 ≠ PyValue.int n)) := by
  have hcases : ∀ s, CVATLabel.parse_attribute s = PyValue.none ∨
      (∃ q, CVATLabel.parse_attribute s = PyValue.float q) ∨
      CVATLabel.parse_attribute s = PyValue.str s := by
    intro s
    unfold CVATLabel.parse_attribute
    by_cases h : s = "" ∨ s = "None"
    · simp [h]
    · rcases hf : pyParseFloat s with _ | q
      · simp [h, hf]
      · simp [h, hf]
  refine ⟨⟨by decide, by decide⟩, ?_, ?_, ?_, ?_, ?_⟩
  · intro s q hq h1 h2
    simp [CVATLabel.parse_attribute, h1, h2, hq]
  · intro s hq h1 h2
    simp [CVATLabel.parse_attribute, h1, h2, hq]
  · intro s b
    rcases hcases s with h | ⟨q, h⟩ | h <;> simp [h]
  · intro s n
    rcases hcases s with h | ⟨q, h⟩ | h <;> simp [h]
  · intro entries rev m hm
    refine build_attributes_values ?_ entries rev [] m (by simp) hm
    intro k s hv
    rcases hcases s with h | ⟨q, h⟩ | h
    · exact absurd h hv
    · rw [h]; simp
    · rw [h]; simp

theorem pySplit_ne_nil (sep : Char) : ∀ cs, pySplit sep cs ≠ [] := by
  intro cs
  induction cs with
  | nil => simp [pySplit]
  | cons c rest ih =>
    by_cases h : c = sep
    · simp [pySplit, h]
    · rcases h1 : pySplit sep rest with _ | ⟨r, rs⟩
      · exact absurd h1 ih
      · simp [pySplit, h, h1]

theorem pySplit_of_not_mem (sep : Char) :
    ∀ cs, sep ∉ cs → pySplit sep cs = [cs] := by
  intro cs
  induction cs with
  | nil => intro _; rfl
  | cons c rest ih =>
    intro h
    have hc : c ≠ sep := fun hc => h (hc ▸ List.mem_cons_self _ _)
    have hr : sep ∉ rest := fun hr => h (List.mem_cons_of_mem _ hr)
    simp [pySplit, hc, ih hr]

theorem pySplit_append (sep : Char) :
    ∀ xs t, sep ∉ xs → pySplit sep (xs ++ sep :: t) = xs :: pySplit sep t := by
  intro xs
  induction xs with
  | nil => intro t _; simp [pySplit]
  | cons c rest ih =>
    intro t h
    have hc : c ≠ sep := fun hc => h (hc ▸ List.mem_cons_self _ _)
    have hr : sep ∉ rest := fun hr => h (List.mem_cons_of_mem _ hr)
    have h1 := ih t hr
    simp only [List.cons_append, pySplit, hc, if_neg hc]
    rw [show rest.append (sep :: t) = rest ++ sep :: t from rfl, h1]
    simp

theorem pySplit_pyJoin (sep : Char) :
    ∀ parts, parts ≠ [] → (∀ p ∈ parts, sep ∉ p) →
      pySplit sep (pyJoin sep parts) = parts := by
  intro parts
  induction parts with
  | nil => intro h _; exact absurd rfl h
  | cons x rest ih =>
    intro _ hs
    rcases rest with _ | ⟨y, ys⟩
    · exact pySplit_of_not_mem sep x (hs x (List.mem_cons_self _ _))
    · rw [show pyJoin sep (x :: y :: ys) = x ++ sep :: pyJoin sep (y :: ys) from rfl]
      rw [pySplit_append sep x _ (hs x (List.mem_cons_self _ _))]
      rw [ih (by simp) (fun p hp => hs p (List.mem_cons_of_mem _ hp))]

theorem charToDigit_digitChar : ∀ d, d < 10 → charToDigit (digitChar d) = some d := by
  decide

theorem digitChar_ne_special : ∀ d, d < 10 →
    digitChar d ≠ ';' ∧ digitChar d ≠ ',' ∧ digitChar d ≠ '-' ∧ digitChar d ≠ '+' ∧
      ((digitChar d == 'e' || digitChar d == 'E') = false) ∧
      ((digitChar d == '.') = false) := by
  decide

theorem foldl_digitsValStep :
    ∀ (es : List ℕ) (a : ℕ), (∀ d ∈ es, d < 10) →
      (es.map digitChar).foldl digitsValStep (some a) =
        some (es.foldl (fun x d => 10 * x + d) a) := by
  intro es
  induction es with
  | nil => intro a _; rfl
  | cons e es ih =>
    intro a h
    simp only [List.map_cons, List.foldl_cons]
    rw [show digitsValStep (some a) (digitChar e) = some (10 * a + e) by
      simp [digitsValStep, charToDigit_digitChar e (h e (List.mem_cons_self _ _))]]
    exact ih _ (fun d hd => h d (List.mem_cons_of_mem _ hd))

theorem foldl_msb_eq_ofDigits (ds : List ℕ) :
    (ds.reverse).foldl (fun x d => 10 * x + d) 0 = Nat.ofDigits 10 ds := by
  rw [List.foldl_reverse]
  induction ds with
  | nil => simp [Nat.ofDigits]
  | cons d ds ih =>
    simp only [List.foldr_cons, ih, Nat.ofDigits_cons]
    omega

theorem digitsVal_natToChars (m : ℕ) : digitsVal (natToChars m) = some m := by
  unfold natToChars
  by_cases h : m = 0
  · subst h; decide
  · rw [if_neg h]
    unfold digitsVal
    have hrev : ((Nat.digits 10 m).map digitChar).reverse =
        ((Nat.digits 10 m).reverse).map digitChar := by
      rw [List.map_reverse]
    have h1 : ∀ d ∈ (Nat.digits 10 m).reverse, d < 10 := fun d hd =>
      Nat.digits_lt_base (by norm_num) (List.mem_reverse.mp hd)
    rw [hrev, foldl_digitsValStep _ 0 h1, foldl_msb_eq_ofDigits, Nat.ofDigits_digits]

theorem natToChars_ne_nil (m : ℕ) : natToChars m ≠ [] := by
  unfold natToChars
  by_cases h : m = 0
  · simp [h]
  · rw [if_neg h]
    simp [Nat.digits_ne_nil_iff_ne_zero.mpr h]

theorem mem_natToChars (m : ℕ) : ∀ c ∈ natToChars m, ∃ d, d < 10 ∧ c = digitChar d := by
  intro c hc
  unfold natToChars at hc
  by_cases h : m = 0
  · rw [if_pos h] at hc
    simp at hc
    exact ⟨0, by norm_num, by rw [hc]; rfl⟩
  · rw [if_neg h, List.mem_reverse, List.mem_map] at hc
    rcases hc with ⟨d, hd, hcd⟩
    exact ⟨d, Nat.digits_lt_base (by norm_num) hd, hcd.symm⟩

theorem stripSign_natToChars (m : ℕ) : stripSign (natToChars m) = (false, natToChars m) := by
  rcases h : natToChars m with _ | ⟨c, rest⟩
  · exact absurd h (natToChars_ne_nil m)
  · have hc : c ∈ natToChars m := h ▸ List.mem_cons_self _ _
    rcases mem_natToChars m c hc with ⟨d, hd, rfl⟩
    rcases digitChar_ne_special d hd with ⟨_, _, h3, h4, _, _⟩
    simp [stripSign, h3, h4]

theorem splitFirst_eq_self (p : Char → Bool) :
    ∀ cs, (∀ c ∈ cs, p c = false) → splitFirst p cs = (cs, Option.none) := by
  intro cs
  induction cs with
  | nil => intro _; rfl
  | cons c rest ih =>
    intro h
    have hc := h c (List.mem_cons_self _ _)
    have hr := ih (fun x hx => h x (List.mem_cons_of_mem _ hx))
    simp [splitFirst, hc, hr]

theorem natToChars_isEmpty (m : ℕ) : (natToChars m).isEmpty = false := by
  rcases h : natToChars m with _ | ⟨c, cs⟩
  · exact absurd h (natToChars_ne_nil m)
  · rfl

theorem digitsVal_nil : digitsVal [] = some 0 := rfl

theorem pyParseFloat_natToChars (m : ℕ) : pyParseFloatChars (natToChars m) = some (m : ℚ) := by
  have hmem := mem_natToChars m
  have hnoexp : ∀ c ∈ natToChars m, (c == 'e' || c == 'E') = false := by
    intro c hc
    rcases hmem c hc with ⟨d, hd, rfl⟩
    exact (digitChar_ne_special d hd).2.2.2.2.1
  have hnodot : ∀ c ∈ natToChars m, (c == '.') = false := by
    intro c hc
    rcases hmem c hc with ⟨d, hd, rfl⟩
    exact (digitChar_ne_special d hd).2.2.2.2.2
  simp only [pyParseFloatChars, stripSign_natToChars, splitFirst_eq_self _ _ hnoexp,
    splitFirst_eq_self _ _ hnodot, natToChars_isEmpty m, digitsVal_natToChars m,
    Option.getD_none, List.isEmpty_nil, digitsVal_nil]
  norm_num

theorem pyParseFloat_intToChars (n : ℤ) : pyParseFloatChars (intToChars n) = some (n : ℚ) := by
  unfold intToChars
  by_cases h : n < 0
  · rw [if_pos h]
    have hmem := mem_natToChars n.natAbs
    have hnoexp : ∀ c ∈ natToChars n.natAbs, (c == 'e' || c == 'E') = false := by
      intro c hc
      rcases hmem c hc with ⟨d, hd, rfl⟩
      exact (digitChar_ne_special d hd).2.2.2.2.1
    have hnodot : ∀ c ∈ natToChars n.natAbs, (c == '.') = false := by
      intro c hc
      rcases hmem c hc with ⟨d, hd, rfl⟩
      exact (digitChar_ne_special d hd).2.2.2.2.2
    have hstrip : stripSign ('-' :: natToChars n.natAbs) = (true, natToChars n.natAbs) := by
      simp [stripSign]
    simp only [pyParseFloatChars, hstrip, splitFirst_eq_self _ _ hnoexp,
      splitFirst_eq_self _ _ hnodot, natToChars_isEmpty n.natAbs,
      digitsVal_natToChars n.natAbs, Option.getD_none, List.isEmpty_nil, digitsVal_nil]
    have h2 : ((n.natAbs : ℚ)) = -(n : ℚ) := by
      rw [Int.cast_natAbs]
      exact_mod_cast abs_of_neg h
    rw [h2]
    norm_num
  · rw [if_neg h]
    rw [pyParseFloat_natToChars]
    have h2 : ((n.natAbs : ℚ)) = (n : ℚ) := by
      rw [Int.cast_natAbs]
      exact_mod_cast abs_of_nonneg (not_lt.mp h)
    rw [h2]

theorem comma_not_mem_intToChars (n : ℤ) : ',' ∉ intToChars n := by
  intro hc
  unfold intToChars at hc
  have hdig : ∀ c ∈ natToChars n.natAbs, c ≠ ',' := by
    intro c hmm
    rcases mem_natToChars n.natAbs c hmm with ⟨d, hd, rfl⟩
    exact (digitChar_ne_special d hd).2.1
  by_cases h : n < 0
  · rw [if_pos h, List.mem_cons] at hc
    rcases hc with h1 | h1
    · exact absurd h1.symm (by decide)
    · exact hdig _ h1 rfl
  · rw [if_neg h] at hc
    exact hdig _ hc rfl

theorem semi_not_mem_chunk (a b : ℤ) : ';' ∉ intToChars a ++ ',' :: intToChars b := by
  intro hc
  have hdig : ∀ (n : ℤ), ∀ c ∈ intToChars n, c ≠ ';' := by
    intro n c hmm
    unfold intToChars at hmm
    have hdig1 : ∀ c ∈ natToChars n.natAbs, c ≠ ';' := by
      intro c1 hm1
      rcases mem_natToChars n.natAbs c1 hm1 with ⟨d, hd, rfl⟩
      exact (digitChar_ne_special d hd).1
    by_cases h : n < 0
    · rw [if_pos h, List.mem_cons] at hmm
      rcases hmm with h1 | h1
      · exact h1 ▸ (by decide)
      · exact hdig1 _ h1
    · rw [if_neg h] at hmm
      exact hdig1 _ hmm
  rw [List.mem_append, List.mem_cons] at hc
  rcases hc with h1 | h1 | h1
  · exact hdig a _ h1 rfl
  · exact absurd h1.symm (by decide)
  · exact hdig b _ h1 rfl

theorem parse_point_chunk (a b : ℤ) :
    parse_cvat_point (intToChars a ++ ',' :: intToChars b) = some (a, b) := by
  unfold parse_cvat_point
  rw [pySplit_append ',' _ _ (comma_not_mem_intToChars a),
    pySplit_of_not_mem ',' _ (comma_not_mem_intToChars b)]
  simp [pyParseFloat_intToChars, pyRound_intCast]

theorem parse_go_chunks :
    ∀ pts : List (ℤ × ℤ),
      parse_cvat_points_str.go
        (pts.map (fun p => intToChars p.1 ++ ',' :: intToChars p.2)) = some pts := by
  intro pts
  induction pts with
  | nil => rfl
  | cons p ps ih =>
    simp only [List.map_cons, parse_cvat_points_str.go, parse_point_chunk p.1 p.2, ih]

/-- C9 counterexample: for the empty point list, serialization yields
the empty string and parsing it back fails (Python raises `ValueError`
unpacking `"".split(",")`), so the round trip does not return `[]`. -/
theorem C9_counterexample :
    parse_cvat_points_str (to_cvat_points_str []) ≠ some ([] : List (ℤ × ℤ)) := by
  decide

/-- C9 (amended): for every NONEMPTY point list with integer coordinates
of magnitude below `10^6` (where `"%g"` prints the exact decimal
numeral), serializing to the delimited CVAT points string and parsing it
back returns the original list. -/
theorem C9_points_str_round_trip (pts : List (ℤ × ℤ)) (hne : pts ≠ [])
    (hbound : ∀ p ∈ pts, p.1.natAbs < 1000000 ∧ p.2.natAbs < 1000000) :
    parse_cvat_points_str (to_cvat_points_str pts) = some pts := by
  unfold to_cvat_points_str parse_cvat_points_str
  rw [pySplit_pyJoin ';' _ (by simpa using hne)
    (by
      intro chunk hchunk
      rw [List.mem_map] at hchunk
      rcases hchunk with ⟨p, _, rfl⟩
      exact semi_not_mem_chunk p.1 p.2)]
  exact parse_go_chunks pts

/-- C9 witness: the round-trip theorem applied at `[(3, -4)]`. -/
theorem C9_points_str_round_trip_witness :
    ([((3:ℤ), (-4:ℤ))] ≠ []) ∧
      (∀ p ∈ [((3:ℤ), (-4:ℤ))], p.1.natAbs < 1000000 ∧ p.2.natAbs < 1000000) ∧
      parse_cvat_points_str (to_cvat_points_str [((3:ℤ), (-4:ℤ))]) =
        some [((3:ℤ), (-4:ℤ))] :=
  ⟨by decide, by decide, C9_points_str_round_trip _ (by decide) (by decide)⟩

/-- C10 witness: the parser theorem instantiated at `"true"`, `"3"` and
a concrete attribute list containing one float and one omitted `"None"`
value. -/
theorem C10_download_parse_attribute_witness :
    CVATLabel.parse_attribute "true" = PyValue.str "true" ∧
      CVATLabel.parse_attribute "3" = PyValue.float 3 ∧
      CVATLabel.build_attributes [(1, "5"), (2, "None")] [(1, "a"), (2, "b")] =
        some [("a", PyValue.float 5)] ∧
      (∀ p ∈ [(("a" : String), PyValue.float 5)], p.2 ≠ PyValue.none ∧
        (∀ b, p.2 ≠ PyValue.bool b) ∧ (∀ n, p.2 ≠ PyValue.int n)) := by
  have hfl3 : pyParseFloat "3" = some 3 := by
    simp [pyParseFloat, pyParseFloatChars, stripSign, splitFirst, digitsVal, digitsValStep, charToDigit]
  have hbuild : CVATLabel.build_attributes [(1, "5"), (2, "None")] [(1, "a"), (2, "b")] =
      some [("a", PyValue.float 5)] := by
    have hfl5 : pyParseFloat "5" = some 5 := by
      simp [pyParseFloat, pyParseFloatChars, stripSign, splitFirst, digitsVal, digitsValStep, charToDigit]
    simp [CVATLabel.build_attributes, CVATLabel.build_attributes_step, alookup, upsert,
      CVATLabel.parse_attribute, hfl5]
  refine ⟨C10_download_parse_attribute.2.2.1 "true" (by decide) (by decide) (by decide),
    C10_download_parse_attribute.2.1 "3" 3 hfl3 (by decide) (by decide),
    hbuild,
    C10_download_parse_attribute.2.2.2.2.2 _ _ _ hbuild⟩

theorem ltChars_irrefl : ∀ l, ltChars l l = false := by
  intro l
  induction l with
  | nil => rfl
  | cons c cs ih => simp [ltChars, ih]

theorem ltChars_asymm : ∀ l1 l2, ltChars l1 l2 = true → ltChars l2 l1 = false := by
  intro l1
  induction l1 with
  | nil => intro l2 h; cases l2 <;> simp [ltChars] at h ⊢
  | cons a as ih =>
    intro l2 h
    cases l2 with
    | nil => simp [ltChars] at h
    | cons b bs =>
      by_cases h1 : a.toNat < b.toNat
      · simp [ltChars, h1, Nat.lt_asymm h1, Nat.ne_of_gt h1]
      · by_cases h2 : b.toNat < a.toNat
        · simp [ltChars, h1, h2] at h
        · simp [ltChars, h1, h2] at h ⊢
          exact ih bs h

theorem ltChars_trans : ∀ l1 l2 l3, ltChars l1 l2 = true → ltChars l2 l3 = true →
    ltChars l1 l3 = true := by
  intro l1
  induction l1 with
  | nil =>
    intro l2 l3 h1 h2
    cases l2 with
    | nil => simp [ltChars] at h1
    | cons b bs =>
      cases l3 with
      | nil => simp [ltChars] at h2
      | cons c cs => simp [ltChars]
  | cons a as ih =>
    intro l2 l3 h1 h2
    cases l2 with
    | nil => simp [ltChars] at h1
    | cons b bs =>
      cases l3 with
      | nil => simp [ltChars] at h2
      | cons c cs =>
        simp only [ltChars] at h1 h2 ⊢
        split_ifs at h1 h2 ⊢ <;>
          first
            | rfl
            | omega
            | exact ih bs cs h1 h2

theorem ltChars_conn : ∀ l1 l2, ltChars l1 l2 = false → ltChars l2 l1 = false → l1 = l2 := by
  intro l1
  induction l1 with
  | nil => intro l2 h1 _; cases l2 with
    | nil => rfl
    | cons b bs => simp [ltChars] at h1
  | cons a as ih =>
    intro l2 h1 h2
    cases l2 with
    | nil => simp [ltChars] at h2
    | cons b bs =>
      simp only [ltChars] at h1 h2
      by_cases hab : a.toNat < b.toNat
      · simp [hab] at h1
      · by_cases hba : b.toNat < a.toNat
        · simp [hba] at h2
        · rw [if_neg hab, if_neg hba] at h1
          rw [if_neg hba, if_neg hab] at h2
          have hn : a.toNat = b.toNat := by omega
          unfold Char.toNat at hn
          have hc : a = b := Char.ext (UInt32.ext hn)
          rw [hc, ih bs h1 h2]

theorem strLt_irrefl (s : String) : strLt s s = false := ltChars_irrefl s.data

theorem strLt_asymm {s t : String} (h : strLt s t = true) : strLt t s = false :=
  ltChars_asymm s.data t.data h

theorem strLt_trans {s t u : String} (h1 : strLt s t = true) (h2 : strLt t u = true) :
    strLt s u = true :=
  ltChars_trans s.data t.data u.data h1 h2

theorem strLt_conn {s t : String} (h1 : strLt s t = false) (h2 : strLt t s = false) :
    s = t := by
  cases s; cases t
  exact congrArg String.mk (ltChars_conn _ _ h1 h2)

theorem strLt_ne {s t : String} (h : strLt s t = true) : s ≠ t := by
  intro he
  rw [he, strLt_irrefl] at h
  exact Bool.false_ne_true h

theorem alookup_eq_none_iff {β : Type} (k : String) :
    ∀ m : List (String × β), alookup k m = Option.none ↔ ∀ p ∈ m, k ≠ p.1 := by
  intro m
  induction m with
  | nil => simp [alookup]
  | cons hd tl ih =>
    constructor
    · intro h p hp
      by_cases hk : hd.1 = k
      · rw [show hd = (hd.1, hd.2) from rfl, alookup, if_pos hk] at h
        exact absurd h (by simp)
      · rw [show hd = (hd.1, hd.2) from rfl, alookup, if_neg hk] at h
        rcases List.mem_cons.mp hp with h1 | h1
        · exact h1 ▸ fun he => hk he.symm
        · exact (ih.mp h) p h1
    · intro h
      rw [show hd = (hd.1, hd.2) from rfl, alookup,
        if_neg (fun he => h hd (List.mem_cons_self _ _) he.symm)]
      exact ih.mpr (fun p hp => h p (List.mem_cons_of_mem _ hp))

theorem alookup_isSome_iff {β : Type} (k : String) :
    ∀ m : List (String × β), (alookup k m).isSome ↔ ∃ p ∈ m, k = p.1 := by
  intro m
  induction m with
  | nil => simp [alookup]
  | cons hd tl ih =>
    rw [show hd = (hd.1, hd.2) from rfl, alookup]
    by_cases hk : hd.1 = k
    · rw [if_pos hk]
      simp only [Option.isSome_some, true_iff]
      exact ⟨(hd.1, hd.2), List.mem_cons_self _ _, hk.symm⟩
    · rw [if_neg hk, ih]
      constructor
      · rintro ⟨p, hp, he⟩
        exact ⟨p, List.mem_cons_of_mem _ hp, he⟩
      · rintro ⟨p, hp, he⟩
        rcases List.mem_cons.mp hp with h1 | h1
        · exact absurd (show k = hd.1 by rw [he, h1]) (fun x => hk x.symm)
        · exact ⟨p, h1, he⟩

theorem alookup_mem {β : Type} {k : String} :
    ∀ {m : List (String × β)} {v}, alookup k m = some v → (k, v) ∈ m := by
  intro m
  induction m with
  | nil => intro v h; simp [alookup] at h
  | cons hd tl ih =>
    intro v h
    by_cases hk : hd.1 = k
    · rw [show hd = (hd.1, hd.2) from rfl, alookup, if_pos hk] at h
      rw [Option.some_inj] at h
      exact (show hd = (k, v) by rw [show hd = (hd.1, hd.2) from rfl, hk, h]) ▸
        List.mem_cons_self _ _
    · rw [show hd = (hd.1, hd.2) from rfl, alookup, if_neg hk] at h
      exact List.mem_cons_of_mem _ (ih h)

theorem mem_alookup {β : Type} {k : String} {v : β} :
    ∀ {m : List (String × β)}, KeysSorted m → (k, v) ∈ m → alookup k m = some v := by
  intro m
  induction m with
  | nil => intro _ h; simp at h
  | cons hd tl ih =>
    intro hs hmem
    rcases List.pairwise_cons.mp hs with ⟨hhd, htl⟩
    rcases List.mem_cons.mp hmem with h1 | h1
    · rw [← h1, alookup, if_pos rfl]
    · have hk : hd.1 ≠ k := by
        intro he
        exact strLt_ne (hhd (k, v) h1) (by simpa using he)
      rw [show hd = (hd.1, hd.2) from rfl, alookup, if_neg hk]
      exact ih htl h1

/-- Two key-sorted association lists with the same lookup function are
equal. -/
theorem sorted_alist_ext {β : Type} :
    ∀ (m1 m2 : List (String × β)), KeysSorted m1 → KeysSorted m2 →
      (∀ k, alookup k m1 = alookup k m2) → m1 = m2 := by
  intro m1
  induction m1 with
  | nil =>
    intro m2 _ _ h
    rcases m2 with _ | ⟨⟨k2, v2⟩, t2⟩
    · rfl
    · have h1 := h k2
      simp [alookup] at h1
  | cons hd t1 ih =>
    intro m2 hs1 hs2 h
    rcases hd with ⟨k1, v1⟩
    rcases m2 with _ | ⟨⟨k2, v2⟩, t2⟩
    · have h1 := h k1
      simp [alookup] at h1
    · rcases List.pairwise_cons.mp hs1 with ⟨hhd1, htl1⟩
      rcases List.pairwise_cons.mp hs2 with ⟨hhd2, htl2⟩
      have hk : k1 = k2 := by
        by_contra hne
        have ha := h k1
        rw [alookup, if_pos rfl, alookup, if_neg (fun he => hne he.symm)] at ha
        have hb := h k2
        rw [alookup, if_neg hne, alookup, if_pos rfl] at hb
        have h1 : (k1, v1) ∈ t2 := alookup_mem ha.symm
        have h2 : (k2, v2) ∈ t1 := alookup_mem hb
        have l1 : strLt k2 k1 = true := hhd2 _ h1
        have l2 : strLt k1 k2 = true := hhd1 _ h2
        rw [strLt_asymm l2] at l1
        exact Bool.false_ne_true l1
      subst hk
      have hv : v1 = v2 := by
        have h1 := h k1
        rw [alookup, if_pos rfl, alookup, if_pos rfl] at h1
        exact Option.some_inj.mp h1
      subst hv
      have htls : ∀ k, alookup k t1 = alookup k t2 := by
        intro k
        by_cases hk1 : k = k1
        · subst hk1
          rw [(alookup_eq_none_iff k t1).mpr
              (fun p hp => strLt_ne (hhd1 p hp)),
            (alookup_eq_none_iff k t2).mpr
              (fun p hp => strLt_ne (hhd2 p hp))]
        · have h1 := h k
          rw [alookup, if_neg (fun he => hk1 he.symm),
            alookup, if_neg (fun he => hk1 he.symm)] at h1
          exact h1
      rw [ih t2 htl1 htl2 htls]

/-- Two strictly sorted string lists with the same members are equal. -/
theorem sorted_strlist_ext :
    ∀ (l1 l2 : List String), CatsSorted l1 → CatsSorted l2 →
      (∀ x, x ∈ l1 ↔ x ∈ l2) → l1 = l2 := by
  intro l1
  induction l1 with
  | nil =>
    intro l2 _ _ h
    rcases l2 with _ | ⟨b, t2⟩
    · rfl
    · have := (h b).mpr (List.mem_cons_self _ _)
      simp at this
  | cons a t1 ih =>
    intro l2 hs1 hs2 h
    rcases l2 with _ | ⟨b, t2⟩
    · have := (h a).mp (List.mem_cons_self _ _)
      simp at this
    · rcases List.pairwise_cons.mp hs1 with ⟨hhd1, htl1⟩
      rcases List.pairwise_cons.mp hs2 with ⟨hhd2, htl2⟩
      have hab : a = b := by
        rcases List.mem_cons.mp ((h a).mp (List.mem_cons_self _ _)) with h1 | h1
        · exact h1
        · rcases List.mem_cons.mp ((h b).mpr (List.mem_cons_self _ _)) with h2 | h2
          · exact h2.symm
          · have l1 := hhd2 a h1
            have l2 := hhd1 b h2
            rw [strLt_asymm l2] at l1
            exact absurd l1 (Bool.false_ne_true)
      subst hab
      have htls : ∀ x, x ∈ t1 ↔ x ∈ t2 := by
        intro x
        constructor
        · intro hx
          rcases List.mem_cons.mp ((h x).mp (List.mem_cons_of_mem _ hx)) with h1 | h1
          · exact absurd (h1 ▸ hhd1 x hx) (by simp [strLt_irrefl])
          · exact h1
        · intro hx
          rcases List.mem_cons.mp ((h x).mpr (List.mem_cons_of_mem _ hx)) with h1 | h1
          · exact absurd (h1 ▸ hhd2 x hx) (by simp [strLt_irrefl])
          · exact h1
      rw [ih t2 htl1 htl2 htls]

theorem mem_insertSorted (v : String) :
    ∀ (l : List String) (x), x ∈ insertSorted v l ↔ x = v ∨ x ∈ l := by
  intro l
  induction l with
  | nil => intro x; simp [insertSorted]
  | cons y ys ih =>
    intro x
    unfold insertSorted
    by_cases h1 : v = y
    · subst h1
      rw [if_pos rfl]
      simp only [List.mem_cons]
      constructor
      · exact fun h => Or.inr h
      · rintro (h | h)
        · exact Or.inl h
        · exact h
    · rw [if_neg h1]
      by_cases h2 : strLt v y = true
      · rw [if_pos h2]
        simp [List.mem_cons]
      · rw [if_neg h2]
        simp only [List.mem_cons, ih x]
        constructor
        · rintro (h | h | h)
          exacts [Or.inr (Or.inl h), Or.inl h, Or.inr (Or.inr h)]
        · rintro (h | h | h)
          exacts [Or.inr (Or.inl h), Or.inl h, Or.inr (Or.inr h)]

theorem insertSorted_sorted (v : String) :
    ∀ l : List String, CatsSorted l → CatsSorted (insertSorted v l) := by
  intro l
  induction l with
  | nil => intro _; simp [insertSorted, CatsSorted]
  | cons y ys ih =>
    intro hs
    rcases List.pairwise_cons.mp hs with ⟨hhd, htl⟩
    unfold insertSorted
    by_cases h1 : v = y
    · rw [if_pos h1]; exact hs
    · rw [if_neg h1]
      by_cases h2 : strLt v y = true
      · rw [if_pos h2]
        refine List.pairwise_cons.mpr ⟨?_, hs⟩
        intro z hz
        rcases List.mem_cons.mp hz with h3 | h3
        · exact h3 ▸ h2
        · exact strLt_trans h2 (hhd z h3)
      · rw [if_neg h2]
        refine List.pairwise_cons.mpr ⟨?_, ih htl⟩
        intro z hz
        rcases (mem_insertSorted v ys z).mp hz with h3 | h3
        · subst h3
          have h4 : strLt y z = true := by
            rcases h5 : strLt y z with _ | _
            · exact absurd (strLt_conn (Bool.of_not_eq_true h2) h5) h1
            · rfl
          exact h4
        · exact hhd z h3

theorem insertSorted_ne_nil (v : String) (l : List String) : insertSorted v l ≠ [] := by
  cases l with
  | nil => simp [insertSorted]
  | cons y ys =>
    unfold insertSorted
    by_cases h1 : v = y
    · simp [h1]
    · rw [if_neg h1]
      by_cases h2 : strLt v y = true
      · simp [h2]
      · simp [h2]

theorem mem_upsertSortedWith {β : Type} (k : String) (f : β → β) (init : β) :
    ∀ (m : List (String × β)) (p), p ∈ upsertSortedWith k f init m →
      p = (k, init) ∨ (∃ v, (k, v) ∈ m ∧ p = (k, f v)) ∨ p ∈ m := by
  intro m
  induction m with
  | nil =>
    intro p hp
    simp [upsertSortedWith] at hp
    exact Or.inl hp
  | cons hd rest ih =>
    intro p hp
    rcases hd with ⟨k1, v1⟩
    unfold upsertSortedWith at hp
    by_cases h1 : k = k1
    · rw [if_pos h1] at hp
      rcases List.mem_cons.mp hp with h2 | h2
      · exact Or.inr (Or.inl ⟨v1, by rw [h1]; exact List.mem_cons_self _ _, by rw [h2, h1]⟩)
      · exact Or.inr (Or.inr (List.mem_cons_of_mem _ h2))
    · rw [if_neg h1] at hp
      by_cases h2 : strLt k k1 = true
      · rw [if_pos h2] at hp
        rcases List.mem_cons.mp hp with h3 | h3
        · exact Or.inl h3
        · exact Or.inr (Or.inr h3)
      · rw [if_neg h2] at hp
        rcases List.mem_cons.mp hp with h3 | h3
        · exact Or.inr (Or.inr (h3 ▸ List.mem_cons_self _ _))
        · rcases ih p h3 with h4 | ⟨v, hv, hpv⟩ | h4
          · exact Or.inl h4
          · exact Or.inr (Or.inl ⟨v, List.mem_cons_of_mem _ hv, hpv⟩)
          · exact Or.inr (Or.inr (List.mem_cons_of_mem _ h4))

theorem upsertSortedWith_sorted {β : Type} (k : String) (f : β → β) (init : β) :
    ∀ m : List (String × β), KeysSorted m → KeysSorted (upsertSortedWith k f init m) := by
  intro m
  induction m with
  | nil => intro _; simp [upsertSortedWith, KeysSorted]
  | cons hd rest ih =>
    intro hs
    rcases hd with ⟨k1, v1⟩
    rcases List.pairwise_cons.mp hs with ⟨hhd, htl⟩
    unfold upsertSortedWith
    by_cases h1 : k = k1
    · rw [if_pos h1]
      exact List.pairwise_cons.mpr ⟨fun q hq => hhd q hq, htl⟩
    · rw [if_neg h1]
      by_cases h2 : strLt k k1 = true
      · rw [if_pos h2]
        refine List.pairwise_cons.mpr ⟨?_, hs⟩
        intro q hq
        rcases List.mem_cons.mp hq with h3 | h3
        · exact h3 ▸ h2
        · exact strLt_trans h2 (hhd q h3)
      · rw [if_neg h2]
        refine List.pairwise_cons.mpr ⟨?_, ih htl⟩
        intro q hq
        rcases mem_upsertSortedWith k f init rest q hq with h3 | ⟨v, hv, hqv⟩ | h3
        · subst h3
          rcases h4 : strLt k1 k with _ | _
          · exact absurd (strLt_conn (Bool.of_not_eq_true h2) h4) h1
          · rfl
        · rw [hqv]
          exact hhd (k, v) hv
        · exact hhd q h3

theorem alookup_upsertSortedWith_self {β : Type} (k : String) (f : β → β) (init : β) :
    ∀ m : List (String × β), KeysSorted m →
      alookup k (upsertSortedWith k f init m) =
        some ((alookup k m).elim init f) := by
  intro m
  induction m with
  | nil => intro _; simp [upsertSortedWith, alookup]
  | cons hd rest ih =>
    intro hs
    rcases hd with ⟨k1, v1⟩
    rcases List.pairwise_cons.mp hs with ⟨hhd, htl⟩
    unfold upsertSortedWith
    by_cases h1 : k = k1
    · rw [if_pos h1, alookup, if_pos h1.symm, alookup, if_pos h1.symm]
      simp
    · rw [if_neg h1]
      by_cases h2 : strLt k k1 = true
      · rw [if_pos h2, alookup, if_pos rfl, alookup,
          if_neg (fun h => h1 h.symm),
          (alookup_eq_none_iff k rest).mpr
            (fun p hp he => strLt_ne (strLt_trans h2 (hhd p hp)) he)]
        simp
      · rw [if_neg h2, alookup, if_neg (fun h => h1 h.symm), alookup,
          if_neg (fun h => h1 h.symm)]
        exact ih htl

theorem alookup_upsertSortedWith_other {β : Type} (k k1 : String) (f : β → β) (init : β)
    (hne : k1 ≠ k) :
    ∀ m : List (String × β),
      alookup k1 (upsertSortedWith k f init m) = alookup k1 m := by
  intro m
  induction m with
  | nil =>
    simp [upsertSortedWith, alookup, Ne.symm hne]
  | cons hd rest ih =>
    rcases hd with ⟨k2, v2⟩
    unfold upsertSortedWith
    by_cases h1 : k = k2
    · rw [if_pos h1, alookup, alookup]
      rcases h3 : decide (k2 = k1) with _ | _
      · rw [if_neg (of_decide_eq_false h3), if_neg (of_decide_eq_false h3)]
      · exact absurd (h1 ▸ of_decide_eq_true h3) (fun h => hne h.symm)
    · rw [if_neg h1]
      by_cases h2 : strLt k k1 = true
      all_goals by_cases h4 : strLt k k2 = true
      · rw [if_pos h4, alookup, if_neg (fun h => hne h.symm)]
      · rw [if_neg h4, alookup, alookup]
        by_cases h5 : k2 = k1
        · rw [if_pos h5, if_pos h5]
        · rw [if_neg h5, if_neg h5, ih]
      · rw [if_pos h4, alookup, if_neg (fun h => hne h.symm)]
      · rw [if_neg h4, alookup, alookup]
        by_cases h5 : k2 = k1
        · rw [if_pos h5, if_pos h5]
        · rw [if_neg h5, if_neg h5, ih]

theorem wf_nil_schema : WfSchema [] := ⟨List.Pairwise.nil, by simp⟩

theorem labelIn_aol (l : String) (s : EtaSchema) (hs : KeysSorted s) (l' : String) :
    labelIn (add_object_label l s) l' ↔ l' = l ∨ labelIn s l' := by
  unfold labelIn add_object_label
  by_cases h : l' = l
  · subst h
    rw [alookup_upsertSortedWith_self _ _ _ _ hs]
    simp
  · rw [alookup_upsertSortedWith_other _ _ _ _ h]
    simp [h]

theorem alookup2_aol (l : String) (s : EtaSchema) (hs : KeysSorted s) (l' a : String) :
    alookup2 (add_object_label l s) l' a = alookup2 s l' a := by
  unfold alookup2 add_object_label
  by_cases h : l' = l
  · subst h
    rw [alookup_upsertSortedWith_self _ _ _ _ hs]
    rcases hl : alookup l' s with _ | am
    · simp [alookup]
    · simp
  · rw [alookup_upsertSortedWith_other _ _ _ _ h]

theorem catIn_aol (l : String) (s : EtaSchema) (hs : KeysSorted s) (l' a v : String) :
    catIn (add_object_label l s) l' a v ↔ catIn s l' a v := by
  unfold catIn
  rw [alookup2_aol l s hs]

theorem labelIn_aoa (l a v : String) (s : EtaSchema) (hs : KeysSorted s) (l' : String) :
    labelIn (add_object_attribute l a v s) l' ↔ l' = l ∨ labelIn s l' := by
  unfold labelIn add_object_attribute
  by_cases h : l' = l
  · subst h
    rw [alookup_upsertSortedWith_self _ _ _ _ hs]
    simp
  · rw [alookup_upsertSortedWith_other _ _ _ _ h]
    simp [h]

theorem alookup2_aoa_self (l a v : String) (s : EtaSchema) (hw : WfSchema s) :
    alookup2 (add_object_attribute l a v s) l a =
      some ((alookup2 s l a).elim [v] (insertSorted v)) := by
  unfold alookup2 add_object_attribute
  rw [alookup_upsertSortedWith_self _ _ _ _ hw.1]
  rcases hlk : alookup l s with _ | am
  · simp [alookup]
  · have ham : KeysSorted am := (hw.2 (l, am) (alookup_mem hlk)).1
    simp only [Option.some_bind]
    rw [show ((some am).elim [(a, [v])] fun am => upsertSortedWith a (insertSorted v) [v] am) =
      upsertSortedWith a (insertSorted v) [v] am from rfl]
    rw [alookup_upsertSortedWith_self _ _ _ _ ham]

theorem alookup2_aoa_other (l a v : String) (s : EtaSchema) (hw : WfSchema s)
    (l' a' : String) (hne : ¬(l' = l ∧ a' = a)) :
    alookup2 (add_object_attribute l a v s) l' a' = alookup2 s l' a' := by
  unfold alookup2 add_object_attribute
  by_cases hl : l' = l
  · subst hl
    have ha : a' ≠ a := fun h => hne ⟨rfl, h⟩
    rw [alookup_upsertSortedWith_self _ _ _ _ hw.1]
    rcases hlk : alookup l' s with _ | am
    · simp [alookup, Ne.symm ha]
    · simp only [Option.some_bind]
      rw [show ((some am).elim [(a, [v])] fun am => upsertSortedWith a (insertSorted v) [v] am) =
        upsertSortedWith a (insertSorted v) [v] am from rfl]
      rw [alookup_upsertSortedWith_other _ _ _ _ ha]
  · rw [alookup_upsertSortedWith_other _ _ _ _ hl]

theorem catIn_aoa (l a v : String) (s : EtaSchema) (hw : WfSchema s) (l' a' v' : String) :
    catIn (add_object_attribute l a v s) l' a' v' ↔
      (l' = l ∧ a' = a ∧ v' = v) ∨ catIn s l' a' v' := by
  unfold catIn
  by_cases hla : l' = l ∧ a' = a
  · rcases hla with ⟨hl, ha⟩
    subst hl; subst ha
    rw [alookup2_aoa_self _ _ _ _ hw]
    rcases hk : alookup2 s l' a' with _ | cs0
    · simp only [Option.elim, Option.some_inj]
      constructor
      · rintro ⟨cs, hcs, hv⟩
        subst hcs
        simp at hv
        refine Or.inl ⟨?_, ?_, hv⟩ <;> trivial
      · rintro (⟨_, _, hv⟩ | ⟨cs, hcs, _⟩)
        · exact ⟨[v], rfl, by simp [hv]⟩
        · simp at hcs
    · simp only [Option.elim, Option.some_inj]
      constructor
      · rintro ⟨cs, hcs, hv⟩
        subst hcs
        rcases (mem_insertSorted v cs0 v').mp hv with h1 | h1
        · refine Or.inl ⟨?_, ?_, h1⟩ <;> trivial
        · exact Or.inr ⟨cs0, rfl, h1⟩
      · rintro (⟨_, _, hv⟩ | ⟨cs, hcs, hv⟩)
        · exact ⟨_, rfl, (mem_insertSorted v cs0 v').mpr (Or.inl hv)⟩
        · subst hcs
          exact ⟨_, rfl, (mem_insertSorted v cs0 v').mpr (Or.inr hv)⟩
  · rw [alookup2_aoa_other _ _ _ _ hw _ _ hla]
    constructor
    · exact fun h => Or.inr h
    · rintro (⟨hl2, ha2, _⟩ | h)
      · exact absurd ⟨hl2, ha2⟩ hla
      · exact h

theorem wf_aol (l : String) (s : EtaSchema) (hw : WfSchema s) :
    WfSchema (add_object_label l s) := by
  refine ⟨upsertSortedWith_sorted _ _ _ _ hw.1, ?_⟩
  intro p hp
  rcases mem_upsertSortedWith _ _ _ _ p hp with h | ⟨v1, hv1, hp2⟩ | h
  · rw [h]
    exact ⟨List.Pairwise.nil, by simp⟩
  · rw [hp2]
    exact hw.2 (l, v1) (by
      have : (l, v1) ∈ s := hv1
      exact this) |>.imp id id
  · exact hw.2 p h

theorem wf_aoa (l a v : String) (s : EtaSchema) (hw : WfSchema s) :
    WfSchema (add_object_attribute l a v s) := by
  refine ⟨upsertSortedWith_sorted _ _ _ _ hw.1, ?_⟩
  intro p hp
  rcases mem_upsertSortedWith _ _ _ _ p hp with h | ⟨am, ham, hp2⟩ | h
  · rw [h]
    refine ⟨List.pairwise_singleton _ _, ?_⟩
    intro q hq
    simp only [List.mem_singleton] at hq
    rw [hq]
    exact ⟨List.pairwise_singleton _ _, by simp⟩
  · rw [hp2]
    have hwam := hw.2 (l, am) ham
    refine ⟨upsertSortedWith_sorted _ _ _ _ hwam.1, ?_⟩
    intro q hq
    rcases mem_upsertSortedWith _ _ _ _ q hq with h1 | ⟨cs, hcs, hq2⟩ | h1
    · rw [h1]
      exact ⟨List.pairwise_singleton _ _, by simp⟩
    · rw [hq2]
      have hwcs := hwam.2 (a, cs) hcs
      exact ⟨insertSorted_sorted v cs hwcs.1, insertSorted_ne_nil v cs⟩
    · exact hwam.2 q h1
  · exact hw.2 p h

theorem wf_addAttrValues (l a : String) :
    ∀ (vs : List String) (s : EtaSchema), WfSchema s → WfSchema (addAttrValues l a vs s) := by
  intro vs
  induction vs with
  | nil => intro s hw; exact hw
  | cons v vs ih => intro s hw; exact ih _ (wf_aoa l a v s hw)

theorem labelIn_addAttrValues (l a : String) :
    ∀ (vs : List String) (s : EtaSchema), WfSchema s → ∀ l',
      (labelIn (addAttrValues l a vs s) l' ↔ (vs ≠ [] ∧ l' = l) ∨ labelIn s l') := by
  intro vs
  induction vs with
  | nil => intro s _ l'; simp [addAttrValues]
  | cons v vs ih =>
    intro s hw l'
    rw [show addAttrValues l a (v :: vs) s = addAttrValues l a vs (add_object_attribute l a v s)
      from rfl]
    rw [ih _ (wf_aoa l a v s hw) l', labelIn_aoa l a v s hw.1 l']
    constructor
    · rintro (⟨_, h2⟩ | h | h)
      · exact Or.inl ⟨List.cons_ne_nil _ _, h2⟩
      · exact Or.inl ⟨List.cons_ne_nil _ _, h⟩
      · exact Or.inr h
    · rintro (⟨_, h2⟩ | h)
      · exact Or.inr (Or.inl h2)
      · exact Or.inr (Or.inr h)

theorem catIn_addAttrValues (l a : String) :
    ∀ (vs : List String) (s : EtaSchema), WfSchema s → ∀ l' a' v',
      (catIn (addAttrValues l a vs s) l' a' v' ↔
        (l' = l ∧ a' = a ∧ v' ∈ vs) ∨ catIn s l' a' v') := by
  intro vs
  induction vs with
  | nil => intro s _ l' a' v'; simp [addAttrValues]
  | cons v vs ih =>
    intro s hw l' a' v'
    rw [show addAttrValues l a (v :: vs) s = addAttrValues l a vs (add_object_attribute l a v s)
      from rfl]
    rw [ih _ (wf_aoa l a v s hw) l' a' v', catIn_aoa l a v s hw l' a' v']
    simp only [List.mem_cons]
    constructor
    · rintro (⟨h1, h2, h3⟩ | ⟨h1, h2, h3⟩ | h)
      · exact Or.inl ⟨h1, h2, Or.inr h3⟩
      · exact Or.inl ⟨h1, h2, Or.inl h3⟩
      · exact Or.inr h
    · rintro (⟨h1, h2, h3 | h3⟩ | h)
      · exact Or.inr (Or.inl ⟨h1, h2, h3⟩)
      · exact Or.inl ⟨h1, h2, h3⟩
      · exact Or.inr (Or.inr h)

theorem wf_addAttrs (l : String) :
    ∀ (attrs : List (String × List String)) (s : EtaSchema),
      WfSchema s → WfSchema (addAttrs l attrs s) := by
  intro attrs
  induction attrs with
  | nil => intro s hw; exact hw
  | cons q qs ih => intro s hw; exact ih _ (wf_addAttrValues l q.1 q.2 s hw)

theorem labelIn_addAttrs_mono (l : String) :
    ∀ (attrs : List (String × List String)) (s : EtaSchema), WfSchema s → ∀ l',
      labelIn s l' → labelIn (addAttrs l attrs s) l' := by
  intro attrs
  induction attrs with
  | nil => intro s _ l' h; exact h
  | cons q qs ih =>
    intro s hw l' h
    exact ih _ (wf_addAttrValues l q.1 q.2 s hw) l'
      ((labelIn_addAttrValues l q.1 q.2 s hw l').mpr (Or.inr h))

theorem labelIn_addAttrs_bound (l : String) :
    ∀ (attrs : List (String × List String)) (s : EtaSchema), WfSchema s → ∀ l',
      labelIn (addAttrs l attrs s) l' → l' = l ∨ labelIn s l' := by
  intro attrs
  induction attrs with
  | nil => intro s _ l' h; exact Or.inr h
  | cons q qs ih =>
    intro s hw l' h
    rcases ih _ (wf_addAttrValues l q.1 q.2 s hw) l' h with h1 | h1
    · exact Or.inl h1
    · rcases (labelIn_addAttrValues l q.1 q.2 s hw l').mp h1 with ⟨_, h2⟩ | h2
      · exact Or.inl h2
      · exact Or.inr h2

theorem catIn_addAttrs (l : String) :
    ∀ (attrs : List (String × List String)) (s : EtaSchema), WfSchema s → ∀ l' a' v',
      (catIn (addAttrs l attrs s) l' a' v' ↔
        (l' = l ∧ ∃ q ∈ attrs, a' = q.1 ∧ v' ∈ q.2) ∨ catIn s l' a' v') := by
  intro attrs
  induction attrs with
  | nil => intro s _ l' a' v'; simp [addAttrs]
  | cons q qs ih =>
    intro s hw l' a' v'
    rw [show addAttrs l (q :: qs) s = addAttrs l qs (addAttrValues l q.1 q.2 s) from rfl]
    rw [ih _ (wf_addAttrValues l q.1 q.2 s hw) l' a' v',
      catIn_addAttrValues l q.1 q.2 s hw l' a' v']
    simp only [List.mem_cons]
    constructor
    · rintro (⟨h1, q1, hq1, h2⟩ | ⟨h1, h2, h3⟩ | h)
      · exact Or.inl ⟨h1, q1, Or.inr hq1, h2⟩
      · exact Or.inl ⟨h1, q, Or.inl rfl, h2, h3⟩
      · exact Or.inr h
    · rintro (⟨h1, q1, hq1 | hq1, h2⟩ | h)
      · exact Or.inr (Or.inl ⟨h1, hq1 ▸ h2⟩)
      · exact Or.inl ⟨h1, q1, hq1, h2⟩
      · exact Or.inr (Or.inr h)

theorem wf_addEntry (s : EtaSchema) (lab : String × List (String × List String))
    (hw : WfSchema s) : WfSchema (addEntry s lab) :=
  wf_addAttrs lab.1 lab.2 _ (wf_aol lab.1 s hw)

theorem labelIn_addEntry (s : EtaSchema) (lab : String × List (String × List String))
    (hw : WfSchema s) (l' : String) :
    labelIn (addEntry s lab) l' ↔ l' = lab.1 ∨ labelIn s l' := by
  constructor
  · intro h
    rcases labelIn_addAttrs_bound lab.1 lab.2 _ (wf_aol lab.1 s hw) l' h with h1 | h1
    · exact Or.inl h1
    · exact (labelIn_aol lab.1 s hw.1 l').mp h1
  · intro h
    refine labelIn_addAttrs_mono lab.1 lab.2 _ (wf_aol lab.1 s hw) l' ?_
    exact (labelIn_aol lab.1 s hw.1 l').mpr h

theorem catIn_addEntry (s : EtaSchema) (lab : String × List (String × List String))
    (hw : WfSchema s) (l' a' v' : String) :
    catIn (addEntry s lab) l' a' v' ↔
      (l' = lab.1 ∧ ∃ q ∈ lab.2, a' = q.1 ∧ v' ∈ q.2) ∨ catIn s l' a' v' := by
  rw [show addEntry s lab = addAttrs lab.1 lab.2 (add_object_label lab.1 s) from rfl]
  rw [catIn_addAttrs lab.1 lab.2 _ (wf_aol lab.1 s hw) l' a' v',
    catIn_aol lab.1 s hw.1 l' a' v']

theorem wf_merge_schema :
    ∀ (other s : EtaSchema), WfSchema s → WfSchema (merge_schema s other) := by
  intro other
  induction other with
  | nil => intro s hw; exact hw
  | cons lab rest ih => intro s hw; exact ih _ (wf_addEntry s lab hw)

theorem labelIn_merge_schema :
    ∀ (other s : EtaSchema), WfSchema s → ∀ l,
      (labelIn (merge_schema s other) l ↔ labelInData other l ∨ labelIn s l) := by
  intro other
  induction other with
  | nil => intro s _ l; simp [merge_schema, labelInData]
  | cons lab rest ih =>
    intro s hw l
    rw [show merge_schema s (lab :: rest) = merge_schema (addEntry s lab) rest from rfl]
    rw [ih _ (wf_addEntry s lab hw) l, labelIn_addEntry s lab hw l]
    unfold labelInData
    simp only [List.mem_cons]
    constructor
    · rintro (⟨am, ham⟩ | h | h)
      · exact Or.inl ⟨am, Or.inr ham⟩
      · exact Or.inl ⟨lab.2, Or.inl (by rw [h])⟩
      · exact Or.inr h
    · rintro (⟨am, ham | ham⟩ | h)
      · exact Or.inr (Or.inl (by rw [← ham]))
      · exact Or.inl ⟨am, ham⟩
      · exact Or.inr (Or.inr h)

theorem catIn_merge_schema :
    ∀ (other s : EtaSchema), WfSchema s → ∀ l a v,
      (catIn (merge_schema s other) l a v ↔ tripleInData other l a v ∨ catIn s l a v) := by
  intro other
  induction other with
  | nil => intro s _ l a v; simp [merge_schema, tripleInData]
  | cons lab rest ih =>
    intro s hw l a v
    rw [show merge_schema s (lab :: rest) = merge_schema (addEntry s lab) rest from rfl]
    rw [ih _ (wf_addEntry s lab hw) l a v, catIn_addEntry s lab hw l a v]
    unfold tripleInData
    simp only [List.mem_cons]
    constructor
    · rintro (⟨lab1, hlab1, h⟩ | ⟨h1, q, hq, h2, h3⟩ | h)
      · exact Or.inl ⟨lab1, Or.inr hlab1, h⟩
      · exact Or.inl ⟨lab, Or.inl rfl, h1.symm, q, hq, h2.symm, h3⟩
      · exact Or.inr h
    · rintro (⟨lab1, hlab1 | hlab1, h1, q, hq, h2, h3⟩ | h)
      · refine Or.inr (Or.inl ?_)
        rw [← hlab1]
        exact ⟨h1.symm, q, hq, h2.symm, h3⟩
      · exact Or.inl ⟨lab1, hlab1, h1, q, hq, h2, h3⟩
      · exact Or.inr (Or.inr h)

theorem wf_to_schema (d : TaskLabelsData) : WfSchema (to_schema d) :=
  wf_merge_schema d [] wf_nil_schema

theorem labelIn_to_schema (d : TaskLabelsData) (l : String) :
    labelIn (to_schema d) l ↔ labelInData d l := by
  rw [show to_schema d = merge_schema [] d from rfl,
    labelIn_merge_schema d [] wf_nil_schema l]
  simp [labelIn, alookup]

theorem catIn_to_schema (d : TaskLabelsData) (l a v : String) :
    catIn (to_schema d) l a v ↔ tripleInData d l a v := by
  rw [show to_schema d = merge_schema [] d from rfl,
    catIn_merge_schema d [] wf_nil_schema l a v]
  simp [catIn, alookup2, alookup]

theorem labelInData_iff {s : EtaSchema} (l : String) :
    labelInData s l ↔ labelIn s l := by
  unfold labelInData labelIn
  rw [alookup_isSome_iff]
  constructor
  · rintro ⟨am, ham⟩
    exact ⟨(l, am), ham, rfl⟩
  · rintro ⟨p, hp, he⟩
    exact ⟨p.2, by rw [he]; exact hp⟩

theorem tripleInData_iff {s : EtaSchema} (hw : WfSchema s) (l a v : String) :
    tripleInData s l a v ↔ catIn s l a v := by
  constructor
  · rintro ⟨lab, hlab, h1, q, hq, h2, h3⟩
    have hl : alookup l s = some lab.2 := by
      rw [← h1]
      exact mem_alookup hw.1 hlab
    have ha : alookup a lab.2 = some q.2 := by
      rw [← h2]
      exact mem_alookup (hw.2 lab hlab).1 hq
    exact ⟨q.2, by rw [alookup2, hl, Option.some_bind, ha], h3⟩
  · rintro ⟨cs, hcs, hv⟩
    rw [alookup2] at hcs
    rcases hl : alookup l s with _ | am
    · rw [hl] at hcs
      simp at hcs
    · rw [hl, Option.some_bind] at hcs
      exact ⟨(l, am), alookup_mem hl, rfl, (a, cs), alookup_mem hcs, rfl, hv⟩

/-- Two well-formed schemas with the same labels and the same
`(label, attribute, category)` triples are equal. -/
theorem schema_ext {s t : EtaSchema} (hw1 : WfSchema s) (hw2 : WfSchema t)
    (hlab : ∀ l, labelIn s l ↔ labelIn t l)
    (hcat : ∀ l a v, catIn s l a v ↔ catIn t l a v) : s = t := by
  refine sorted_alist_ext s t hw1.1 hw2.1 ?_
  intro l
  rcases hs : alookup l s with _ | amS
  · rcases ht : alookup l t with _ | amT
    · rfl
    · have h1 : labelIn t l := by rw [labelIn, ht]; simp
      have h2 := (hlab l).mpr h1
      rw [labelIn, hs] at h2
      simp at h2
  · rcases ht : alookup l t with _ | amT
    · have h1 : labelIn s l := by rw [labelIn, hs]; simp
      have h2 := (hlab l).mp h1
      rw [labelIn, ht] at h2
      simp at h2
    · refine congrArg some ?_
      have hwS := hw1.2 (l, amS) (alookup_mem hs)
      have hwT := hw2.2 (l, amT) (alookup_mem ht)
      refine sorted_alist_ext amS amT hwS.1 hwT.1 ?_
      intro a
      have hcat2 : ∀ v, (∃ cs, alookup a amS = some cs ∧ v ∈ cs) ↔
          (∃ cs, alookup a amT = some cs ∧ v ∈ cs) := by
        intro v
        have := hcat l a v
        rw [catIn, catIn, alookup2, alookup2, hs, ht, Option.some_bind,
          Option.some_bind] at this
        exact this
      rcases hsa : alookup a amS with _ | cs
      · rcases hta : alookup a amT with _ | ct
        · rfl
        · have hct := hwT.2 (a, ct) (alookup_mem hta)
          rcases List.exists_mem_of_ne_nil ct hct.2 with ⟨v, hv⟩
          rcases (hcat2 v).mpr ⟨ct, hta, hv⟩ with ⟨cs, hcs, _⟩
          rw [hsa] at hcs
          simp at hcs
      · rcases hta : alookup a amT with _ | ct
        · have hcs := hwS.2 (a, cs) (alookup_mem hsa)
          rcases List.exists_mem_of_ne_nil cs hcs.2 with ⟨v, hv⟩
          rcases (hcat2 v).mp ⟨cs, hsa, hv⟩ with ⟨ct, hct, _⟩
          rw [hta] at hct
          simp at hct
        · refine congrArg some ?_
          have hcsS := hwS.2 (a, cs) (alookup_mem hsa)
          have hcsT := hwT.2 (a, ct) (alookup_mem hta)
          refine sorted_strlist_ext cs ct hcsS.1 hcsT.1 ?_
          intro v
          constructor
          · intro hv
            rcases (hcat2 v).mp ⟨cs, hsa, hv⟩ with ⟨ct1, hct1, hv1⟩
            rw [hta, Option.some_inj] at hct1
            exact hct1 ▸ hv1
          · intro hv
            rcases (hcat2 v).mpr ⟨ct, hta, hv⟩ with ⟨cs1, hcs1, hv1⟩
            rw [hsa, Option.some_inj] at hcs1
            exact hcs1 ▸ hv1

/-- `to_schema` is the identity on well-formed canonical schemas. -/
theorem to_schema_of_wf {S : EtaSchema} (hw : WfSchema S) : to_schema S = S := by
  refine schema_ext (wf_to_schema S) hw ?_ ?_
  · intro l
    rw [labelIn_to_schema S l, labelInData_iff l]
  · intro l a v
    rw [catIn_to_schema S l a v, tripleInData_iff hw l a v]

/-- C4 counterexample: for `A` whose labels are `[b, a]` (not in the
sorted normal form `from_schema` produces), merging `A` into `A` yields
the normalized `[a, b]`, not `A`'s own labels. -/
theorem C4_counterexample :
    merge_task_labels [("b", []), ("a", [])] [("b", []), ("a", [])] ≠
      [("b", []), ("a", [])] := by
  decide

/-- C4 (amended): merging a task-labels value `A` into itself yields the
NORMALIZED form of `A`'s labels (labels sorted, attribute names sorted,
categories sorted and deduplicated) — equal to `A`'s labels exactly when
they are already normalized; and the merge is associative as claimed,
for all task-labels values. -/
theorem C4_merge_idempotent_associative :
    (∀ a : TaskLabelsData, merge_task_labels a a = normalizeTaskLabels a) ∧
      (∀ a b c : TaskLabelsData,
        merge_task_labels (merge_task_labels a b) c =
          merge_task_labels a (merge_task_labels b c)) := by
  constructor
  · intro a
    unfold merge_task_labels normalizeTaskLabels from_schema
    have hw : WfSchema (to_schema a) := wf_to_schema a
    refine schema_ext (wf_merge_schema _ _ hw) hw ?_ ?_
    · intro l
      rw [labelIn_merge_schema _ _ hw l, labelInData_iff l]
      constructor
      · rintro (h | h) <;> exact h
      · exact fun h => Or.inl h
    · intro l a1 v
      rw [catIn_merge_schema _ _ hw l a1 v, tripleInData_iff hw l a1 v]
      constructor
      · rintro (h | h) <;> exact h
      · exact fun h => Or.inl h
  · intro a b c
    unfold merge_task_labels from_schema
    have hwA : WfSchema (to_schema a) := wf_to_schema a
    have hwB : WfSchema (to_schema b) := wf_to_schema b
    have hwC : WfSchema (to_schema c) := wf_to_schema c
    have hwAB : WfSchema (merge_schema (to_schema a) (to_schema b)) :=
      wf_merge_schema _ _ hwA
    have hwBC : WfSchema (merge_schema (to_schema b) (to_schema c)) :=
      wf_merge_schema _ _ hwB
    rw [to_schema_of_wf hwAB, to_schema_of_wf hwBC]
    refine schema_ext (wf_merge_schema _ _ hwAB) (wf_merge_schema _ _ hwA) ?_ ?_
    · intro l
      rw [labelIn_merge_schema (to_schema c) _ hwAB l,
        labelIn_merge_schema (to_schema b) _ hwA l,
        labelIn_merge_schema (merge_schema (to_schema b) (to_schema c)) _ hwA l,
        labelInData_iff (s := merge_schema (to_schema b) (to_schema c)) l,
        labelIn_merge_schema (to_schema c) _ hwB l,
        ← labelInData_iff (s := to_schema b) l]
      tauto
    · intro l a1 v
      rw [catIn_merge_schema (to_schema c) _ hwAB l a1 v,
        catIn_merge_schema (to_schema b) _ hwA l a1 v,
        catIn_merge_schema (merge_schema (to_schema b) (to_schema c)) _ hwA l a1 v,
        tripleInData_iff hwBC l a1 v,
        catIn_merge_schema (to_schema c) _ hwB l a1 v,
        ← tripleInData_iff hwB l a1 v]
      tauto

/-- C7: uploading an existing scalar field with an empty class list and
no declared attributes, for a sample whose field value stringifies to
`sv`, produces one tag whose attribute list is `[("value", sv)]`, whose
class name (`label_id`) is the field name itself, and sets
`assigned_scalar_attrs` to true; the synthetic task label is named after
the field with the default `"value"` text attribute. -/
theorem C7_scalar_field_upload (f : String) (v : PyValue) (sv : String)
    (hs : pyStr v = some sv) :
    upload_scalar_field f [] [] [some v] =
      some ⟨[⟨f, [⟨"value", true, "text"⟩]⟩], ["value"], true,
        [⟨f, 0, 0, "manual", [("value", sv)]⟩]⟩ := by
  unfold upload_scalar_field resolve_field_labels
  simp [create_scalar_tags, hs]

/-- C7 witness: the theorem applied at field `"animal"` and value
`"cat"`. -/
theorem C7_scalar_field_upload_witness :
    pyStr (PyValue.str "cat") = some "cat" ∧
      upload_scalar_field "animal" [] [] [some (PyValue.str "cat")] =
        some ⟨[⟨"animal", [⟨"value", true, "text"⟩]⟩], ["value"], true,
          [⟨"animal", 0, 0, "manual", [("value", "cat")]⟩]⟩ :=
  ⟨rfl, C7_scalar_field_upload "animal" (PyValue.str "cat") "cat" rfl⟩

theorem gen_alookup_mem {α β : Type} [DecidableEq α] {k : α} :
    ∀ {m : List (α × β)} {v}, alookup k m = some v → (k, v) ∈ m := by
  intro m
  induction m with
  | nil => intro v h; simp [alookup] at h
  | cons hd tl ih =>
    intro v h
    by_cases hk : hd.1 = k
    · rw [show hd = (hd.1, hd.2) from rfl, alookup, if_pos hk] at h
      rw [Option.some_inj] at h
      exact (show hd = (k, v) by rw [show hd = (hd.1, hd.2) from rfl, hk, h]) ▸
        List.mem_cons_self _ _
    · rw [show hd = (hd.1, hd.2) from rfl, alookup, if_neg hk] at h
      exact List.mem_cons_of_mem _ (ih h)

/-- C8 counterexample: a task whose `class_map` maps label id 1 to
`"dog"` while the field's declared class list is `["cat"]`.  The claim
predicts the tag is silently dropped (no label contributed, attributes
never decoded); in fact `download_annotations` rebinds `classes =
list(class_map.values())`, so the `"dog"` tag passes the class check,
is fully decoded, and is stored: the download succeeds with exactly one
label in the primary results. -/
theorem C8_counterexample :
    ("dog" ∉ (["cat"] : List String)) ∧
    (download_task ⟨"classifications", ["cat"], [(1, "dog")], [(1, [])],
        [(0, ⟨"s1", Option.none⟩)], [⟨1, 1⟩], false⟩ [⟨1, 0, []⟩] []).map
      (fun st => countResults st.results) = .ok 1 :=
  ⟨by decide, by decide⟩

/-- C8 (amended): during download the class check compares the resolved
class name against `classes = list(class_map.values())`, rebuilt from
the task's own labels — not against the field's declared class list.
Every tag whose `label_id` resolves in `class_map` therefore passes the
check regardless of the declared list: it is fully decoded (attributes
included) and stored, contributing one label, and the download
completes normally.  Nothing is dropped for being outside the declared
class list; the `ignore` path of `CVATLabel` is unreachable from
`download_annotations`. -/
theorem C8_mapped_class_tag_stored (ctx : DownloadCtx) (t : RemoteTag)
    (cls : String) (aids : List (String × ℤ)) (si : SampleInfo)
    (bag : List (String × PyValue))
    (hlt : ctx.label_type = "classifications")
    (hcm : alookup t.label_id ctx.class_map = some cls)
    (haid : alookup t.label_id ctx.attr_id_map = some aids)
    (hbag : CVATLabel.build_attributes t.attributes (revPairs aids) = some bag)
    (hfm : alookup t.frame ctx.frame_id_map = some si)
    (hfid : si.frame_id = Option.none) :
    ∃ st, download_task ctx [t] [] = .ok st ∧ countResults st.results = 1 := by
  have hin2 : cls ∈ ctx.class_map.map Prod.snd :=
    List.mem_map_of_mem Prod.snd (gen_alookup_mem hcm)
  have hfo : ∃ fo, (bag.filterMap (fun p =>
      if startsWithAttr p.1 then some (stripAttr p.1, p.2) else Option.none)) = fo :=
    ⟨_, rfl⟩
  rcases hfo with ⟨fo, hfo⟩
  have hlab : ∃ lab : DLabel, lab =
      CVATLabel.update_attrs ⟨t.label_id, cls, false, bag, fo⟩
        { kind := .classification, lid := freshId 0, label := cls,
          attributes := fo } := ⟨_, rfl⟩
  rcases hlab with ⟨lab, hlab⟩
  refine ⟨⟨[(si.sample_id, SampleVal.dict [(lab.lid, EntryVal.lab lab)])], [], 1⟩,
    ?_, ?_⟩
  · simp only [download_task, process_tags, process_shapes, process_tag,
      hfm, hfid, hcm, haid, hbag, hlt, getOrErr, CVATLabel.init,
      ensureSample, ensureFrame, storeLabel, alookup, upsert, hin2, hfo,
      hlab, Except.bind, bind, pure, Except.pure]
    simp [hin2, hfo, ← hlab, storeLabel, upsert, alookup, ensureSample]
  · simp [countResults, countSample, countEntry]

/-- Witness for C8: the amended theorem applied at the counterexample
input — declared classes `["cat"]`, task class `"dog"` — stores exactly
one label. -/
theorem C8_mapped_class_tag_stored_witness :
    ∃ st, download_task ⟨"classifications", ["cat"], [(1, "dog")], [(1, [])],
        [(0, ⟨"s1", Option.none⟩)], [⟨1, 1⟩], false⟩ [⟨1, 0, []⟩] [] = .ok st ∧
      countResults st.results = 1 :=
  C8_mapped_class_tag_stored _ ⟨1, 0, []⟩ "dog" [] ⟨"s1", Option.none⟩ []
    rfl (by decide) (by decide) rfl (by decide) rfl

/-- C6: for a task whose label field was declared with type
`"detections"` and whose payload contains exactly one `"polygon"` shape
with a known class, provided the shape decodes (its class and spec ids
resolve, its attributes build, its points pair up, the task has frame
metadata, and the sample is an image), the primary results hold zero
label entries and the additional results under `"polylines"` hold
exactly one. -/
theorem C6_polygon_in_detections_field (ctx : DownloadCtx) (s : RemoteShape)
    (cls : String) (aids : List (String × ℤ)) (si : SampleInfo)
    (pts : List Point) (bag : List (String × PyValue))
    (hlt : ctx.label_type = "detections")
    (hst : s.stype = "polygon")
    (hcm : alookup s.label_id ctx.class_map = some cls)
    (hin : cls ∈ ctx.classes)
    (haid : alookup s.label_id ctx.attr_id_map = some aids)
    (hbag : CVATLabel.build_attributes s.attributes (revPairs aids) = some bag)
    (hpts : toPairs s.points = some pts)
    (hfm : alookup s.frame ctx.frame_id_map = some si)
    (hfid : si.frame_id = Option.none)
    (hframes : ctx.frames ≠ []) :
    ∃ st, download_task ctx [] [s] = .ok st ∧
      countResults st.results = 0 ∧
      countResults ((alookup "polylines" st.additional).getD []) = 1 := by
  have hmd : ∃ md, (if ctx.frames.length > s.frame then ctx.frames.get? s.frame
      else ctx.frames.get? 0) = some md := by
    by_cases h : ctx.frames.length > s.frame
    · rw [if_pos h]
      rcases h2 : ctx.frames.get? s.frame with _ | md
      · rw [List.get?_eq_none] at h2
        omega
      · exact ⟨md, rfl⟩
    · rw [if_neg h]
      rcases hf : ctx.frames with _ | ⟨a, t⟩
      · exact absurd hf hframes
      · exact ⟨a, rfl⟩
  rcases hmd with ⟨md, hmd⟩
  have hfo : ∃ fo, (bag.filterMap (fun p =>
      if startsWithAttr p.1 then some (stripAttr p.1, p.2) else Option.none)) = fo :=
    ⟨_, rfl⟩
  rcases hfo with ⟨fo, hfo⟩
  have hdet : ∃ det : DLabel, det = polyline_to_detection (freshId 1)
      (CVATLabel.update_attrs ⟨s.label_id, cls, false, bag, fo⟩
        { kind := .polyline, lid := freshId 0, label := cls,
          points := [HasCVATPoints.to_rel_points pts (md.width, md.height)],
          closed := true, filled := true, attributes := fo }) := ⟨_, rfl⟩
  rcases hdet with ⟨det, hdet⟩
  have hin2 : cls ∈ ctx.class_map.map Prod.snd :=
    List.mem_map_of_mem Prod.snd (gen_alookup_mem hcm)
  refine ⟨⟨[(si.sample_id, SampleVal.dict [])],
    [("polylines", [(si.sample_id, SampleVal.dict [(det.lid, EntryVal.lab det)])])], 2⟩,
    ?_, ?_, ?_⟩
  · simp only [download_task, process_tags, process_shapes, process_shape,
      hmd, hfm, hfid, hcm, haid, hbag, hpts, hst, hlt, getOrErr,
      CVATLabel.init, CVATShape.to_polyline, ensureSample, ensureFrame,
      storeLabel, alookup, upsert, hin2, hfo, hdet, Except.bind, bind, pure,
      Except.pure, hfid]
    simp [hin2, hfo, ← hdet, storeLabel, upsert, alookup]
  · simp [countResults, countSample, countEntry]
  · simp [alookup, countResults, countSample, countEntry]

/-- Witness for C6: a concrete "detections" task with one polygon shape
of class "cat" over a 100×100 image stores nothing in the primary
results and one polyline label in the additional results. -/
theorem C6_polygon_in_detections_field_witness :
    ∃ st, download_task
      ⟨"detections", ["cat"], [(1, "cat")], [(1, [])],
        [(0, ⟨"s1", Option.none⟩)], [⟨100, 100⟩], false⟩
      [] [⟨"polygon", [10, 10, 20, 10, 20, 20], 1, 0, []⟩] = .ok st ∧
      countResults st.results = 0 ∧
      countResults ((alookup "polylines" st.additional).getD []) = 1 :=
  C6_polygon_in_detections_field _ ⟨"polygon", [10, 10, 20, 10, 20, 20], 1, 0, []⟩
    "cat" [] ⟨"s1", Option.none⟩ [(10, 10), (20, 10), (20, 20)] []
    rfl rfl (by decide) (by decide) (by decide) rfl rfl (by decide) rfl
    (by decide)

theorem alookup_filter_of_forall_mem {α β : Type} [DecidableEq α] (k : α)
    (f : α × β → Bool) :
    ∀ l : List (α × β), (∀ v, (k, v) ∈ l → f (k, v) = true) →
      alookup k (l.filter f) = alookup k l := by
  intro l
  induction l with
  | nil => intro _; simp [alookup]
  | cons hd tl ih =>
    intro hf
    obtain ⟨k1, v1⟩ := hd
    by_cases hk : k1 = k
    · subst hk
      have h1 : f (k1, v1) = true := hf v1 (List.mem_cons_self _ _)
      rw [List.filter_cons, h1]
      simp [alookup]
    · rw [List.filter_cons]
      cases hfc : f (k1, v1) with
      | false =>
        rw [if_neg (by simp)]
        rw [ih (fun v hv => hf v (List.mem_cons_of_mem _ hv))]
        simp [alookup, hk]
      | true =>
        simp only [if_pos rfl]
        simp only [alookup, if_neg hk]
        exact ih (fun v hv => hf v (List.mem_cons_of_mem _ hv))

theorem alookup_filter_of_none {α β : Type} [DecidableEq α] (k : α)
    (f : α × β → Bool) (hf : ∀ v, f (k, v) = false) :
    ∀ l : List (α × β), alookup k (l.filter f) = Option.none := by
  intro l
  induction l with
  | nil => simp [alookup]
  | cons hd tl ih =>
    obtain ⟨k1, v1⟩ := hd
    rw [List.filter_cons]
    by_cases hk : k1 = k
    · subst hk
      rw [hf v1]
      simpa using ih
    · cases hfc : f (k1, v1) with
      | false => simpa using ih
      | true => simp only [if_pos rfl, alookup, if_neg hk]; exact ih

theorem KeysSorted_filter {β : Type} (f : String × β → Bool)
    (l : List (String × β)) (h : KeysSorted l) : KeysSorted (l.filter f) :=
  List.Pairwise.sublist (List.filter_sublist l) h

theorem addOptAttr_sorted (k : String) (v : Option PyValue)
    (d : List (String × PyValue)) (h : KeysSorted d) :
    KeysSorted (addOptAttr k v d) := by
  unfold addOptAttr
  match v with
  | Option.none => exact h
  | some w =>
    by_cases hw : w = PyValue.none
    · simp only [if_pos hw]; exact h
    · simp only [if_neg hw]
      exact upsertSortedWith_sorted k (fun _ => w) w d h

theorem alookup_addOptAttr_self (k : String) (w : PyValue) (hw : w ≠ PyValue.none)
    (d : List (String × PyValue)) (hd : KeysSorted d) :
    alookup k (addOptAttr k (some w) d) = some w := by
  unfold addOptAttr
  simp only [if_neg hw]
  rw [alookup_upsertSortedWith_self k (fun _ => w) w d hd]
  cases alookup k d <;> rfl

theorem alookup_addOptAttr_other (k k1 : String) (v : Option PyValue)
    (hk : k1 ≠ k) (d : List (String × PyValue)) :
    alookup k1 (addOptAttr k v d) = alookup k1 d := by
  unfold addOptAttr
  match v with
  | Option.none => rfl
  | some w =>
    by_cases hw : w = PyValue.none
    · simp only [if_pos hw]
    · simp only [if_neg hw]
      exact alookup_upsertSortedWith_other k k1 (fun _ => w) w hk d

theorem addOptAttr_none (k : String) (d : List (String × PyValue)) :
    addOptAttr k Option.none d = d := rfl

theorem video_attrs_round_trip (attrs : List (String × PyValue))
    (h : AttrsOk attrs) :
    to_video_attributes (parse_video_attributes attrs) = attrs := by
  obtain ⟨hs, hv⟩ := h
  have hfs : KeysSorted ((parse_video_attributes attrs).attributes) :=
    KeysSorted_filter _ attrs hs
  have hs1 : KeysSorted (addOptAttr "outside" (alookup "outside" attrs)
      ((parse_video_attributes attrs).attributes)) :=
    addOptAttr_sorted _ _ _ hfs
  have hs2 : KeysSorted (addOptAttr "occluded" (alookup "occluded" attrs)
      (addOptAttr "outside" (alookup "outside" attrs)
        ((parse_video_attributes attrs).attributes))) :=
    addOptAttr_sorted _ _ _ hs1
  apply sorted_alist_ext
  · exact addOptAttr_sorted _ _ _ hs2
  · exact hs
  · intro k
    show alookup k (addOptAttr "keyframe" (alookup "keyframe" attrs)
      (addOptAttr "occluded" (alookup "occluded" attrs)
        (addOptAttr "outside" (alookup "outside" attrs)
          ((parse_video_attributes attrs).attributes)))) = alookup k attrs
    by_cases hk3 : k = "keyframe"
    · subst hk3
      rcases hkf : alookup "keyframe" attrs with _ | w
      · rw [addOptAttr_none]
        rw [alookup_addOptAttr_other "occluded" "keyframe" _ (by decide)]
        rw [alookup_addOptAttr_other "outside" "keyframe" _ (by decide)]
        show alookup "keyframe" (List.filter _ attrs) = _
        rw [alookup_filter_of_none _ _ (fun v => by simp [reservedVideoKeys])]
      · have hw : w ≠ PyValue.none := hv _ (alookup_mem hkf)
        rw [alookup_addOptAttr_self _ _ hw _ hs2]
    · rw [alookup_addOptAttr_other "keyframe" k _ hk3]
      by_cases hk2 : k = "occluded"
      · subst hk2
        rcases hkf : alookup "occluded" attrs with _ | w
        · rw [addOptAttr_none]
          rw [alookup_addOptAttr_other "outside" "occluded" _ (by decide)]
          show alookup "occluded" (List.filter _ attrs) = _
          rw [alookup_filter_of_none _ _ (fun v => by simp [reservedVideoKeys])]
        · have hw : w ≠ PyValue.none := hv _ (alookup_mem hkf)
          rw [alookup_addOptAttr_self _ _ hw _ hs1]
      · rw [alookup_addOptAttr_other "occluded" k _ hk2]
        by_cases hk1 : k = "outside"
        · subst hk1
          rcases hkf : alookup "outside" attrs with _ | w
          · rw [addOptAttr_none]
            show alookup "outside" (List.filter _ attrs) = _
            rw [alookup_filter_of_none _ _ (fun v => by simp [reservedVideoKeys])]
          · have hw : w ≠ PyValue.none := hv _ (alookup_mem hkf)
            rw [alookup_addOptAttr_self _ _ hw _ hfs]
        · rw [alookup_addOptAttr_other "outside" k _ hk1]
          show alookup k (List.filter _ attrs) = _
          apply alookup_filter_of_forall_mem
          intro v hkv
          have h1 : v ≠ PyValue.none := hv _ hkv
          simp only [Bool.and_eq_true, Bool.not_eq_true]
          refine ⟨by simp [reservedVideoKeys, hk1, hk2, hk3], ?_⟩
          cases v <;> simp_all [is_supported_attribute_type]

theorem to_rel_abs_aligned (fsz : ℤ × ℤ) (hw : (fsz.1 : ℚ) ≠ 0)
    (hh : (fsz.2 : ℚ) ≠ 0) :
    ∀ ps : List Point, (∀ q ∈ ps, alignedPt fsz q) →
      HasCVATPoints.to_rel_points
        ((HasCVATPoints.to_abs_points ps fsz).map
          (fun q => ((q.1 : ℚ), (q.2 : ℚ)))) fsz = ps := by
  intro ps hps
  unfold HasCVATPoints.to_rel_points HasCVATPoints.to_abs_points
  rw [List.map_map, List.map_map]
  conv_rhs => rw [show ps = ps.map id from (List.map_id ps).symm]
  apply List.map_congr_left
  intro q hq
  obtain ⟨h1, h2⟩ := hps q hq
  simp only [Function.comp_apply, id_eq]
  rw [h1, h2]
  rw [mul_div_cancel_right₀ _ hw, mul_div_cancel_right₀ _ hh]

theorem box_round_trip (fn : ℤ) (lab : String) (bb : ℚ × ℚ × ℚ × ℚ)
    (attrs : List (String × PyValue)) (fsz : ℤ × ℤ) (i : Option ℤ)
    (hw : (fsz.1 : ℚ) ≠ 0) (hh : (fsz.2 : ℚ) ≠ 0)
    (ha : AttrsOk attrs)
    (h1 : ((pyRound (bb.1 * (fsz.1 : ℚ)) : ℚ) = bb.1 * (fsz.1 : ℚ)))
    (h2 : ((pyRound (bb.2.1 * (fsz.2 : ℚ)) : ℚ) = bb.2.1 * (fsz.2 : ℚ)))
    (h3 : ((pyRound ((bb.1 + bb.2.2.1) * (fsz.1 : ℚ)) : ℚ) =
      (bb.1 + bb.2.2.1) * (fsz.1 : ℚ)))
    (h4 : ((pyRound ((bb.2.1 + bb.2.2.2) * (fsz.2 : ℚ)) : ℚ) =
      (bb.2.1 + bb.2.2.2) * (fsz.2 : ℚ))) :
    (CVATVideoBox.to_detection
        (CVATVideoBox.from_detection fn lab bb attrs fsz) fsz).setIndex i =
      FOLabel.det lab bb i attrs := by
  obtain ⟨x, y, w, h⟩ := bb
  unfold CVATVideoBox.to_detection CVATVideoBox.from_detection FOLabel.setIndex
  simp only
  rw [video_attrs_round_trip attrs ha]
  congr 1
  simp only at h1 h2 h3 h4
  have e1 : ((pyRound (x * (fsz.1 : ℚ)) : ℚ)) / (fsz.1 : ℚ) = x := by
    rw [h1, mul_div_cancel_right₀ _ hw]
  have e2 : ((pyRound (y * (fsz.2 : ℚ)) : ℚ)) / (fsz.2 : ℚ) = y := by
    rw [h2, mul_div_cancel_right₀ _ hh]
  have e3 : ((pyRound ((x + w) * (fsz.1 : ℚ)) - pyRound (x * (fsz.1 : ℚ)) : ℤ) : ℚ) /
      (fsz.1 : ℚ) = w := by
    push_cast
    rw [h1, h3]
    field_simp
    ring
  have e4 : ((pyRound ((y + h) * (fsz.2 : ℚ)) - pyRound (y * (fsz.2 : ℚ)) : ℤ) : ℚ) /
      (fsz.2 : ℚ) = h := by
    push_cast
    rw [h2, h4]
    field_simp
    ring
  rw [e1, e2, e3, e4]

theorem polygon_round_trip (fn : ℤ) (lab : String) (ps : List Point)
    (attrs : List (String × PyValue)) (fsz : ℤ × ℤ) (i : Option ℤ)
    (hw : (fsz.1 : ℚ) ≠ 0) (hh : (fsz.2 : ℚ) ≠ 0)
    (ha : AttrsOk attrs) (hp : ∀ q ∈ ps, alignedPt fsz q) :
    (CVATVideoPolygon.to_polyline
        (CVATVideoPolygon.from_polyline fn lab [ps] attrs fsz) fsz).setIndex i =
      FOLabel.pl lab [ps] true true i attrs := by
  unfold CVATVideoPolygon.to_polyline CVATVideoPolygon.from_polyline FOLabel.setIndex
  simp only [get_single_polyline_points]
  rw [video_attrs_round_trip attrs ha]
  rw [to_rel_abs_aligned fsz hw hh ps hp]

theorem polyline_round_trip (fn : ℤ) (lab : String) (ps : List Point)
    (attrs : List (String × PyValue)) (fsz : ℤ × ℤ) (i : Option ℤ)
    (hw : (fsz.1 : ℚ) ≠ 0) (hh : (fsz.2 : ℚ) ≠ 0)
    (ha : AttrsOk attrs) (hp : ∀ q ∈ ps, alignedPt fsz q) :
    (CVATVideoPolyline.to_polyline
        (CVATVideoPolyline.from_polyline fn lab [ps] false attrs fsz) fsz).setIndex i =
      FOLabel.pl lab [ps] false false i attrs := by
  unfold CVATVideoPolyline.to_polyline CVATVideoPolyline.from_polyline FOLabel.setIndex
  simp only [get_single_polyline_points]
  rw [video_attrs_round_trip attrs ha]
  have hap : appendFirstIfClosed false (HasCVATPoints.to_abs_points ps fsz) =
      HasCVATPoints.to_abs_points ps fsz := by
    unfold appendFirstIfClosed
    match HasCVATPoints.to_abs_points ps fsz with
    | [] => rfl
    | a :: rest => simp
  rw [hap, to_rel_abs_aligned fsz hw hh ps hp]

theorem points_round_trip (fn : ℤ) (lab : String) (ps : List Point)
    (attrs : List (String × PyValue)) (fsz : ℤ × ℤ) (i : Option ℤ)
    (hw : (fsz.1 : ℚ) ≠ 0) (hh : (fsz.2 : ℚ) ≠ 0)
    (ha : AttrsOk attrs) (hp : ∀ q ∈ ps, alignedPt fsz q) :
    (CVATVideoPoints.to_keypoint
        (CVATVideoPoints.from_keypoint fn lab ps attrs fsz) fsz).setIndex i =
      FOLabel.kp lab ps i attrs := by
  unfold CVATVideoPoints.to_keypoint CVATVideoPoints.from_keypoint FOLabel.setIndex
  rw [video_attrs_round_trip attrs ha]
  rw [to_rel_abs_aligned fsz hw hh ps hp]

theorem upsert_of_not_mem {α β : Type} [DecidableEq α] (k : α) (v : β) :
    ∀ l : List (α × β), k ∉ l.map Prod.fst → upsert k v l = l ++ [(k, v)] := by
  intro l
  induction l with
  | nil => intro _; rfl
  | cons hd tl ih =>
    intro hk
    obtain ⟨k1, v1⟩ := hd
    simp only [List.map_cons, List.mem_cons] at hk
    push_neg at hk
    rw [show upsert k v ((k1, v1) :: tl) =
      if k1 = k then (k, v) :: tl else (k1, v1) :: upsert k v tl from rfl]
    rw [if_neg (fun h => hk.1 h.symm), ih hk.2]
    rfl

theorem foldl_cond_upsert {γ β : Type} (sel : ℤ × γ → Option β) :
    ∀ (l : List (ℤ × γ)) (acc : List (ℤ × β)),
      (l.map Prod.fst).Nodup → (∀ p ∈ l, p.1 ∉ acc.map Prod.fst) →
      l.foldl (condUpsertStep sel) acc =
        acc ++ l.filterMap (fun p => (sel p).map (fun v => (p.1, v))) := by
  intro l
  induction l with
  | nil => intro acc _ _; simp
  | cons hd tl ih =>
    intro acc hnd hfr
    simp only [List.map_cons, List.nodup_cons] at hnd
    rw [List.foldl_cons]
    rcases hsel : sel hd with _ | v
    · rw [show condUpsertStep sel acc hd = acc from by unfold condUpsertStep; rw [hsel]]
      rw [ih acc hnd.2 (fun p hp => hfr p (List.mem_cons_of_mem _ hp))]
      simp [List.filterMap_cons, hsel]
    · have h1 := upsert_of_not_mem hd.1 v acc (hfr hd (List.mem_cons_self _ _))
      rw [show condUpsertStep sel acc hd = upsert hd.1 v acc from by
        unfold condUpsertStep; rw [hsel]]
      rw [h1, ih (acc ++ [(hd.1, v)]) hnd.2 ?_]
      · simp [List.filterMap_cons, hsel]
      · intro p hp
        simp only [List.map_append, List.mem_append]
        push_neg
        refine ⟨fun h => hfr p (List.mem_cons_of_mem _ hp) h, ?_⟩
        simp only [List.map_cons, List.map_nil, List.mem_singleton]
        intro h
        exact hnd.1 (h ▸ List.mem_map_of_mem Prod.fst hp)

theorem nodup_keys_eq {α β : Type} [DecidableEq α] {k : α} {a b : β} :
    ∀ {d : List (α × β)}, (d.map Prod.fst).Nodup →
      (k, a) ∈ d → (k, b) ∈ d → a = b := by
  intro d
  induction d with
  | nil => intro _ h; simp at h
  | cons hd tl ih =>
    intro hnd ha hb
    simp only [List.map_cons, List.nodup_cons] at hnd
    rcases List.mem_cons.mp ha with ha1 | ha2
    · rcases List.mem_cons.mp hb with hb1 | hb2
      · rw [← ha1] at hb1; exact (Prod.mk.injEq .. ▸ hb1).2.symm
      · refine absurd ?_ hnd.1
        have h2 := List.mem_map_of_mem Prod.fst hb2
        simpa [← ha1] using h2
    · rcases List.mem_cons.mp hb with hb1 | hb2
      · refine absurd ?_ hnd.1
        have h2 := List.mem_map_of_mem Prod.fst ha2
        simpa [← hb1] using h2
      · exact ih hnd.2 ha2 hb2

theorem boxes_from_labels (fsz : ℤ × ℤ) :
    ∀ (d : List (ℤ × FOLabel)) (b : TrackBuild),
      (d.foldl (trackBuildStep fsz) b).boxes =
        d.foldl (condUpsertStep (selBox fsz)) b.boxes := by
  intro d
  induction d with
  | nil => intro b; rfl
  | cons hd tl ih =>
    intro b
    rw [List.foldl_cons, List.foldl_cons, ih]
    congr 1
    obtain ⟨fn, l⟩ := hd
    cases l with
    | det lab bb i attrs => rfl
    | pl lab pts c f i attrs =>
      cases f <;> simp [trackBuildStep, selBox, condUpsertStep]
    | kp lab pts i attrs => rfl

theorem polygons_from_labels (fsz : ℤ × ℤ) :
    ∀ (d : List (ℤ × FOLabel)) (b : TrackBuild),
      (d.foldl (trackBuildStep fsz) b).polygons =
        d.foldl (condUpsertStep (selPolygon fsz)) b.polygons := by
  intro d
  induction d with
  | nil => intro b; rfl
  | cons hd tl ih =>
    intro b
    rw [List.foldl_cons, List.foldl_cons, ih]
    congr 1
    obtain ⟨fn, l⟩ := hd
    cases l with
    | det lab bb i attrs => rfl
    | pl lab pts c f i attrs =>
      cases f <;> simp [trackBuildStep, selPolygon, condUpsertStep]
    | kp lab pts i attrs => rfl

theorem polylines_from_labels (fsz : ℤ × ℤ) :
    ∀ (d : List (ℤ × FOLabel)) (b : TrackBuild),
      (d.foldl (trackBuildStep fsz) b).polylines =
        d.foldl (condUpsertStep (selPolyline fsz)) b.polylines := by
  intro d
  induction d with
  | nil => intro b; rfl
  | cons hd tl ih =>
    intro b
    rw [List.foldl_cons, List.foldl_cons, ih]
    congr 1
    obtain ⟨fn, l⟩ := hd
    cases l with
    | det lab bb i attrs => rfl
    | pl lab pts c f i attrs =>
      cases f <;> simp [trackBuildStep, selPolyline, condUpsertStep]
    | kp lab pts i attrs => rfl

theorem points_from_labels (fsz : ℤ × ℤ) :
    ∀ (d : List (ℤ × FOLabel)) (b : TrackBuild),
      (d.foldl (trackBuildStep fsz) b).points =
        d.foldl (condUpsertStep (selPoints fsz)) b.points := by
  intro d
  induction d with
  | nil => intro b; rfl
  | cons hd tl ih =>
    intro b
    rw [List.foldl_cons, List.foldl_cons, ih]
    congr 1
    obtain ⟨fn, l⟩ := hd
    cases l with
    | det lab bb i attrs => rfl
    | pl lab pts c f i attrs =>
      cases f <;> simp [trackBuildStep, selPoints, condUpsertStep]
    | kp lab pts i attrs => rfl

theorem foldl_upsert_fresh {γ β : Type} (g : ℤ × γ → β) :
    ∀ (l : List (ℤ × γ)) (acc : List (ℤ × β)),
      (l.map Prod.fst).Nodup → (∀ p ∈ l, p.1 ∉ acc.map Prod.fst) →
      l.foldl (fun a p => upsert p.1 (g p) a) acc =
        acc ++ l.map (fun p => (p.1, g p)) := by
  intro l
  induction l with
  | nil => intro acc _ _; simp
  | cons hd tl ih =>
    intro acc hnd hfr
    simp only [List.map_cons, List.nodup_cons] at hnd
    rw [List.foldl_cons]
    rw [upsert_of_not_mem hd.1 (g hd) acc (hfr hd (List.mem_cons_self _ _))]
    rw [ih (acc ++ [(hd.1, g hd)]) hnd.2 ?_]
    · simp
    · intro p hp
      simp only [List.map_append, List.mem_append]
      push_neg
      refine ⟨fun h => hfr p (List.mem_cons_of_mem _ hp) h, ?_⟩
      simp only [List.map_cons, List.map_nil, List.mem_singleton]
      intro h
      exact hnd.1 (h ▸ List.mem_map_of_mem Prod.fst hp)

theorem keys_filterMap_sublist {γ β : Type} (sel : ℤ × γ → Option β) :
    ∀ d : List (ℤ × γ),
      ((d.filterMap (fun p => (sel p).map (fun v => (p.1, v)))).map Prod.fst).Sublist
        (d.map Prod.fst) := by
  intro d
  induction d with
  | nil => simp
  | cons hd tl ih =>
    rw [List.filterMap_cons]
    rcases sel hd with _ | v
    · exact ih.cons hd.1
    · exact ih.cons₂ hd.1

theorem mem_keys_filterMap {γ β : Type} (sel : ℤ × γ → Option β) :
    ∀ {d : List (ℤ × γ)} {k : ℤ},
      k ∈ (d.filterMap (fun p => (sel p).map (fun v => (p.1, v)))).map Prod.fst →
      ∃ l, (k, l) ∈ d ∧ sel (k, l) ≠ Option.none := by
  intro d
  induction d with
  | nil => intro k h; simp at h
  | cons hd tl ih =>
    intro k h
    rw [List.filterMap_cons] at h
    rcases hsel : sel hd with _ | v
    · rw [hsel] at h
      obtain ⟨l, hl, hs⟩ := ih h
      exact ⟨l, List.mem_cons_of_mem _ hl, hs⟩
    · rw [hsel] at h
      simp only [Option.map_some', List.map_cons, List.mem_cons] at h
      rcases h with h1 | h2
      · refine ⟨hd.2, ?_, ?_⟩
        · rw [show (k, hd.2) = hd from by rw [h1]]
          exact List.mem_cons_self _ _
        · rw [show (k, hd.2) = hd from by rw [h1]]
          simp [hsel]
      · obtain ⟨l, hl, hs⟩ := ih h2
        exact ⟨l, List.mem_cons_of_mem _ hl, hs⟩

theorem disjoint_sel_keys {γ β1 β2 : Type} (sel1 : ℤ × γ → Option β1)
    (sel2 : ℤ × γ → Option β2) (d : List (ℤ × γ))
    (hnd : (d.map Prod.fst).Nodup)
    (hdisj : ∀ x, sel1 x = Option.none ∨ sel2 x = Option.none) (k : ℤ)
    (h1 : k ∈ (d.filterMap (fun p => (sel1 p).map (fun v => (p.1, v)))).map Prod.fst)
    (h2 : k ∈ (d.filterMap (fun p => (sel2 p).map (fun v => (p.1, v)))).map Prod.fst) :
    False := by
  obtain ⟨l1, hl1, hs1⟩ := mem_keys_filterMap sel1 h1
  obtain ⟨l2, hl2, hs2⟩ := mem_keys_filterMap sel2 h2
  have he : l1 = l2 := nodup_keys_eq hnd hl1 hl2
  subst he
  rcases hdisj (k, l1) with h | h
  · exact hs1 h
  · exact hs2 h

theorem keys_map_pair {γ β : Type} (g : ℤ × γ → β) (l : List (ℤ × γ)) :
    (l.map (fun p => (p.1, g p))).map Prod.fst = l.map Prod.fst := by
  rw [List.map_map]
  rfl

theorem filterMap_eq_filter_of {α : Type} (f : α → Option α) (q : α → Bool) :
    ∀ l : List α, (∀ x ∈ l, (q x = true → f x = some x) ∧ (q x = false → f x = Option.none)) →
      l.filterMap f = l.filter q := by
  intro l
  induction l with
  | nil => intro _; rfl
  | cons hd tl ih =>
    intro hx
    rw [List.filterMap_cons, List.filter_cons]
    cases hq : q hd with
    | true =>
      rw [(hx hd (List.mem_cons_self _ _)).1 hq]
      rw [ih (fun x hxm => hx x (List.mem_cons_of_mem _ hxm))]
      simp
    | false =>
      rw [(hx hd (List.mem_cons_self _ _)).2 hq]
      rw [ih (fun x hxm => hx x (List.mem_cons_of_mem _ hxm))]
      simp

theorem four_partition :
    ∀ d : List (ℤ × FOLabel),
      (↑(d.filter isDetPair) : Multiset (ℤ × FOLabel)) + ↑(d.filter isPolygonPair) +
        ↑(d.filter isPolylinePair) + ↑(d.filter isKpPair) = ↑d := by
  intro d
  induction d with
  | nil => simp
  | cons hd tl ih =>
    obtain ⟨fn, l⟩ := hd
    cases l with
    | det lab bb i attrs =>
      simp only [List.filter_cons, isDetPair, isPolygonPair, isPolylinePair, isKpPair]
      simp only [decide_eq_true_eq, if_true, if_neg, Bool.false_eq_true, ite_false]
      rw [← Multiset.cons_coe]
      rw [show ((((fn, FOLabel.det lab bb i attrs) ::ₘ ↑(tl.filter isDetPair) :
        Multiset (ℤ × FOLabel))) + ↑(tl.filter isPolygonPair) +
        ↑(tl.filter isPolylinePair) + ↑(tl.filter isKpPair)) =
        (fn, FOLabel.det lab bb i attrs) ::ₘ (↑(tl.filter isDetPair) +
          ↑(tl.filter isPolygonPair) + ↑(tl.filter isPolylinePair) +
          ↑(tl.filter isKpPair)) from by
        simp only [Multiset.cons_add]]
      rw [ih, Multiset.cons_coe]
    | pl lab pts c f i attrs =>
      cases f with
      | true =>
        simp only [List.filter_cons, isDetPair, isPolygonPair, isPolylinePair, isKpPair]
        simp only [Bool.not_true, if_neg, Bool.false_eq_true, ite_false, if_true]
        rw [← Multiset.cons_coe]
        rw [show ((↑(tl.filter isDetPair) : Multiset (ℤ × FOLabel)) +
          ((fn, FOLabel.pl lab pts c true i attrs) ::ₘ ↑(tl.filter isPolygonPair)) +
          ↑(tl.filter isPolylinePair) + ↑(tl.filter isKpPair)) =
          (fn, FOLabel.pl lab pts c true i attrs) ::ₘ (↑(tl.filter isDetPair) +
            ↑(tl.filter isPolygonPair) + ↑(tl.filter isPolylinePair) +
            ↑(tl.filter isKpPair)) from by
          simp only [Multiset.add_cons, Multiset.cons_add]]
        rw [ih, Multiset.cons_coe]
      | false =>
        simp only [List.filter_cons, isDetPair, isPolygonPair, isPolylinePair, isKpPair]
        simp only [Bool.not_false, if_neg, Bool.false_eq_true, ite_false, if_true]
        rw [← Multiset.cons_coe]
        rw [show ((↑(tl.filter isDetPair) : Multiset (ℤ × FOLabel)) +
          ↑(tl.filter isPolygonPair) +
          ((fn, FOLabel.pl lab pts c false i attrs) ::ₘ ↑(tl.filter isPolylinePair)) +
          ↑(tl.filter isKpPair)) =
          (fn, FOLabel.pl lab pts c false i attrs) ::ₘ (↑(tl.filter isDetPair) +
            ↑(tl.filter isPolygonPair) + ↑(tl.filter isPolylinePair) +
            ↑(tl.filter isKpPair)) from by
          simp only [Multiset.add_cons, Multiset.cons_add]]
        rw [ih, Multiset.cons_coe]
    | kp lab pts i attrs =>
      simp only [List.filter_cons, isDetPair, isPolygonPair, isPolylinePair, isKpPair]
      simp only [if_neg, Bool.false_eq_true, ite_false, if_true]
      rw [← Multiset.cons_coe]
      rw [show ((↑(tl.filter isDetPair) : Multiset (ℤ × FOLabel)) +
        ↑(tl.filter isPolygonPair) + ↑(tl.filter isPolylinePair) +
        ((fn, FOLabel.kp lab pts i attrs) ::ₘ ↑(tl.filter isKpPair))) =
        (fn, FOLabel.kp lab pts i attrs) ::ₘ (↑(tl.filter isDetPair) +
          ↑(tl.filter isPolygonPair) + ↑(tl.filter isPolylinePair) +
          ↑(tl.filter isKpPair)) from by
        simp only [Multiset.add_cons, Multiset.cons_add]]
      rw [ih, Multiset.cons_coe]

theorem selBox_polygon_disjoint (fsz : ℤ × ℤ) (x : ℤ × FOLabel) :
    selBox fsz x = Option.none ∨ selPolygon fsz x = Option.none := by
  obtain ⟨a, l⟩ := x
  cases l with
  | det lab bb i attrs => right; rfl
  | pl lab pts c f i attrs => left; rfl
  | kp lab pts i attrs => left; rfl

theorem selBox_polyline_disjoint (fsz : ℤ × ℤ) (x : ℤ × FOLabel) :
    selBox fsz x = Option.none ∨ selPolyline fsz x = Option.none := by
  obtain ⟨a, l⟩ := x
  cases l with
  | det lab bb i attrs => right; rfl
  | pl lab pts c f i attrs => left; rfl
  | kp lab pts i attrs => left; rfl

theorem selBox_points_disjoint (fsz : ℤ × ℤ) (x : ℤ × FOLabel) :
    selBox fsz x = Option.none ∨ selPoints fsz x = Option.none := by
  obtain ⟨a, l⟩ := x
  cases l with
  | det lab bb i attrs => right; rfl
  | pl lab pts c f i attrs => left; rfl
  | kp lab pts i attrs => left; rfl

theorem selPolygon_polyline_disjoint (fsz : ℤ × ℤ) (x : ℤ × FOLabel) :
    selPolygon fsz x = Option.none ∨ selPolyline fsz x = Option.none := by
  obtain ⟨a, l⟩ := x
  cases l with
  | det lab bb i attrs => left; rfl
  | pl lab pts c f i attrs =>
    cases f with
    | true => right; simp [selPolyline]
    | false => left; simp [selPolygon]
  | kp lab pts i attrs => left; rfl

theorem selPolygon_points_disjoint (fsz : ℤ × ℤ) (x : ℤ × FOLabel) :
    selPolygon fsz x = Option.none ∨ selPoints fsz x = Option.none := by
  obtain ⟨a, l⟩ := x
  cases l with
  | det lab bb i attrs => left; rfl
  | pl lab pts c f i attrs => right; rfl
  | kp lab pts i attrs => left; rfl

theorem selPolyline_points_disjoint (fsz : ℤ × ℤ) (x : ℤ × FOLabel) :
    selPolyline fsz x = Option.none ∨ selPoints fsz x = Option.none := by
  obtain ⟨a, l⟩ := x
  cases l with
  | det lab bb i attrs => left; rfl
  | pl lab pts c f i attrs => right; rfl
  | kp lab pts i attrs => left; rfl

theorem to_labels_from_labels (i : ℤ) (fsz : ℤ × ℤ) (d : List (ℤ × FOLabel))
    (hnd : (d.map Prod.fst).Nodup) :
    (CVATTrack.from_labels i d fsz).to_labels =
      (d.filterMap (fun p => (selBox fsz p).map (fun v => (p.1, v)))).map
        (fun p => (p.1, (CVATVideoBox.to_detection p.2 fsz).setIndex (some i)))
      ++ (d.filterMap (fun p => (selPolygon fsz p).map (fun v => (p.1, v)))).map
        (fun p => (p.1, (CVATVideoPolygon.to_polyline p.2 fsz).setIndex (some i)))
      ++ (d.filterMap (fun p => (selPolyline fsz p).map (fun v => (p.1, v)))).map
        (fun p => (p.1, (CVATVideoPolyline.to_polyline p.2 fsz).setIndex (some i)))
      ++ (d.filterMap (fun p => (selPoints fsz p).map (fun v => (p.1, v)))).map
        (fun p => (p.1, (CVATVideoPoints.to_keypoint p.2 fsz).setIndex (some i))) := by
  have hbx : (CVATTrack.from_labels i d fsz).boxes =
      d.filterMap (fun p => (selBox fsz p).map (fun v => (p.1, v))) := by
    rw [show (CVATTrack.from_labels i d fsz).boxes =
      (d.foldl (trackBuildStep fsz) ⟨Option.none, [], [], [], []⟩).boxes from rfl]
    rw [boxes_from_labels fsz d ⟨Option.none, [], [], [], []⟩]
    rw [show ((⟨Option.none, [], [], [], []⟩ : TrackBuild)).boxes =
      ([] : List (ℤ × CVATVideoBox)) from rfl]
    exact (foldl_cond_upsert (selBox fsz) d [] hnd (by intro p _; simp)).trans (List.nil_append _)
  have hpg : (CVATTrack.from_labels i d fsz).polygons =
      d.filterMap (fun p => (selPolygon fsz p).map (fun v => (p.1, v))) := by
    rw [show (CVATTrack.from_labels i d fsz).polygons =
      (d.foldl (trackBuildStep fsz) ⟨Option.none, [], [], [], []⟩).polygons from rfl]
    rw [polygons_from_labels fsz d ⟨Option.none, [], [], [], []⟩]
    rw [show ((⟨Option.none, [], [], [], []⟩ : TrackBuild)).polygons =
      ([] : List (ℤ × CVATVideoPolygon)) from rfl]
    exact (foldl_cond_upsert (selPolygon fsz) d [] hnd (by intro p _; simp)).trans (List.nil_append _)
  have hpl : (CVATTrack.from_labels i d fsz).polylines =
      d.filterMap (fun p => (selPolyline fsz p).map (fun v => (p.1, v))) := by
    rw [show (CVATTrack.from_labels i d fsz).polylines =
      (d.foldl (trackBuildStep fsz) ⟨Option.none, [], [], [], []⟩).polylines from rfl]
    rw [polylines_from_labels fsz d ⟨Option.none, [], [], [], []⟩]
    rw [show ((⟨Option.none, [], [], [], []⟩ : TrackBuild)).polylines =
      ([] : List (ℤ × CVATVideoPolyline)) from rfl]
    exact (foldl_cond_upsert (selPolyline fsz) d [] hnd (by intro p _; simp)).trans (List.nil_append _)
  have hpt : (CVATTrack.from_labels i d fsz).points =
      d.filterMap (fun p => (selPoints fsz p).map (fun v => (p.1, v))) := by
    rw [show (CVATTrack.from_labels i d fsz).points =
      (d.foldl (trackBuildStep fsz) ⟨Option.none, [], [], [], []⟩).points from rfl]
    rw [points_from_labels fsz d ⟨Option.none, [], [], [], []⟩]
    rw [show ((⟨Option.none, [], [], [], []⟩ : TrackBuild)).points =
      ([] : List (ℤ × CVATVideoPoints)) from rfl]
    exact (foldl_cond_upsert (selPoints fsz) d [] hnd (by intro p _; simp)).trans (List.nil_append _)
  have hnbx := (keys_filterMap_sublist (selBox fsz) d).nodup hnd
  have hnpg := (keys_filterMap_sublist (selPolygon fsz) d).nodup hnd
  have hnpl := (keys_filterMap_sublist (selPolyline fsz) d).nodup hnd
  have hnpt := (keys_filterMap_sublist (selPoints fsz) d).nodup hnd
  show (let fs := ((CVATTrack.from_labels i d fsz).width,
      (CVATTrack.from_labels i d fsz).height)
    let l1 := (CVATTrack.from_labels i d fsz).boxes.foldl (fun acc p =>
      upsert p.1 ((CVATVideoBox.to_detection p.2 fs).setIndex
        (some (CVATTrack.from_labels i d fsz).id)) acc) []
    let l2 := (CVATTrack.from_labels i d fsz).polygons.foldl (fun acc p =>
      upsert p.1 ((CVATVideoPolygon.to_polyline p.2 fs).setIndex
        (some (CVATTrack.from_labels i d fsz).id)) acc) l1
    let l3 := (CVATTrack.from_labels i d fsz).polylines.foldl (fun acc p =>
      upsert p.1 ((CVATVideoPolyline.to_polyline p.2 fs).setIndex
        (some (CVATTrack.from_labels i d fsz).id)) acc) l2
    (CVATTrack.from_labels i d fsz).points.foldl (fun acc p =>
      upsert p.1 ((CVATVideoPoints.to_keypoint p.2 fs).setIndex
        (some (CVATTrack.from_labels i d fsz).id)) acc) l3) = _
  simp only [show (CVATTrack.from_labels i d fsz).width = fsz.1 from rfl,
    show (CVATTrack.from_labels i d fsz).height = fsz.2 from rfl,
    show (CVATTrack.from_labels i d fsz).id = i from rfl,
    Prod.mk.eta, hbx, hpg, hpl, hpt]
  rw [foldl_upsert_fresh _ _ [] hnbx (by intro p _; simp)]
  rw [foldl_upsert_fresh _ _ _ hnpg ?fr2]
  case fr2 =>
    intro p hp
    simp only [List.nil_append, keys_map_pair]
    intro hmem
    exact disjoint_sel_keys (selBox fsz) (selPolygon fsz) d hnd
      (selBox_polygon_disjoint fsz) p.1 hmem
      (List.mem_map_of_mem Prod.fst hp)
  rw [foldl_upsert_fresh _ _ _ hnpl ?fr3]
  case fr3 =>
    intro p hp
    simp only [List.nil_append, List.map_append, List.mem_append, keys_map_pair]
    push_neg
    constructor
    · intro hmem
      exact disjoint_sel_keys (selBox fsz) (selPolyline fsz) d hnd
        (selBox_polyline_disjoint fsz) p.1 hmem
        (List.mem_map_of_mem Prod.fst hp)
    · intro hmem
      exact disjoint_sel_keys (selPolygon fsz) (selPolyline fsz) d hnd
        (selPolygon_polyline_disjoint fsz) p.1 hmem
        (List.mem_map_of_mem Prod.fst hp)
  rw [foldl_upsert_fresh _ _ _ hnpt ?fr4]
  case fr4 =>
    intro p hp
    simp only [List.nil_append, List.map_append, List.mem_append, keys_map_pair]
    push_neg
    refine ⟨⟨?_, ?_⟩, ?_⟩
    · intro hmem
      exact disjoint_sel_keys (selBox fsz) (selPoints fsz) d hnd
        (selBox_points_disjoint fsz) p.1 hmem
        (List.mem_map_of_mem Prod.fst hp)
    · intro hmem
      exact disjoint_sel_keys (selPolygon fsz) (selPoints fsz) d hnd
        (selPolygon_points_disjoint fsz) p.1 hmem
        (List.mem_map_of_mem Prod.fst hp)
    · intro hmem
      exact disjoint_sel_keys (selPolyline fsz) (selPoints fsz) d hnd
        (selPolyline_points_disjoint fsz) p.1 hmem
        (List.mem_map_of_mem Prod.fst hp)
  simp [List.append_assoc]

theorem track_content (i : ℤ) (fsz : ℤ × ℤ) (d : List (ℤ × FOLabel))
    (hw : (fsz.1 : ℚ) ≠ 0) (hh : (fsz.2 : ℚ) ≠ 0)
    (hnd : (d.map Prod.fst).Nodup)
    (hok : ∀ p ∈ d, LabelOk fsz p.2)
    (hidx : ∀ p ∈ d, p.2.index = some i) :
    (((CVATTrack.from_labels i d fsz).to_labels : List (ℤ × FOLabel)) :
      Multiset (ℤ × FOLabel)) = (d : Multiset (ℤ × FOLabel)) := by
  rw [to_labels_from_labels i fsz d hnd]
  have e1 : (d.filterMap (fun p => (selBox fsz p).map (fun v => (p.1, v)))).map
      (fun p => (p.1, (CVATVideoBox.to_detection p.2 fsz).setIndex (some i))) =
      d.filter isDetPair := by
    rw [List.map_filterMap]
    apply filterMap_eq_filter_of
    intro p hp
    obtain ⟨fn, l⟩ := p
    cases l with
    | det lab bb idx attrs =>
      refine ⟨fun _ => ?_, fun hq => by simp [isDetPair] at hq⟩
      obtain ⟨ha, h1, h2, h3, h4⟩ := hok _ hp
      have hix : idx = some i := hidx _ hp
      simp only [selBox, Option.map_some']
      rw [box_round_trip fn lab bb attrs fsz (some i) hw hh ha h1 h2 h3 h4, hix]
    | pl lab pts c f idx attrs =>
      refine ⟨fun hq => by simp [isDetPair] at hq, fun _ => ?_⟩
      simp [selBox]
    | kp lab pts idx attrs =>
      refine ⟨fun hq => by simp [isDetPair] at hq, fun _ => ?_⟩
      simp [selBox]
  have e2 : (d.filterMap (fun p => (selPolygon fsz p).map (fun v => (p.1, v)))).map
      (fun p => (p.1, (CVATVideoPolygon.to_polyline p.2 fsz).setIndex (some i))) =
      d.filter isPolygonPair := by
    rw [List.map_filterMap]
    apply filterMap_eq_filter_of
    intro p hp
    obtain ⟨fn, l⟩ := p
    cases l with
    | det lab bb idx attrs =>
      refine ⟨fun hq => by simp [isPolygonPair] at hq, fun _ => ?_⟩
      simp [selPolygon]
    | pl lab pts c f idx attrs =>
      obtain ⟨ha, hcf, ps, hps, hal⟩ := hok _ hp
      have hix : idx = some i := hidx _ hp
      cases f with
      | true =>
        refine ⟨fun _ => ?_, fun hq => by simp [isPolygonPair] at hq⟩
        subst hps
        subst hcf
        subst hix
        rw [show selPolygon fsz (fn, FOLabel.pl lab [ps] true true (some i) attrs) =
          some (CVATVideoPolygon.from_polyline fn lab [ps] attrs fsz) from rfl]
        rw [Option.map_some', Option.map_some']
        rw [polygon_round_trip fn lab ps attrs fsz (some i) hw hh ha hal]
      | false =>
        refine ⟨fun hq => by simp [isPolygonPair] at hq, fun _ => ?_⟩
        simp [selPolygon]
    | kp lab pts idx attrs =>
      refine ⟨fun hq => by simp [isPolygonPair] at hq, fun _ => ?_⟩
      simp [selPolygon]
  have e3 : (d.filterMap (fun p => (selPolyline fsz p).map (fun v => (p.1, v)))).map
      (fun p => (p.1, (CVATVideoPolyline.to_polyline p.2 fsz).setIndex (some i))) =
      d.filter isPolylinePair := by
    rw [List.map_filterMap]
    apply filterMap_eq_filter_of
    intro p hp
    obtain ⟨fn, l⟩ := p
    cases l with
    | det lab bb idx attrs =>
      refine ⟨fun hq => by simp [isPolylinePair] at hq, fun _ => ?_⟩
      simp [selPolyline]
    | pl lab pts c f idx attrs =>
      obtain ⟨ha, hcf, ps, hps, hal⟩ := hok _ hp
      have hix : idx = some i := hidx _ hp
      cases f with
      | true =>
        refine ⟨fun hq => by simp [isPolylinePair] at hq, fun _ => ?_⟩
        simp [selPolyline]
      | false =>
        refine ⟨fun _ => ?_, fun hq => by simp [isPolylinePair] at hq⟩
        subst hps
        subst hcf
        subst hix
        rw [show selPolyline fsz (fn, FOLabel.pl lab [ps] false false (some i) attrs) =
          some (CVATVideoPolyline.from_polyline fn lab [ps] false attrs fsz) from rfl]
        rw [Option.map_some', Option.map_some']
        rw [polyline_round_trip fn lab ps attrs fsz (some i) hw hh ha hal]
    | kp lab pts idx attrs =>
      refine ⟨fun hq => by simp [isPolylinePair] at hq, fun _ => ?_⟩
      simp [selPolyline]
  have e4 : (d.filterMap (fun p => (selPoints fsz p).map (fun v => (p.1, v)))).map
      (fun p => (p.1, (CVATVideoPoints.to_keypoint p.2 fsz).setIndex (some i))) =
      d.filter isKpPair := by
    rw [List.map_filterMap]
    apply filterMap_eq_filter_of
    intro p hp
    obtain ⟨fn, l⟩ := p
    cases l with
    | det lab bb idx attrs =>
      refine ⟨fun hq => by simp [isKpPair] at hq, fun _ => ?_⟩
      simp [selPoints]
    | pl lab pts c f idx attrs =>
      refine ⟨fun hq => by simp [isKpPair] at hq, fun _ => ?_⟩
      simp [selPoints]
    | kp lab pts idx attrs =>
      refine ⟨fun _ => ?_, fun hq => by simp [isKpPair] at hq⟩
      obtain ⟨ha, hal⟩ := hok _ hp
      have hix : idx = some i := hidx _ hp
      simp only [selPoints, Option.map_some']
      rw [points_round_trip fn lab pts attrs fsz (some i) hw hh ha hal, hix]
  rw [e1, e2, e3, e4]
  rw [show ((((d.filter isDetPair ++ d.filter isPolygonPair) ++
      d.filter isPolylinePair) ++ d.filter isKpPair : List (ℤ × FOLabel)) :
        Multiset (ℤ × FOLabel)) =
      ((d.filter isDetPair : List (ℤ × FOLabel)) : Multiset (ℤ × FOLabel)) +
        ↑(d.filter isPolygonPair) + ↑(d.filter isPolylinePair) +
        ↑(d.filter isKpPair) from by
    simp]
  exact four_partition d

theorem gen_alookup_isSome_iff {α β : Type} [DecidableEq α] (k : α) :
    ∀ m : List (α × β), (alookup k m).isSome ↔ k ∈ m.map Prod.fst := by
  intro m
  induction m with
  | nil => simp [alookup]
  | cons hd tl ih =>
    by_cases hk : hd.1 = k
    · rw [show hd = (hd.1, hd.2) from rfl, alookup, if_pos hk]
      simp [hk]
    · rw [show hd = (hd.1, hd.2) from rfl, alookup, if_neg hk]
      simp only [List.map_cons, List.mem_cons]
      rw [ih]
      constructor
      · exact Or.inr
      · rintro (h | h)
        · exact absurd h.symm hk
        · exact h

theorem gen_alookup_eq_none_iff {α β : Type} [DecidableEq α] (k : α)
    (m : List (α × β)) : alookup k m = Option.none ↔ k ∉ m.map Prod.fst := by
  rw [← gen_alookup_isSome_iff]
  cases alookup k m <;> simp

theorem alookup_upsert_self {α β : Type} [DecidableEq α] (k : α) (v : β) :
    ∀ m : List (α × β), alookup k (upsert k v m) = some v := by
  intro m
  induction m with
  | nil => simp [upsert, alookup]
  | cons hd tl ih =>
    rw [show hd = (hd.1, hd.2) from rfl, upsert]
    by_cases hk : hd.1 = k
    · rw [if_pos hk, alookup, if_pos rfl]
    · rw [if_neg hk, alookup, if_neg hk]
      exact ih

theorem alookup_dUpd_self {α β : Type} [DecidableEq α] (k : α) (f : β → β)
    (d0 : β) : ∀ m : List (α × β),
      alookup k (dUpd k f d0 m) = some (f ((alookup k m).getD d0)) := by
  intro m
  induction m with
  | nil => simp [dUpd, alookup]
  | cons hd tl ih =>
    rw [show hd = (hd.1, hd.2) from rfl, dUpd]
    by_cases hk : hd.1 = k
    · rw [if_pos hk, alookup, if_pos hk, alookup, if_pos hk]
      rfl
    · rw [if_neg hk, alookup, if_neg hk, alookup, if_neg hk]
      exact ih

theorem alookup_dUpd_other {α β : Type} [DecidableEq α] (k j : α) (f : β → β)
    (d0 : β) (hjk : j ≠ k) : ∀ m : List (α × β),
      alookup j (dUpd k f d0 m) = alookup j m := by
  intro m
  induction m with
  | nil =>
    simp only [dUpd, alookup]
    rw [if_neg (fun h => hjk h.symm)]
  | cons hd tl ih =>
    rw [show hd = (hd.1, hd.2) from rfl, dUpd]
    by_cases hk : hd.1 = k
    · rw [if_pos hk, alookup, alookup]
      rw [if_neg (hk ▸ fun h => hjk h.symm), if_neg (hk ▸ fun h => hjk h.symm)]
    · rw [if_neg hk, alookup, alookup]
      by_cases hj : hd.1 = j
      · rw [if_pos hj, if_pos hj]
      · rw [if_neg hj, if_neg hj]
        exact ih

theorem dUpd_of_not_mem {α β : Type} [DecidableEq α] (k : α) (f : β → β)
    (d0 : β) : ∀ m : List (α × β), k ∉ m.map Prod.fst →
      dUpd k f d0 m = m ++ [(k, f d0)] := by
  intro m
  induction m with
  | nil => intro _; rfl
  | cons hd tl ih =>
    intro hk
    simp only [List.map_cons, List.mem_cons] at hk
    push_neg at hk
    rw [show hd = (hd.1, hd.2) from rfl, dUpd, if_neg (fun h => hk.1 h.symm)]
    rw [ih hk.2]
    rfl

theorem keys_dUpd_mem {α β : Type} [DecidableEq α] (k : α) (f : β → β)
    (d0 : β) : ∀ m : List (α × β), k ∈ m.map Prod.fst →
      (dUpd k f d0 m).map Prod.fst = m.map Prod.fst := by
  intro m
  induction m with
  | nil => intro h; simp at h
  | cons hd tl ih =>
    intro hk
    rw [show hd = (hd.1, hd.2) from rfl, dUpd]
    by_cases h1 : hd.1 = k
    · rw [if_pos h1]
      simp
    · rw [if_neg h1]
      simp only [List.map_cons, List.mem_cons] at hk
      rcases hk with h | h
      · exact absurd h.symm h1
      · simp only [List.map_cons]
        rw [ih h]

theorem projections_process_label (st : FramesBuild) (fn : ℤ) (l : FOLabel) :
    ((process_label st fn l).labels_map, (process_label st fn l).no_index_map) =
      groupStep (st.labels_map, st.no_index_map) (fn, l) := by
  unfold process_label groupStep
  cases l.index <;> rfl

theorem found_process_label (st : FramesBuild) (fn : ℤ) (l : FOLabel) :
    (process_label st fn l).found_label = st.found_label := by
  unfold process_label
  cases l.index <;> rfl

theorem projections_fold_process (fn : ℤ) :
    ∀ (ls : List FOLabel) (st : FramesBuild),
      ((ls.foldl (fun s l => process_label s fn l) st).labels_map,
        (ls.foldl (fun s l => process_label s fn l) st).no_index_map) =
        (ls.map (fun l => (fn, l))).foldl groupStep
          (st.labels_map, st.no_index_map) := by
  intro ls
  induction ls with
  | nil => intro st; rfl
  | cons hd tl ih =>
    intro st
    rw [List.foldl_cons, List.map_cons, List.foldl_cons]
    rw [ih (process_label st fn hd)]
    rw [projections_process_label]

theorem projections_fold_value (fn : ℤ) :
    ∀ (fd : List (String × FrameValue)) (st : FramesBuild),
      ((fd.foldl (fun s q => processValue s fn q.2) st).labels_map,
        (fd.foldl (fun s q => processValue s fn q.2) st).no_index_map) =
        ((collectFrame fd).map (fun l => (fn, l))).foldl groupStep
          (st.labels_map, st.no_index_map) := by
  intro fd
  induction fd with
  | nil => intro st; rfl
  | cons hd tl ih =>
    intro st
    rw [List.foldl_cons, collectFrame, List.map_append, List.foldl_append]
    rw [ih (processValue st fn hd.2)]
    congr 1
    cases hv : hd.2 with
    | single l =>
      simp only [processValue]
      rw [projections_process_label { st with found_label := true } fn l]
      rfl
    | dets ls =>
      simp only [processValue]
      rw [projections_fold_process fn ls { st with found_label := true }]
    | pls ls =>
      simp only [processValue]
      rw [projections_fold_process fn ls { st with found_label := true }]
    | kps ls =>
      simp only [processValue]
      rw [projections_fold_process fn ls { st with found_label := true }]
    | pynone => rfl
    | other => rfl

theorem buildFrames_group :
    ∀ (frames : Frames) (st : FramesBuild),
      ((frames.foldl (fun s p => p.2.foldl (fun s2 q => processValue s2 p.1 q.2) s)
          st).labels_map,
        (frames.foldl (fun s p => p.2.foldl (fun s2 q => processValue s2 p.1 q.2) s)
          st).no_index_map) =
        (collectLabels frames).foldl groupStep (st.labels_map, st.no_index_map) := by
  intro frames
  induction frames with
  | nil => intro st; rfl
  | cons hd tl ih =>
    intro st
    rw [List.foldl_cons, collectLabels, List.foldl_append]
    rw [ih]
    rw [projections_fold_value hd.1 hd.2 st]

theorem buildFrames_group_main (frames : Frames) :
    ((buildFrames frames).labels_map, (buildFrames frames).no_index_map) =
      groupPairs (collectLabels frames) :=
  buildFrames_group frames ⟨[], [], false⟩

theorem groupedPairs_append : ∀ m1 m2 : List (ℤ × List (ℤ × FOLabel)),
    groupedPairs (m1 ++ m2) = groupedPairs m1 ++ groupedPairs m2 := by
  intro m1 m2
  induction m1 with
  | nil => rfl
  | cons hd tl ih => simp [groupedPairs, ih]

theorem gen_alookup_append_left {α β : Type} [DecidableEq α] (j : α)
    (d : β) : ∀ (m m2 : List (α × β)), alookup j m = some d →
      alookup j (m ++ m2) = some d := by
  intro m m2
  induction m with
  | nil => intro h; simp [alookup] at h
  | cons hd tl ih =>
    intro h
    rw [show hd = (hd.1, hd.2) from rfl, alookup] at h
    rw [List.cons_append, show hd :: (tl ++ m2) = (hd.1, hd.2) :: (tl ++ m2) from rfl,
      alookup]
    by_cases hk : hd.1 = j
    · rw [if_pos hk] at h ⊢; exact h
    · rw [if_neg hk] at h ⊢; exact ih h

theorem gen_alookup_append_right {α β : Type} [DecidableEq α] (j : α) :
    ∀ (m m2 : List (α × β)), alookup j m = Option.none →
      alookup j (m ++ m2) = alookup j m2 := by
  intro m m2
  induction m with
  | nil => intro _; rfl
  | cons hd tl ih =>
    intro h
    rw [show hd = (hd.1, hd.2) from rfl, alookup] at h
    rw [List.cons_append, show hd :: (tl ++ m2) = (hd.1, hd.2) :: (tl ++ m2) from rfl,
      alookup]
    by_cases hk : hd.1 = j
    · rw [if_pos hk] at h; exact absurd h (by simp)
    · rw [if_neg hk] at h ⊢; exact ih h

theorem groupedPairs_dUpd_content (i : ℤ)
    (f : List (ℤ × FOLabel) → List (ℤ × FOLabel)) (d0 : List (ℤ × FOLabel)) :
    ∀ (m : List (ℤ × List (ℤ × FOLabel))) (d : List (ℤ × FOLabel))
      (q : ℤ × FOLabel), alookup i m = some d → f d = d ++ [q] →
      ((groupedPairs (dUpd i f d0 m) : List (ℤ × FOLabel)) :
          Multiset (ℤ × FOLabel)) = ↑(groupedPairs m) + {q} := by
  intro m
  induction m with
  | nil => intro d q h; simp [alookup] at h
  | cons hd tl ih =>
    intro d q hlk hf
    rw [show hd = (hd.1, hd.2) from rfl, alookup] at hlk
    rw [show hd = (hd.1, hd.2) from rfl, dUpd]
    by_cases hk : hd.1 = i
    · rw [if_pos hk] at hlk
      rw [if_pos hk]
      rw [Option.some_inj] at hlk
      subst hlk
      rw [show groupedPairs ((hd.1, f hd.2) :: tl) = f hd.2 ++ groupedPairs tl
        from rfl]
      rw [show groupedPairs ((hd.1, hd.2) :: tl) = hd.2 ++ groupedPairs tl from rfl]
      rw [hf]
      simp only [← Multiset.coe_add, ← Multiset.coe_singleton]
      abel
    · rw [if_neg hk] at hlk
      rw [if_neg hk]
      rw [show groupedPairs ((hd.1, hd.2) :: dUpd i f d0 tl) =
        hd.2 ++ groupedPairs (dUpd i f d0 tl) from rfl]
      rw [show groupedPairs ((hd.1, hd.2) :: tl) = hd.2 ++ groupedPairs tl from rfl]
      simp only [← Multiset.coe_add]
      rw [ih d q hlk hf]
      abel

theorem groupPairs_inv :
    ∀ ps : List (ℤ × FOLabel),
      (∀ p ∈ ps, p.2.index ≠ Option.none) →
      ((ps.map (fun p => (p.2.index, p.1))).Nodup) →
      (groupPairs ps).2 = [] ∧
      ((groupPairs ps).1.map Prod.fst).Nodup ∧
      (∀ i d, alookup i (groupPairs ps).1 = some d →
        (∀ q ∈ d, q.2.index = some i ∧ (q.1, q.2) ∈ ps) ∧
          (d.map Prod.fst).Nodup) ∧
      ((groupedPairs (groupPairs ps).1 : List (ℤ × FOLabel)) :
        Multiset (ℤ × FOLabel)) = ↑ps := by
  intro ps
  induction ps using List.reverseRecOn with
  | nil =>
    intro _ _
    refine ⟨rfl, by simp [groupPairs], ?_, rfl⟩
    intro i d h
    simp [groupPairs, alookup] at h
  | append_singleton ps p ih =>
    intro hidx hnd
    have hidx0 : ∀ q ∈ ps, q.2.index ≠ Option.none :=
      fun q hq => hidx q (List.mem_append_left _ hq)
    have hnd' := hnd
    rw [List.map_append, List.nodup_append] at hnd'
    obtain ⟨hnd0, _, hdisj⟩ := hnd'
    obtain ⟨h2, hkn, hent, hcont⟩ := ih hidx0 hnd0
    have hgs : groupPairs (ps ++ [p]) = groupStep (groupPairs ps) p := by
      unfold groupPairs
      rw [List.foldl_append]
      rfl
    rcases hpi : p.2.index with _ | i
    · exact absurd hpi (hidx p (List.mem_append_right _ (List.mem_singleton_self p)))
    have hstep : groupStep (groupPairs ps) p =
        (dUpd i (upsert p.1 p.2) [] (groupPairs ps).1, (groupPairs ps).2) := by
      unfold groupStep
      rw [hpi]
    have hfp : (p.2.index, p.1) ∉ ps.map (fun q => (q.2.index, q.1)) := by
      intro hmem
      exact hdisj hmem (by simp)
    have hfresh : ∀ d, alookup i (groupPairs ps).1 = some d →
        p.1 ∉ d.map Prod.fst := by
      intro d hd hpm
      obtain ⟨q, hq, hq1⟩ := List.mem_map.mp hpm
      obtain ⟨hqi, hqps⟩ := (hent i d hd).1 q hq
      apply hfp
      rw [hpi]
      have : (fun q : ℤ × FOLabel => (q.2.index, q.1)) (q.1, q.2) =
          (some i, p.1) := by
        simp only [hqi, hq1]
      rw [show ((some i : Option ℤ), p.1) = (fun q : ℤ × FOLabel =>
        (q.2.index, q.1)) (q.1, q.2) from this.symm]
      exact List.mem_map_of_mem _ hqps
    rw [hgs, hstep]
    refine ⟨h2, ?_, ?_, ?_⟩
    · rcases halk : alookup i (groupPairs ps).1 with _ | d
      · rw [dUpd_of_not_mem i _ [] _ ((gen_alookup_eq_none_iff i _).mp halk)]
        rw [List.map_append, List.nodup_append]
        refine ⟨hkn, by simp, ?_⟩
        intro a ha hmem
        simp only [List.map_cons, List.map_nil, List.mem_singleton] at hmem
        subst hmem
        exact (gen_alookup_eq_none_iff a _).mp halk ha
      · rw [keys_dUpd_mem i _ [] _ ((gen_alookup_isSome_iff i _).mp (by simp [halk]))]
        exact hkn
    · intro j d' hj
      by_cases hji : j = i
      · subst hji
        rw [alookup_dUpd_self] at hj
        rw [Option.some_inj] at hj
        rcases halk : alookup j (groupPairs ps).1 with _ | d
        · rw [halk] at hj
          simp only [Option.getD_none] at hj
          rw [show upsert p.1 p.2 [] = [(p.1, p.2)] from rfl] at hj
          subst hj
          constructor
          · intro q hq
            simp only [List.mem_singleton] at hq
            subst hq
            exact ⟨hpi, List.mem_append_right _ (by simp)⟩
          · simp
        · rw [halk] at hj
          simp only [Option.getD_some] at hj
          rw [upsert_of_not_mem p.1 p.2 d (hfresh d halk)] at hj
          subst hj
          constructor
          · intro q hq
            rcases List.mem_append.mp hq with hq1 | hq2
            · obtain ⟨hqi, hqps⟩ := (hent j d halk).1 q hq1
              exact ⟨hqi, List.mem_append_left _ hqps⟩
            · simp only [List.mem_singleton] at hq2
              subst hq2
              exact ⟨hpi, List.mem_append_right _ (by simp)⟩
          · rw [List.map_append, List.nodup_append]
            refine ⟨(hent j d halk).2, by simp, ?_⟩
            intro a ha hmem
            simp only [List.map_cons, List.map_nil, List.mem_singleton] at hmem
            subst hmem
            exact hfresh d halk ha
      · rw [alookup_dUpd_other i j _ _ hji] at hj
        obtain ⟨he, hn⟩ := hent j d' hj
        refine ⟨fun q hq => ?_, hn⟩
        obtain ⟨hqi, hqps⟩ := he q hq
        exact ⟨hqi, List.mem_append_left _ hqps⟩
    · rcases halk : alookup i (groupPairs ps).1 with _ | d
      · rw [dUpd_of_not_mem i _ [] _ ((gen_alookup_eq_none_iff i _).mp halk)]
        rw [groupedPairs_append]
        rw [show groupedPairs [(i, upsert p.1 p.2 [])] =
          [(p.1, p.2)] ++ [] from rfl]
        simp only [List.append_nil, ← Multiset.coe_add]
        rw [hcont]
      · rw [groupedPairs_dUpd_content i _ [] _ d (p.1, p.2) halk
          (upsert_of_not_mem p.1 p.2 d (hfresh d halk))]
        rw [hcont]
        rw [show ((ps ++ [p] : List (ℤ × FOLabel)) : Multiset (ℤ × FOLabel)) =
          ↑ps + ↑[p] from (Multiset.coe_add ps [p]).symm]
        rw [show ({(p.1, p.2)} : Multiset (ℤ × FOLabel)) = ↑[p] from rfl]

theorem collectFrame_cons (q : String × FrameValue)
    (rest : List (String × FrameValue)) :
    collectFrame (q :: rest) = fvContent q.2 ++ collectFrame rest := by
  rcases q with ⟨k, v⟩
  cases v <;> rfl

theorem collectFrame_append : ∀ fd1 fd2 : List (String × FrameValue),
    collectFrame (fd1 ++ fd2) = collectFrame fd1 ++ collectFrame fd2 := by
  intro fd1 fd2
  induction fd1 with
  | nil => rfl
  | cons hd tl ih =>
    rw [List.cons_append, collectFrame_cons, collectFrame_cons, ih,
      List.append_assoc]

theorem collectFrame_upsert_content (key : String) (v0 vNew : FrameValue)
    (l : FOLabel) (hvals : fvContent vNew = fvContent v0 ++ [l]) :
    ∀ fd, alookup key fd = some v0 →
      ((collectFrame (upsert key vNew fd) : List FOLabel) : Multiset FOLabel) =
        ↑(collectFrame fd) + {l} := by
  intro fd
  induction fd with
  | nil => intro h; simp [alookup] at h
  | cons hd tl ih =>
    intro h
    rw [show hd = (hd.1, hd.2) from rfl, alookup] at h
    rw [show hd = (hd.1, hd.2) from rfl, upsert]
    by_cases hk : hd.1 = key
    · rw [if_pos hk] at h ⊢
      rw [Option.some_inj] at h
      rw [collectFrame_cons, collectFrame_cons]
      simp only [hvals, ← h]
      simp only [← Multiset.coe_add, ← Multiset.coe_singleton]
      abel
    · rw [if_neg hk] at h ⊢
      rw [collectFrame_cons, collectFrame_cons]
      simp only [← Multiset.coe_add]
      rw [ih h]
      abel

theorem FrameWf_upsert_dets (ls : List FOLabel) (fd : List (String × FrameValue))
    (hwf : FrameWf fd) : FrameWf (upsert "detections" (FrameValue.dets ls) fd) := by
  intro p hp
  rcases mem_upsert hp with h | h
  · subst h
    refine ⟨fun _ => ⟨ls, rfl⟩, fun h => ?_, fun h => ?_⟩ <;> simp at h
  · exact hwf p h

theorem FrameWf_upsert_pls (ls : List FOLabel) (fd : List (String × FrameValue))
    (hwf : FrameWf fd) : FrameWf (upsert "polylines" (FrameValue.pls ls) fd) := by
  intro p hp
  rcases mem_upsert hp with h | h
  · subst h
    refine ⟨fun h => ?_, fun _ => ⟨ls, rfl⟩, fun h => ?_⟩ <;> simp at h
  · exact hwf p h

theorem FrameWf_upsert_kps (ls : List FOLabel) (fd : List (String × FrameValue))
    (hwf : FrameWf fd) : FrameWf (upsert "keypoints" (FrameValue.kps ls) fd) := by
  intro p hp
  rcases mem_upsert hp with h | h
  · subst h
    refine ⟨fun h => ?_, fun h => ?_, fun _ => ⟨ls, rfl⟩⟩ <;> simp at h
  · exact hwf p h

theorem addLabelToFrame_content (fd : List (String × FrameValue)) (l : FOLabel)
    (hwf : FrameWf fd) :
    ((collectFrame (addLabelToFrame fd l) : List FOLabel) : Multiset FOLabel) =
      ↑(collectFrame fd) + {l} := by
  cases l with
  | det lab bb i attrs =>
    rw [show addLabelToFrame fd (FOLabel.det lab bb i attrs) =
      (let fd1 := if (alookup "detections" fd).isSome then fd
        else upsert "detections" (FrameValue.dets []) fd
      match alookup "detections" fd1 with
      | some (FrameValue.dets ls) =>
        upsert "detections" (FrameValue.dets (ls ++ [FOLabel.det lab bb i attrs])) fd1
      | _ => fd1) from rfl]
    rcases halk : alookup "detections" fd with _ | v
    · simp only [halk, Option.isSome_none, Bool.false_eq_true, if_neg, ite_false]
      have h1 : alookup "detections" (upsert "detections" (FrameValue.dets []) fd) =
          some (FrameValue.dets []) := alookup_upsert_self _ _ fd
      simp only [h1]
      rw [collectFrame_upsert_content "detections" (FrameValue.dets [])
        (FrameValue.dets ([] ++ [FOLabel.det lab bb i attrs])) (FOLabel.det lab bb i attrs) (by simp [fvContent])
        _ h1]
      rw [upsert_of_not_mem _ _ fd ((gen_alookup_eq_none_iff _ fd).mp halk)]
      rw [collectFrame_append]
      simp [collectFrame_cons, fvContent, collectFrame]
    · obtain ⟨ls, hls⟩ := (hwf _ (alookup_mem halk)).1 rfl
      simp only at hls
      subst hls
      simp only [halk, Option.isSome_some, if_pos, ite_true]
      rw [collectFrame_upsert_content "detections" (FrameValue.dets ls)
        (FrameValue.dets (ls ++ [FOLabel.det lab bb i attrs])) (FOLabel.det lab bb i attrs) (by simp [fvContent])
        _ halk]
  | pl lab pts c f i attrs =>
    rw [show addLabelToFrame fd (FOLabel.pl lab pts c f i attrs) =
      (let fd1 := if (alookup "polylines" fd).isSome then fd
        else upsert "polylines" (FrameValue.pls []) fd
      match alookup "polylines" fd1 with
      | some (FrameValue.pls ls) =>
        upsert "polylines" (FrameValue.pls (ls ++ [FOLabel.pl lab pts c f i attrs])) fd1
      | _ => fd1) from rfl]
    rcases halk : alookup "polylines" fd with _ | v
    · simp only [halk, Option.isSome_none, Bool.false_eq_true, if_neg, ite_false]
      have h1 : alookup "polylines" (upsert "polylines" (FrameValue.pls []) fd) =
          some (FrameValue.pls []) := alookup_upsert_self _ _ fd
      simp only [h1]
      rw [collectFrame_upsert_content "polylines" (FrameValue.pls [])
        (FrameValue.pls ([] ++ [FOLabel.pl lab pts c f i attrs])) (FOLabel.pl lab pts c f i attrs) (by simp [fvContent])
        _ h1]
      rw [upsert_of_not_mem _ _ fd ((gen_alookup_eq_none_iff _ fd).mp halk)]
      rw [collectFrame_append]
      simp [collectFrame_cons, fvContent, collectFrame]
    · obtain ⟨ls, hls⟩ := (hwf _ (alookup_mem halk)).2.1 rfl
      simp only at hls
      subst hls
      simp only [halk, Option.isSome_some, if_pos, ite_true]
      rw [collectFrame_upsert_content "polylines" (FrameValue.pls ls)
        (FrameValue.pls (ls ++ [FOLabel.pl lab pts c f i attrs])) (FOLabel.pl lab pts c f i attrs) (by simp [fvContent])
        _ halk]
  | kp lab pts i attrs =>
    rw [show addLabelToFrame fd (FOLabel.kp lab pts i attrs) =
      (let fd1 := if (alookup "keypoints" fd).isSome then fd
        else upsert "keypoints" (FrameValue.kps []) fd
      match alookup "keypoints" fd1 with
      | some (FrameValue.kps ls) =>
        upsert "keypoints" (FrameValue.kps (ls ++ [FOLabel.kp lab pts i attrs])) fd1
      | _ => fd1) from rfl]
    rcases halk : alookup "keypoints" fd with _ | v
    · simp only [halk, Option.isSome_none, Bool.false_eq_true, if_neg, ite_false]
      have h1 : alookup "keypoints" (upsert "keypoints" (FrameValue.kps []) fd) =
          some (FrameValue.kps []) := alookup_upsert_self _ _ fd
      simp only [h1]
      rw [collectFrame_upsert_content "keypoints" (FrameValue.kps [])
        (FrameValue.kps ([] ++ [FOLabel.kp lab pts i attrs])) (FOLabel.kp lab pts i attrs) (by simp [fvContent])
        _ h1]
      rw [upsert_of_not_mem _ _ fd ((gen_alookup_eq_none_iff _ fd).mp halk)]
      rw [collectFrame_append]
      simp [collectFrame_cons, fvContent, collectFrame]
    · obtain ⟨ls, hls⟩ := (hwf _ (alookup_mem halk)).2.2 rfl
      simp only at hls
      subst hls
      simp only [halk, Option.isSome_some, if_pos, ite_true]
      rw [collectFrame_upsert_content "keypoints" (FrameValue.kps ls)
        (FrameValue.kps (ls ++ [FOLabel.kp lab pts i attrs])) (FOLabel.kp lab pts i attrs) (by simp [fvContent])
        _ halk]

theorem addLabelToFrame_wf (fd : List (String × FrameValue)) (l : FOLabel)
    (hwf : FrameWf fd) : FrameWf (addLabelToFrame fd l) := by
  cases l with
  | det lab bb i attrs =>
    unfold addLabelToFrame
    have hwf1 : FrameWf (if (alookup "detections" fd).isSome then fd
        else upsert "detections" (FrameValue.dets []) fd) := by
      split
      · exact hwf
      · exact FrameWf_upsert_dets [] fd hwf
    rcases h : alookup "detections" (if (alookup "detections" fd).isSome then fd
        else upsert "detections" (FrameValue.dets []) fd) with _ | v
    · simp only [h]; exact hwf1
    · cases v with
      | dets ls => simp only [h]; exact FrameWf_upsert_dets _ _ hwf1
      | single l2 => simp only [h]; exact hwf1
      | pls ls => simp only [h]; exact hwf1
      | kps ls => simp only [h]; exact hwf1
      | pynone => simp only [h]; exact hwf1
      | other => simp only [h]; exact hwf1
  | pl lab pts c f i attrs =>
    unfold addLabelToFrame
    have hwf1 : FrameWf (if (alookup "polylines" fd).isSome then fd
        else upsert "polylines" (FrameValue.pls []) fd) := by
      split
      · exact hwf
      · exact FrameWf_upsert_pls [] fd hwf
    rcases h : alookup "polylines" (if (alookup "polylines" fd).isSome then fd
        else upsert "polylines" (FrameValue.pls []) fd) with _ | v
    · simp only [h]; exact hwf1
    · cases v with
      | pls ls => simp only [h]; exact FrameWf_upsert_pls _ _ hwf1
      | single l2 => simp only [h]; exact hwf1
      | dets ls => simp only [h]; exact hwf1
      | kps ls => simp only [h]; exact hwf1
      | pynone => simp only [h]; exact hwf1
      | other => simp only [h]; exact hwf1
  | kp lab pts i attrs =>
    unfold addLabelToFrame
    have hwf1 : FrameWf (if (alookup "keypoints" fd).isSome then fd
        else upsert "keypoints" (FrameValue.kps []) fd) := by
      split
      · exact hwf
      · exact FrameWf_upsert_kps [] fd hwf
    rcases h : alookup "keypoints" (if (alookup "keypoints" fd).isSome then fd
        else upsert "keypoints" (FrameValue.kps []) fd) with _ | v
    · simp only [h]; exact hwf1
    · cases v with
      | kps ls => simp only [h]; exact FrameWf_upsert_kps _ _ hwf1
      | single l2 => simp only [h]; exact hwf1
      | dets ls => simp only [h]; exact hwf1
      | pls ls => simp only [h]; exact hwf1
      | pynone => simp only [h]; exact hwf1
      | other => simp only [h]; exact hwf1

theorem mem_dUpd {α β : Type} [DecidableEq α] {k : α} {f : β → β} {d0 : β} :
    ∀ {m : List (α × β)} {p}, p ∈ dUpd k f d0 m →
      p ∈ m ∨ ∃ v, p = (k, f v) ∧ ((k, v) ∈ m ∨ v = d0) := by
  intro m
  induction m with
  | nil =>
    intro p hp
    simp only [dUpd, List.mem_singleton] at hp
    exact Or.inr ⟨d0, hp, Or.inr rfl⟩
  | cons hd tl ih =>
    intro p hp
    rw [show hd = (hd.1, hd.2) from rfl, dUpd] at hp
    by_cases hk : hd.1 = k
    · rw [if_pos hk] at hp
      rcases List.mem_cons.mp hp with h | h
      · subst hk
        exact Or.inr ⟨hd.2, h, Or.inl (by
          rw [show (hd.1, hd.2) = hd from rfl]; exact List.mem_cons_self _ _)⟩
      · exact Or.inl (List.mem_cons_of_mem _ h)
    · rw [if_neg hk] at hp
      rcases List.mem_cons.mp hp with h | h
      · exact Or.inl (h ▸ List.mem_cons_self _ _)
      · rcases ih h with h1 | ⟨v, hv1, hv2⟩
        · exact Or.inl (List.mem_cons_of_mem _ h1)
        · rcases hv2 with h2 | h2
          · exact Or.inr ⟨v, hv1, Or.inl (List.mem_cons_of_mem _ h2)⟩
          · exact Or.inr ⟨v, hv1, Or.inr h2⟩

theorem collectLabels_cons (a : ℤ × List (String × FrameValue)) (rest : Frames) :
    collectLabels (a :: rest) =
      (collectFrame a.2).map (fun l => (a.1, l)) ++ collectLabels rest := rfl

theorem coe_map_pair (fn : ℤ) (ls : List FOLabel) :
    ((ls.map (fun x => (fn, x)) : List (ℤ × FOLabel)) : Multiset (ℤ × FOLabel)) =
      Multiset.map (fun x => (fn, x)) ↑ls := (Multiset.map_coe _ _).symm

theorem scatter_step_content (fn : ℤ) (l : FOLabel) :
    ∀ fs : Frames, FramesWf fs →
      ((collectLabels (dUpd fn (fun fd => addLabelToFrame fd l) [] fs) :
          List (ℤ × FOLabel)) : Multiset (ℤ × FOLabel)) =
        ↑(collectLabels fs) + {(fn, l)} := by
  intro fs
  induction fs with
  | nil =>
    intro _
    have h1 := addLabelToFrame_content [] l (by intro p hp; simp at hp)
    rw [show ((collectFrame ([] : List (String × FrameValue)) : List FOLabel) :
      Multiset FOLabel) = 0 from rfl, zero_add] at h1
    show ((List.map (fun x => (fn, x)) (collectFrame (addLabelToFrame [] l)) ++
        collectLabels [] : List (ℤ × FOLabel)) : Multiset (ℤ × FOLabel)) =
      ↑(collectLabels ([] : Frames)) + {(fn, l)}
    rw [show collectLabels ([] : Frames) = [] from rfl, List.append_nil]
    rw [coe_map_pair, h1, Multiset.map_singleton]
    simp
  | cons hd tl ih =>
    intro hwf
    have hwft : FramesWf tl := fun e he => hwf e (List.mem_cons_of_mem _ he)
    rw [show hd = (hd.1, hd.2) from rfl, dUpd]
    by_cases hk : hd.1 = fn
    · rw [if_pos hk]
      show ((List.map (fun x => (hd.1, x)) (collectFrame (addLabelToFrame hd.2 l)) ++
          collectLabels tl : List (ℤ × FOLabel)) : Multiset (ℤ × FOLabel)) =
        ↑(List.map (fun x => (hd.1, x)) (collectFrame hd.2) ++ collectLabels tl) +
          {(fn, l)}
      simp only [← Multiset.coe_add]
      rw [coe_map_pair, coe_map_pair]
      rw [addLabelToFrame_content hd.2 l (hwf hd (List.mem_cons_self _ _))]
      rw [Multiset.map_add, Multiset.map_singleton, hk]
      abel
    · rw [if_neg hk]
      show ((List.map (fun x => (hd.1, x)) (collectFrame hd.2) ++
          collectLabels (dUpd fn (fun fd => addLabelToFrame fd l) [] tl) :
            List (ℤ × FOLabel)) : Multiset (ℤ × FOLabel)) =
        ↑(List.map (fun x => (hd.1, x)) (collectFrame hd.2) ++ collectLabels tl) +
          {(fn, l)}
      simp only [← Multiset.coe_add]
      rw [ih hwft]
      abel

theorem scatter_step_wf (fn : ℤ) (l : FOLabel) (fs : Frames) (hwf : FramesWf fs) :
    FramesWf (dUpd fn (fun fd => addLabelToFrame fd l) [] fs) := by
  intro e he
  rcases mem_dUpd he with h | ⟨v, hv1, hv2⟩
  · exact hwf e h
  · subst hv1
    rcases hv2 with h2 | h2
    · exact addLabelToFrame_wf v l (hwf _ h2)
    · subst h2
      exact addLabelToFrame_wf [] l (by intro p hp; simp at hp)

theorem scatter_fold_content :
    ∀ (ps : List (ℤ × FOLabel)) (fs0 : Frames), FramesWf fs0 →
      ((collectLabels (ps.foldl (fun fs p =>
          dUpd p.1 (fun fd => addLabelToFrame fd p.2) [] fs) fs0) :
          List (ℤ × FOLabel)) : Multiset (ℤ × FOLabel)) =
        ↑(collectLabels fs0) + ↑ps ∧
      FramesWf (ps.foldl (fun fs p =>
        dUpd p.1 (fun fd => addLabelToFrame fd p.2) [] fs) fs0) := by
  intro ps
  induction ps with
  | nil => intro fs0 hwf; exact ⟨by simp, hwf⟩
  | cons p tl ih =>
    intro fs0 hwf
    rw [List.foldl_cons]
    have hwf1 := scatter_step_wf p.1 p.2 fs0 hwf
    obtain ⟨hc, hw⟩ := ih (dUpd p.1 (fun fd => addLabelToFrame fd p.2) [] fs0) hwf1
    refine ⟨?_, hw⟩
    rw [hc, scatter_step_content p.1 p.2 fs0 hwf]
    rw [show ((p :: tl : List (ℤ × FOLabel)) : Multiset (ℤ × FOLabel)) =
      {p} + ↑tl from by rw [← Multiset.cons_coe, Multiset.singleton_add]]
    rw [show ({(p.1, p.2)} : Multiset (ℤ × FOLabel)) = {p} from rfl]
    abel

theorem tracks_scatter_content :
    ∀ (tracks : List CVATTrack) (fs0 : Frames), FramesWf fs0 →
      ((collectLabels (tracks.foldl (fun frames t =>
          (t.to_labels).foldl (fun fs p =>
            dUpd p.1 (fun fd => addLabelToFrame fd p.2) [] fs) frames) fs0) :
          List (ℤ × FOLabel)) : Multiset (ℤ × FOLabel)) =
        ↑(collectLabels fs0) + ↑(tracksLabels tracks) ∧
      FramesWf (tracks.foldl (fun frames t =>
        (t.to_labels).foldl (fun fs p =>
          dUpd p.1 (fun fd => addLabelToFrame fd p.2) [] fs) frames) fs0) := by
  intro tracks
  induction tracks with
  | nil => intro fs0 hwf; exact ⟨by simp [tracksLabels], hwf⟩
  | cons t ts ih =>
    intro fs0 hwf
    rw [List.foldl_cons]
    obtain ⟨hc1, hw1⟩ := scatter_fold_content t.to_labels fs0 hwf
    obtain ⟨hc2, hw2⟩ := ih _ hw1
    refine ⟨?_, hw2⟩
    rw [hc2, hc1]
    rw [show tracksLabels (t :: ts) = t.to_labels ++ tracksLabels ts from rfl]
    simp only [← Multiset.coe_add]
    abel

theorem cvat_tracks_to_frames_dict_content (tracks : List CVATTrack) :
    ((collectLabels (cvat_tracks_to_frames_dict tracks) : List (ℤ × FOLabel)) :
        Multiset (ℤ × FOLabel)) = ↑(tracksLabels tracks) := by
  have h := (tracks_scatter_content tracks [] (by intro e he; simp at he)).1
  unfold cvat_tracks_to_frames_dict
  rw [h]
  rw [show ((collectLabels ([] : Frames) : List (ℤ × FOLabel)) :
    Multiset (ℤ × FOLabel)) = 0 from rfl]
  rw [zero_add]

theorem insIntSorted_perm (x : ℤ) : ∀ l : List ℤ, (insIntSorted x l).Perm (x :: l) := by
  intro l
  induction l with
  | nil => simp [insIntSorted]
  | cons y ys ih =>
    rw [insIntSorted]
    by_cases h : x ≤ y
    · rw [if_pos h]
    · rw [if_neg h]
      exact (ih.cons y).trans (List.Perm.swap x y ys)

theorem intSort_perm : ∀ l : List ℤ, (intSort l).Perm l := by
  intro l
  induction l with
  | nil => simp [intSort]
  | cons x xs ih =>
    rw [show intSort (x :: xs) = insIntSorted x (intSort xs) from rfl]
    exact (insIntSorted_perm x (intSort xs)).trans (ih.cons x)

theorem tracksLabels_content (fsz : ℤ × ℤ) (hw : (fsz.1 : ℚ) ≠ 0)
    (hh : (fsz.2 : ℚ) ≠ 0) (m : List (ℤ × List (ℤ × FOLabel))) :
    ∀ ks : List ℤ,
      (∀ i ∈ ks, ∀ d, alookup i m = some d →
        (d.map Prod.fst).Nodup ∧ (∀ q ∈ d, q.2.index = some i ∧ LabelOk fsz q.2)) →
      ((tracksLabels (ks.map (fun i =>
          CVATTrack.from_labels i ((alookup i m).getD []) fsz)) :
          List (ℤ × FOLabel)) : Multiset (ℤ × FOLabel)) =
        (ks.map (fun k => (((alookup k m).getD [] : List (ℤ × FOLabel)) :
          Multiset (ℤ × FOLabel)))).sum := by
  intro ks
  induction ks with
  | nil => intro _; rfl
  | cons k rest ih =>
    intro hks
    rw [List.map_cons, show tracksLabels
      (CVATTrack.from_labels k ((alookup k m).getD []) fsz ::
        rest.map (fun i => CVATTrack.from_labels i ((alookup i m).getD []) fsz)) =
      (CVATTrack.from_labels k ((alookup k m).getD []) fsz).to_labels ++
        tracksLabels (rest.map (fun i =>
          CVATTrack.from_labels i ((alookup i m).getD []) fsz)) from rfl]
    simp only [← Multiset.coe_add]
    rw [ih (fun i hi => hks i (List.mem_cons_of_mem _ hi))]
    rw [List.map_cons, List.sum_cons]
    congr 1
    rcases halk : alookup k m with _ | d
    · rw [show ((Option.none : Option (List (ℤ × FOLabel))).getD []) = [] from rfl]
      rw [track_content k fsz [] hw hh (by simp) (by simp) (by simp)]
    · rw [show ((some d).getD ([] : List (ℤ × FOLabel))) = d from rfl]
      obtain ⟨hnd, hcond⟩ := hks k (List.mem_cons_self _ _) d halk
      exact track_content k fsz d hw hh hnd
        (fun p hp => (hcond p hp).2) (fun p hp => (hcond p hp).1)

theorem sum_over_keys : ∀ m : List (ℤ × List (ℤ × FOLabel)),
    (m.map Prod.fst).Nodup →
    ((m.map Prod.fst).map (fun k => (((alookup k m).getD [] : List (ℤ × FOLabel)) :
      Multiset (ℤ × FOLabel)))).sum =
      ↑(groupedPairs m) := by
  intro m
  induction m with
  | nil => intro _; rfl
  | cons hd tl ih =>
    intro hnd
    simp only [List.map_cons, List.nodup_cons] at hnd
    rw [List.map_cons, List.map_cons, List.sum_cons]
    rw [show alookup hd.1 (hd :: tl) = some hd.2 from by
      rw [show hd :: tl = (hd.1, hd.2) :: tl from rfl, alookup, if_pos rfl]]
    rw [show ((some hd.2).getD ([] : List (ℤ × FOLabel))) = hd.2 from rfl]
    have hmc : (List.map Prod.fst tl).map (fun k =>
        (((alookup k (hd :: tl)).getD [] : List (ℤ × FOLabel)) :
          Multiset (ℤ × FOLabel))) =
        (List.map Prod.fst tl).map (fun k =>
          (((alookup k tl).getD [] : List (ℤ × FOLabel)) :
            Multiset (ℤ × FOLabel))) := by
      apply List.map_congr_left
      intro j hj
      have hjk : hd.1 ≠ j := fun h => hnd.1 (h ▸ hj)
      rw [show hd :: tl = (hd.1, hd.2) :: tl from rfl, alookup, if_neg hjk]
    rw [hmc, ih hnd.2]
    rw [show groupedPairs (hd :: tl) = hd.2 ++ groupedPairs tl from rfl]
    rw [← Multiset.coe_add]

theorem foldl_max_tracks (Fm : ℤ → CVATTrack) :
    ∀ (ks : List ℤ) (a : ℤ) (ts : List CVATTrack),
      ks.foldl (fun acc i => (max i acc.1, acc.2 ++ [Fm i])) (a, ts) =
        (ks.foldl (fun x i => max i x) a, ts ++ ks.map Fm) := by
  intro ks
  induction ks with
  | nil => intro a ts; simp
  | cons k rest ih =>
    intro a ts
    rw [List.foldl_cons, ih, List.foldl_cons]
    simp

/-- C2 counterexample: two indexed keypoints share index 0 and frame 0
(stored under different field names of the same frame), so
`labels_map[0][0]` is overwritten during aggregation: the round trip
returns 1 `(frame, label)` pair where the input had 2. -/
theorem C2_counterexample :
    ((frames_to_cvat_tracks
        [(0, [("f1", FrameValue.single (FOLabel.kp "a" [] (some 0) [])),
              ("f2", FrameValue.single (FOLabel.kp "b" [] (some 0) []))])]
        (1, 1)).map
      (fun ts => (collectLabels (cvat_tracks_to_frames_dict ts)).length)) =
        some 1 ∧
      (collectLabels
        [(0, [("f1", FrameValue.single (FOLabel.kp "a" [] (some 0) [])),
              ("f2", FrameValue.single (FOLabel.kp "b" [] (some 0) []))])]).length
        = 2 := by
  constructor
  · rfl
  · rfl

/-- C2 (amended): track aggregation is a left inverse of de-aggregation
up to reordering, provided no two labels share the same
`(index, frame)` pair.  For every per-frame mapping of indexed labels
with pairwise-distinct `(index, frame)` pairs, positive frame
dimensions, and labels the video codec stores losslessly (canonical
attribute dicts without `None` values; pixel-aligned geometry;
polylines of a single shape with `closed = filled`), aggregating into
tracks and expanding back yields exactly the same multiset of
`(frame number, label)` pairs — attributes unchanged, `index`
preserved. -/
theorem C2_track_round_trip (frames : Frames) (fsz : ℤ × ℤ)
    (hw : 0 < fsz.1) (hh : 0 < fsz.2)
    (hf : (buildFrames frames).found_label = true)
    (hidx : ∀ p ∈ collectLabels frames, p.2.index ≠ Option.none)
    (hnd : ((collectLabels frames).map (fun p => (p.2.index, p.1))).Nodup)
    (hok : ∀ p ∈ collectLabels frames, LabelOk fsz p.2) :
    ∃ tracks, frames_to_cvat_tracks frames fsz = some tracks ∧
      ((collectLabels (cvat_tracks_to_frames_dict tracks) : List (ℤ × FOLabel)) :
        Multiset (ℤ × FOLabel)) = ↑(collectLabels frames) := by
  have hw' : ((fsz.1 : ℚ)) ≠ 0 := by
    exact_mod_cast hw.ne'
  have hh' : ((fsz.2 : ℚ)) ≠ 0 := by
    exact_mod_cast hh.ne'
  have hg := buildFrames_group_main frames
  have hm : (buildFrames frames).labels_map =
      (groupPairs (collectLabels frames)).1 := congrArg Prod.fst hg
  have hnim : (buildFrames frames).no_index_map =
      (groupPairs (collectLabels frames)).2 := congrArg Prod.snd hg
  obtain ⟨h2, hkn, hent, hcont⟩ := groupPairs_inv (collectLabels frames) hidx hnd
  have hrun : frames_to_cvat_tracks frames fsz = some
      ((intSort ((buildFrames frames).labels_map.map Prod.fst)).map
        (fun i => CVATTrack.from_labels i
          ((alookup i (buildFrames frames).labels_map).getD []) fsz)) := by
    have hshape : frames_to_cvat_tracks frames fsz =
        (if ¬ (buildFrames frames).found_label = true then
          (Option.none : Option (List CVATTrack))
        else
          some (((buildFrames frames).no_index_map.foldl (fun acc p =>
            p.2.foldl (fun a l => (a.1 + 1,
              a.2 ++ [CVATTrack.from_labels (a.1 + 1) [(p.1, l)] fsz])) acc)
            (((intSort ((buildFrames frames).labels_map.map Prod.fst)).foldl
                (fun acc i => (max i acc.1, acc.2 ++ [CVATTrack.from_labels i
                  ((alookup i (buildFrames frames).labels_map).getD []) fsz]))
                (-1, [])).1,
              ((intSort ((buildFrames frames).labels_map.map Prod.fst)).foldl
                (fun acc i => (max i acc.1, acc.2 ++ [CVATTrack.from_labels i
                  ((alookup i (buildFrames frames).labels_map).getD []) fsz]))
                (-1, [])).2)).2)) := rfl
    rw [hshape]
    rw [if_neg (by simp [hf])]
    rw [hnim.trans h2]
    rw [List.foldl_nil]
    rw [foldl_max_tracks (fun i => CVATTrack.from_labels i
      ((alookup i (buildFrames frames).labels_map).getD []) fsz)]
    simp
  refine ⟨_, hrun, ?_⟩
  rw [cvat_tracks_to_frames_dict_content]
  have hks : ∀ i ∈ intSort ((buildFrames frames).labels_map.map Prod.fst), ∀ d,
      alookup i (buildFrames frames).labels_map = some d →
      (d.map Prod.fst).Nodup ∧ (∀ q ∈ d, q.2.index = some i ∧ LabelOk fsz q.2) := by
    intro i _ d hd
    rw [hm] at hd
    obtain ⟨he, hn'⟩ := hent i d hd
    refine ⟨hn', fun q hq => ?_⟩
    obtain ⟨hqi, hqps⟩ := he q hq
    refine ⟨hqi, ?_⟩
    have h3 := hok (q.1, q.2) hqps
    simpa using h3
  rw [tracksLabels_content fsz hw' hh' (buildFrames frames).labels_map _ hks]
  have hperm := (intSort_perm ((buildFrames frames).labels_map.map Prod.fst)).map
    (fun k => (((alookup k (buildFrames frames).labels_map).getD [] :
      List (ℤ × FOLabel)) : Multiset (ℤ × FOLabel)))
  rw [hperm.sum_eq]
  rw [hm]
  rw [sum_over_keys (groupPairs (collectLabels frames)).1 hkn]
  exact hcont

/-- Witness for C2: one indexed keypoint on one frame survives the
aggregation round trip. -/
theorem C2_track_round_trip_witness :
    ∃ tracks, frames_to_cvat_tracks
        [(0, [("f1", FrameValue.single (FOLabel.kp "a" [] (some 0) []))])]
        (2, 2) = some tracks ∧
      ((collectLabels (cvat_tracks_to_frames_dict tracks) : List (ℤ × FOLabel)) :
        Multiset (ℤ × FOLabel)) =
        ↑(collectLabels
          [(0, [("f1", FrameValue.single (FOLabel.kp "a" [] (some 0) []))])]) :=
  C2_track_round_trip
    [(0, [("f1", FrameValue.single (FOLabel.kp "a" [] (some 0) []))])] (2, 2)
    (by decide) (by decide) (by decide) (by decide) (by decide)
    (by
      intro p hp
      simp only [collectLabels, collectFrame, fvContent, List.map_cons,
        List.map_nil, List.append_nil, List.nil_append, List.mem_singleton] at hp
      subst hp
      exact ⟨⟨List.Pairwise.nil, fun q hq => absurd hq (List.not_mem_nil q)⟩,
        fun q hq => absurd hq (List.not_mem_nil q)⟩)

theorem from_labels_id (i : ℤ) (d : List (ℤ × FOLabel)) (fsz : ℤ × ℤ) :
    (CVATTrack.from_labels i d fsz).id = i := rfl

theorem foldl_noindex_inner (fsz : ℤ × ℤ) (fn : ℤ) :
    ∀ (ls : List FOLabel) (c : ℤ) (ts : List CVATTrack),
      ls.foldl (fun a l => (a.1 + 1,
          a.2 ++ [CVATTrack.from_labels (a.1 + 1) [(fn, l)] fsz])) (c, ts) =
        (c + ls.length, ts ++ enumTracks fsz c (ls.map (fun l => (fn, l)))) := by
  intro ls
  induction ls with
  | nil => intro c ts; simp [enumTracks]
  | cons l rest ih =>
    intro c ts
    rw [List.foldl_cons, ih]
    rw [List.map_cons, show enumTracks fsz c ((fn, l) :: rest.map (fun l => (fn, l))) =
      CVATTrack.from_labels (c + 1) [(fn, l)] fsz ::
        enumTracks fsz (c + 1) (rest.map (fun l => (fn, l))) from rfl]
    rw [Prod.mk.injEq]
    refine ⟨?_, ?_⟩
    · simp only [List.length_cons]
      push_cast
      ring
    · simp

theorem enumTracks_append (fsz : ℤ × ℤ) :
    ∀ (a b : List (ℤ × FOLabel)) (c : ℤ),
      enumTracks fsz c (a ++ b) =
        enumTracks fsz c a ++ enumTracks fsz (c + a.length) b := by
  intro a
  induction a with
  | nil => intro b c; simp [enumTracks]
  | cons p as ih =>
    intro b c
    rw [List.cons_append]
    rw [show enumTracks fsz c (p :: (as ++ b)) =
      CVATTrack.from_labels (c + 1) [p] fsz :: enumTracks fsz (c + 1) (as ++ b)
      from rfl]
    rw [ih b (c + 1)]
    rw [show enumTracks fsz c (p :: as) =
      CVATTrack.from_labels (c + 1) [p] fsz :: enumTracks fsz (c + 1) as from rfl]
    rw [List.cons_append]
    congr 2
    simp only [List.length_cons]
    push_cast
    ring

theorem foldl_noindex (fsz : ℤ × ℤ) :
    ∀ (nim : List (ℤ × List FOLabel)) (c : ℤ) (ts : List CVATTrack),
      nim.foldl (fun acc p => p.2.foldl (fun a l => (a.1 + 1,
          a.2 ++ [CVATTrack.from_labels (a.1 + 1) [(p.1, l)] fsz])) acc) (c, ts) =
        (c + (noIndexList nim).length, ts ++ enumTracks fsz c (noIndexList nim)) := by
  intro nim
  induction nim with
  | nil => intro c ts; simp [noIndexList, enumTracks]
  | cons p rest ih =>
    intro c ts
    rw [List.foldl_cons]
    rw [foldl_noindex_inner fsz p.1 p.2 c ts]
    rw [ih]
    rw [show noIndexList (p :: rest) =
      p.2.map (fun l => (p.1, l)) ++ noIndexList rest from rfl]
    rw [enumTracks_append]
    rw [Prod.mk.injEq]
    refine ⟨?_, ?_⟩
    · simp only [List.length_append, List.length_map]
      push_cast
      ring
    · rw [List.append_assoc]
      congr 2
      simp

theorem enumTracks_ids (fsz : ℤ × ℤ) :
    ∀ (ps : List (ℤ × FOLabel)) (c : ℤ),
      (enumTracks fsz c ps).map CVATTrack.id = consecFrom c ps.length := by
  intro ps
  induction ps with
  | nil => intro c; rfl
  | cons p rest ih =>
    intro c
    rw [show enumTracks fsz c (p :: rest) =
      CVATTrack.from_labels (c + 1) [p] fsz :: enumTracks fsz (c + 1) rest from rfl]
    rw [List.map_cons, ih, from_labels_id]
    rfl

/-- C3: `_frames_to_cvat_tracks` groups indexed labels into exactly one
track per distinct index (in sorted index order, each track built from
that index's frame-to-label dict), and then gives every unindexed label
its own single-frame track, with fresh ids `max_index + 1,
max_index + 2, …` assigned in encounter order; the resulting track-id
list is the sorted distinct indices followed by the consecutive fresh
ids. -/
theorem C3_track_index_assignment (frames : Frames) (fsz : ℤ × ℤ)
    (hf : (buildFrames frames).found_label = true) :
    frames_to_cvat_tracks frames fsz = some
      ((intSort ((buildFrames frames).labels_map.map Prod.fst)).map
        (fun i => CVATTrack.from_labels i
          ((alookup i (buildFrames frames).labels_map).getD []) fsz)
        ++ enumTracks fsz
          (maxIndexOf (intSort ((buildFrames frames).labels_map.map Prod.fst)))
          (noIndexList (buildFrames frames).no_index_map)) ∧
    ((frames_to_cvat_tracks frames fsz).getD []).map CVATTrack.id =
      intSort ((buildFrames frames).labels_map.map Prod.fst) ++
        consecFrom
          (maxIndexOf (intSort ((buildFrames frames).labels_map.map Prod.fst)))
          (noIndexList (buildFrames frames).no_index_map).length := by
  have hshape : frames_to_cvat_tracks frames fsz =
      (if ¬ (buildFrames frames).found_label = true then
        (Option.none : Option (List CVATTrack))
      else
        some (((buildFrames frames).no_index_map.foldl (fun acc p =>
          p.2.foldl (fun a l => (a.1 + 1,
            a.2 ++ [CVATTrack.from_labels (a.1 + 1) [(p.1, l)] fsz])) acc)
          (((intSort ((buildFrames frames).labels_map.map Prod.fst)).foldl
              (fun acc i => (max i acc.1, acc.2 ++ [CVATTrack.from_labels i
                ((alookup i (buildFrames frames).labels_map).getD []) fsz]))
              (-1, [])).1,
            ((intSort ((buildFrames frames).labels_map.map Prod.fst)).foldl
              (fun acc i => (max i acc.1, acc.2 ++ [CVATTrack.from_labels i
                ((alookup i (buildFrames frames).labels_map).getD []) fsz]))
              (-1, [])).2)).2)) := rfl
  have hrun : frames_to_cvat_tracks frames fsz = some
      ((intSort ((buildFrames frames).labels_map.map Prod.fst)).map
        (fun i => CVATTrack.from_labels i
          ((alookup i (buildFrames frames).labels_map).getD []) fsz)
        ++ enumTracks fsz
          (maxIndexOf (intSort ((buildFrames frames).labels_map.map Prod.fst)))
          (noIndexList (buildFrames frames).no_index_map)) := by
    rw [hshape]
    rw [if_neg (by simp [hf])]
    rw [foldl_max_tracks (fun i => CVATTrack.from_labels i
      ((alookup i (buildFrames frames).labels_map).getD []) fsz)]
    rw [foldl_noindex fsz]
    rw [show maxIndexOf (intSort ((buildFrames frames).labels_map.map Prod.fst)) =
      (intSort ((buildFrames frames).labels_map.map Prod.fst)).foldl
        (fun x i => max i x) (-1) from rfl]
    simp
  refine ⟨hrun, ?_⟩
  rw [hrun]
  rw [show (some ((intSort ((buildFrames frames).labels_map.map Prod.fst)).map
      (fun i => CVATTrack.from_labels i
        ((alookup i (buildFrames frames).labels_map).getD []) fsz)
      ++ enumTracks fsz
        (maxIndexOf (intSort ((buildFrames frames).labels_map.map Prod.fst)))
        (noIndexList (buildFrames frames).no_index_map))).getD [] =
    ((intSort ((buildFrames frames).labels_map.map Prod.fst)).map
      (fun i => CVATTrack.from_labels i
        ((alookup i (buildFrames frames).labels_map).getD []) fsz)
      ++ enumTracks fsz
        (maxIndexOf (intSort ((buildFrames frames).labels_map.map Prod.fst)))
        (noIndexList (buildFrames frames).no_index_map)) from rfl]
  rw [List.map_append]
  rw [enumTracks_ids]
  congr 1
  rw [List.map_map]
  rw [show (CVATTrack.id ∘ fun i => CVATTrack.from_labels i
    ((alookup i (buildFrames frames).labels_map).getD []) fsz) =
    (fun i : ℤ => i) from rfl]
  exact List.map_id' _

/-- Witness for C3: three indexed labels using indices `{0, 2, 5}` plus
three unindexed labels give tracks with ids `[0, 2, 5, 6, 7, 8]` — the
unindexed labels receive `6, 7, 8` in encounter order. -/
theorem C3_track_index_assignment_witness :
    (frames_to_cvat_tracks framesC3 (1, 1) = some
      ((intSort ((buildFrames framesC3).labels_map.map Prod.fst)).map
        (fun i => CVATTrack.from_labels i
          ((alookup i (buildFrames framesC3).labels_map).getD []) (1, 1))
        ++ enumTracks (1, 1)
          (maxIndexOf (intSort ((buildFrames framesC3).labels_map.map Prod.fst)))
          (noIndexList (buildFrames framesC3).no_index_map)) ∧
      ((frames_to_cvat_tracks framesC3 (1, 1)).getD []).map CVATTrack.id =
        intSort ((buildFrames framesC3).labels_map.map Prod.fst) ++
          consecFrom
            (maxIndexOf (intSort ((buildFrames framesC3).labels_map.map Prod.fst)))
            (noIndexList (buildFrames framesC3).no_index_map).length) ∧
    ((frames_to_cvat_tracks framesC3 (1, 1)).getD []).map CVATTrack.id =
      [0, 2, 5, 6, 7, 8] :=
  ⟨C3_track_index_assignment framesC3 (1, 1) (by decide), by decide⟩

end FiftyoneCVAT
